import Mathlib

/-!
# Talkers: a verification development for the call-rendezvous simulation

The program simulates `N` talkers, one thread each, that call one another.
It has two interchangeable synchronisation strategies:

* `semaphore_mode.c` (namespace `Sem`): two counting semaphores per talker;
* `condition_mode.c` (namespace `Cond`): a mailbox flag, a condition variable
  and a two-party barrier allocated per call.

The embedding is a small-step interleaving semantics.  Every worker thread has
a program point (`Loc`) and its C locals (`Frame`); one step of a worker
executes one atomic action of the source: a mutex-protected critical section,
a semaphore or barrier operation, an atomic read-modify-write, or an
unprotected access to a shared field.  No critical section of the source
contains a blocking call, so mutexes are always free between steps and are not
represented.  `log_message`, serialised by the logger lock, only appends to the
log; it is folded into the neighbouring action of the same thread, as are
`msleep` and accesses to `conversations`, which only its own thread touches.

The outcomes of `rand()`, of the stop flag and of the clock are inputs of each
step (`Env`).  `int` fields are `Int`; `conversations++` and the arithmetic of
`random_range` wrap to 32 bits.
-/

namespace Talkers

/-! ## common.c / common.h -/

/-- Value of `MAX_TALKERS` in common.h. -/
def MAX_TALKERS : Int := 64

/-- Value of libc's `RAND_MAX` (glibc); only its positivity is used in proofs. -/
def RAND_MAX : Nat := 2147483647

/-- Two's-complement wrap of a mathematical integer into the range of a C `int`. -/
def wrapInt (x : Int) : Int := (x + 2147483648) % 4294967296 - 2147483648

/-- A finite IEEE-754 binary64 value, as the rational it denotes, or NaN.
Infinities do not arise: `parse_args` rejects them and the only division is by
`RAND_MAX`. -/
inductive Dbl where
  | nan : Dbl
  | fin (q : ℚ) : Dbl
deriving DecidableEq

/-- The C comparison `a < b` on doubles: false as soon as one side is NaN. -/
def Dbl.lt : Dbl → Dbl → Bool
  | .fin a, .fin b => decide (a < b)
  | _, _ => false

/-- Round a rational to the nearest integer, ties to the even one. -/
def roundHalfEven (q : ℚ) : Int :=
  let f : Int := Int.floor q
  let r : ℚ := q - f
  if r < 1 / 2 then f
  else if 1 / 2 < r then f + 1
  else if f % 2 = 0 then f else f + 1

/-- Round a rational to binary64 (53-bit significand, round to nearest, ties to
even) inside the normal range, which contains every quotient
`rand() / (double)RAND_MAX`. -/
def roundDouble (q : ℚ) : ℚ :=
  if q ≤ 0 then 0
  else
    let e0 : Int := (Nat.log2 q.num.toNat : Int) - (Nat.log2 q.den : Int)
    let e : Int := if q < (2 : ℚ) ^ e0 then e0 - 1 else e0
    (roundHalfEven (q * (2 : ℚ) ^ (52 - e)) : ℚ) * (2 : ℚ) ^ (e - 52)

/-- The expression `rand() / (double)RAND_MAX` for the value `r` returned by
`rand()`: both operands are exact doubles, the quotient is rounded once. -/
def rand_ratio (r : Nat) : Dbl := .fin (roundDouble ((r : ℚ) / (RAND_MAX : ℚ)))

/-- The fields of `Config` (common.h) that the simulation core reads. -/
structure Config where
  talkers : Int
  min_idle_ms : Int
  max_idle_ms : Int
  min_call_ms : Int
  max_call_ms : Int
  stop_after_calls : Int
  leave_probability : Dbl
  duration_seconds : Int

/-- The C `struct timespec`. -/
structure Timespec where
  tv_sec : Int
  tv_nsec : Int
deriving DecidableEq

/-- What a step observes of the outside world: the value the next `rand()`
returns, the SIGINT stop flag, and the monotonic clock. -/
structure Env where
  rnd : Nat
  stop : Bool
  now : Timespec

/-- common.c `random_range`, with `r` the value returned by `rand()`. -/
def random_range (min max : Int) (r : Nat) : Int :=
  if max ≤ min then min
  else
    let span := wrapInt (max - min + 1)
    wrapInt (min + Int.tmod (r : Int) span)

/-- The function `timed_out` (the same text in both strategy files), with `now` the
reading of `clock_gettime(CLOCK_MONOTONIC)`. -/
def timed_out (cfg : Config) (start_ts now : Timespec) : Bool :=
  if cfg.duration_seconds ≤ 0 then false
  else decide (now.tv_sec - start_ts.tv_sec ≥ cfg.duration_seconds)

/-- The function `should_leave` (the same text in both strategy files): `conversations` is
`self->conversations`, `r` the value `rand()` returns if it is called. -/
def should_leave (cfg : Config) (conversations : Int) (r : Nat) : Bool :=
  if cfg.stop_after_calls > 0 ∧ conversations ≥ cfg.stop_after_calls then true
  else Dbl.lt (rand_ratio r) cfg.leave_probability

/-- The lines written through `log_message` by the worker threads. -/
inductive Event where
  | answers (self caller : Int)
  | conversation (a b duration_ms : Int)
  | finished (self other duration_ms : Int)
  | line_busy (target self : Int)
  | dials (self target : Int)
  | disconnected (self left : Int)
  | last_finished
deriving DecidableEq

/-- The two call sites of `handle_incoming` in `talker_thread`: right after the
idle pause, and in the "wait for incoming" branch. -/
inductive Site where
  | first
  | second
deriving DecidableEq

/-- The bounds `parse_args` enforces on the number of talkers. -/
def Config.valid (cfg : Config) : Prop := 1 ≤ cfg.talkers ∧ cfg.talkers ≤ MAX_TALKERS

/-- Number of indices below `n` at which `f` holds. -/
def countUpTo (f : Nat → Bool) : Nat → Nat
  | 0 => 0
  | n + 1 => countUpTo f n + (if f n then 1 else 0)

/-- An observation with no stop request and the clock still at the start. -/
def quiet (r : Nat) : Env := { rnd := r, stop := false, now := ⟨0, 0⟩ }

/-- The start instant used in the concrete executions. -/
def t0 : Timespec := ⟨0, 0⟩

/-- Two talkers, calls of 50..59 ms, leave probability 1/2, no call cap, no time budget. -/
def cfg2 : Config := ⟨2, 10, 10, 50, 59, 0, .fin (1 / 2), 0⟩

/-- Three talkers, calls of 50..59 ms, nobody ever leaves, no time budget. -/
def cfg3 : Config := ⟨3, 10, 10, 50, 59, 0, .fin 0, 0⟩

/-- Schedule entries: worker `p` moves `n` times. -/
def moves (p n : Nat) : List (Nat × Env) := List.replicate n (p, quiet 0)

/-- Schedule entries that take a fresh worker `p` from the head of its loop
through an empty drain and the coin flip into call placement, where it draws
`rand()` value `dur` for the duration and `tgt` for the target, and stops in
front of the availability check. -/
def toCheck (p dur tgt : Nat) : List (Nat × Env) :=
  [(p, quiet 0), (p, quiet 0), (p, quiet 0), (p, quiet 0), (p, quiet 1), (p, quiet dur),
   (p, quiet 0), (p, quiet tgt)]

/-- A normalised `struct timespec`, as `clock_gettime` returns it: the
nanoseconds lie in `[0, 10^9)`. -/
def Timespec.normal (t : Timespec) : Prop := 0 ≤ t.tv_nsec ∧ t.tv_nsec < 1000000000

/-- Time elapsed from `start_ts` to `now` in nanoseconds, the seconds and the
nanoseconds of both readings taken together. -/
def elapsedNanos (start_ts now : Timespec) : Int :=
  (now.tv_sec - start_ts.tv_sec) * 1000000000 + (now.tv_nsec - start_ts.tv_nsec)

/-- The time budget as the specification words it, to be compared with
`timed_out`: a positive budget has elapsed when at least `duration_seconds` full
seconds have passed since the start instant. -/
def budget_elapsed (cfg : Config) (start_ts now : Timespec) : Bool :=
  decide (0 < cfg.duration_seconds ∧
    cfg.duration_seconds * 1000000000 ≤ elapsedNanos start_ts now)

/-- Two talkers with a time budget of one second. -/
def cfgBudget : Config := ⟨2, 10, 10, 50, 59, 0, .fin 0, 1⟩

/-- The decision to leave as the specification words it, to be compared with
`should_leave`: the cap is positive and reached, or the draw divided by
`RAND_MAX`, as an exact quotient, is strictly below the leave probability. -/
def leave_by_exact_quotient (cfg : Config) (conversations : Int) (r : Nat) : Bool :=
  decide (0 < cfg.stop_after_calls ∧ cfg.stop_after_calls ≤ conversations) ||
    match cfg.leave_probability with
    | .fin p => decide ((r : ℚ) / (RAND_MAX : ℚ) < p)
    | .nan => false

/-- Two talkers, no call cap, and the leave probability `6004799500364459 / 2 ^ 54`,
the binary64 value next to one third from below by `1 / (3 * RAND_MAX)`. -/
def cfgThird : Config := ⟨2, 10, 10, 50, 59, 0, .fin (6004799500364459 / 18014398509481984), 0⟩

/-! ## semaphore_mode.c -/

namespace Sem

/-- The C struct `CallRequest`. -/
structure CallRequest where
  from_id : Int
  duration_ms : Int
  has_request : Bool
deriving DecidableEq

/-- The shared fields of the C struct `Talker`; `id` is the index in
`Shared.talkers`, the mutex is implicit in the atomicity of the steps. -/
structure Talker where
  incoming_sem : Nat
  answer_sem : Nat
  incoming : CallRequest
  active : Bool
  busy : Bool
  conversations : Int
deriving DecidableEq

/-- Program points of a worker thread: `talker_thread` with `handle_incoming`,
`try_start_call` and `leave_network` inlined at their call sites. -/
inductive Loc where
  | loop_head                 -- line 143: the `while` condition
  | idle                      -- lines 144-145
  | hi_trywait (k : Site)     -- line 79: `sem_trywait(&self->incoming_sem)`
  | hi_take (k : Site)        -- lines 80-83: read and clear `incoming` under the own mutex
  | hi_answer (k : Site)      -- lines 85-87: `sem_post(&caller->answer_sem)`
  | hi_talk (k : Site)        -- lines 89-90
  | hi_finish (k : Site)      -- line 92: `finish_conversation`
  | after_drain               -- line 148
  | coin                      -- line 150
  | call_start                -- lines 97-100
  | call_loop                 -- line 101: the `while` condition
  | call_pick                 -- lines 102-104
  | call_check                -- lines 106-113 or 106-108, 131-133: under the callee mutex
  | call_self_busy            -- lines 115-117
  | call_post                 -- lines 119-120: `sem_post(&callee->incoming_sem)`
  | call_wait                 -- line 121: `sem_wait(&self->answer_sem)`
  | call_woken                -- line 122
  | call_abort                -- lines 123-124
  | call_talk                 -- lines 126-127
  | call_finish               -- lines 128-129
  | call_ret (b : Bool)       -- `try_start_call` has returned `b`
  | leave_check               -- line 157: `should_leave`
  | leave_flag                -- lines 71-73
  | leave_count               -- lines 74-75, 159
  | exit_check                -- lines 163-165
  | done                      -- line 166
deriving DecidableEq

/-- The C locals of a worker thread. -/
structure Frame where
  pc : Loc
  duration : Int
  attempts : Int
  target : Int
  req : CallRequest

/-- The C struct `Shared`, the locals of every worker, and the log. -/
structure Shared where
  talkers : Nat → Talker
  frames : Nat → Frame
  active_count : Int
  start_ts : Timespec
  log : List Event

/-- Move worker `p` to program point `l`. -/
def Shared.goto (s : Shared) (p : Nat) (l : Loc) : Shared :=
  { s with frames := Function.update s.frames p { s.frames p with pc := l } }

/-- Replace the locals of worker `p`. -/
def Shared.setFrame (s : Shared) (p : Nat) (f : Frame) : Shared :=
  { s with frames := Function.update s.frames p f }

/-- Replace the shared fields of talker `i`. -/
def Shared.setTalker (s : Shared) (i : Nat) (t : Talker) : Shared :=
  { s with talkers := Function.update s.talkers i t }

/-- Append a line to the log (`log_message`). -/
def Shared.emit (s : Shared) (ev : Event) : Shared :=
  { s with log := s.log ++ [ev] }

/-- Where `handle_incoming` returns to. -/
def afterHandle : Site → Loc
  | .first => .after_drain
  | .second => .leave_check

/-- The function `release_self`. -/
def release_self (s : Shared) (p : Nat) : Shared :=
  s.setTalker p { s.talkers p with busy := false }

/-- The function `finish_conversation`.  The field `conversations` is a C `int`:
`conversations++` is the increment with two's-complement wrap, which is what
the machine does at `INT_MAX`, where C leaves the result undefined. -/
def finish_conversation (s : Shared) (p : Nat) (other_id duration_ms : Int) : Shared :=
  let s1 := release_self (s.emit (.finished p other_id duration_ms)) p
  s1.setTalker p { s1.talkers p with
    conversations := wrapInt ((s1.talkers p).conversations + 1) }

/-- The test `callee->active && !callee->busy` of `try_start_call`. -/
def available (t : Talker) : Bool := t.active && !t.busy

/-- One atomic action of worker `p`; `none` when the worker is blocked in
`sem_wait` or has returned. -/
def step (cfg : Config) (s : Shared) (p : Nat) (e : Env) : Option Shared :=
  let self := s.talkers p
  let f := s.frames p
  match f.pc with
  | .loop_head =>
      if self.active && !e.stop && !timed_out cfg s.start_ts e.now
      then some (s.goto p .idle) else some (s.goto p .exit_check)
  | .idle => some (s.goto p (.hi_trywait .first))
  | .hi_trywait k =>
      if 0 < self.incoming_sem
      then some ((s.setTalker p { self with incoming_sem := self.incoming_sem - 1 }).goto p
        (.hi_take k))
      else some (s.goto p (afterHandle k))
  | .hi_take k =>
      some ((s.setTalker p { self with incoming := { self.incoming with has_request := false } }).setFrame
        p { f with req := self.incoming, pc := .hi_answer k })
  | .hi_answer k =>
      let c := f.req.from_id.toNat
      let s1 := s.emit (.answers p f.req.from_id)
      some ((s1.setTalker c { s1.talkers c with answer_sem := (s1.talkers c).answer_sem + 1 }).goto p
        (.hi_talk k))
  | .hi_talk k =>
      some ((s.emit (.conversation f.req.from_id p f.req.duration_ms)).goto p (.hi_finish k))
  | .hi_finish k =>
      some ((finish_conversation s p f.req.from_id f.req.duration_ms).goto p (.hi_trywait k))
  | .after_drain =>
      if !self.active || e.stop || timed_out cfg s.start_ts e.now
      then some (s.goto p .exit_check) else some (s.goto p .coin)
  | .coin =>
      if random_range 0 1 e.rnd = 0
      then some (s.goto p (.hi_trywait .second)) else some (s.goto p .call_start)
  | .call_start =>
      some (s.setFrame p { f with
        duration := random_range cfg.min_call_ms cfg.max_call_ms e.rnd,
        attempts := 0, pc := .call_loop })
  | .call_loop =>
      if decide (f.attempts < cfg.talkers * 2) && !e.stop && !timed_out cfg s.start_ts e.now
      then some (s.goto p .call_pick) else some (s.goto p (.call_ret false))
  | .call_pick =>
      let target := random_range 0 (cfg.talkers - 1) e.rnd
      if target = p
      then some (s.setFrame p { f with target := target, attempts := f.attempts + 1, pc := .call_loop })
      else some (s.setFrame p { f with target := target, pc := .call_check })
  | .call_check =>
      let c := f.target.toNat
      let callee := s.talkers c
      if available callee
      then some ((s.setTalker c { callee with
          busy := true,
          incoming := { from_id := p, duration_ms := f.duration, has_request := true } }).goto p
        .call_self_busy)
      else some ((s.emit (.line_busy f.target p)).setFrame p
        { f with attempts := f.attempts + 1, pc := .call_loop })
  | .call_self_busy => some ((s.setTalker p { self with busy := true }).goto p .call_post)
  | .call_post =>
      let c := f.target.toNat
      let s1 := s.emit (.dials p f.target)
      some ((s1.setTalker c { s1.talkers c with incoming_sem := (s1.talkers c).incoming_sem + 1 }).goto p
        .call_wait)
  | .call_wait =>
      if 0 < self.answer_sem
      then some ((s.setTalker p { self with answer_sem := self.answer_sem - 1 }).goto p .call_woken)
      else none
  | .call_woken =>
      if !self.active then some (s.goto p .call_abort) else some (s.goto p .call_talk)
  | .call_abort => some ((release_self s p).goto p (.call_ret false))
  | .call_talk =>
      some ((s.emit (.conversation p f.target f.duration)).goto p .call_finish)
  | .call_finish =>
      some ((finish_conversation s p f.target f.duration).goto p (.call_ret true))
  | .call_ret _ => some (s.goto p .leave_check)
  | .leave_check =>
      if should_leave cfg self.conversations e.rnd
      then some (s.goto p .leave_flag) else some (s.goto p .loop_head)
  | .leave_flag => some ((s.setTalker p { self with active := false }).goto p .leave_count)
  | .leave_count =>
      some (({ s with active_count := s.active_count - 1 }.emit
        (.disconnected p (s.active_count - 1))).goto p .exit_check)
  | .exit_check =>
      if s.active_count = 0
      then some ((s.emit .last_finished).goto p .done) else some (s.goto p .done)
  | .done => none

/-- The state built by `run_semaphore_mode` before the threads are created:
the first `cfg.talkers` slots are initialised by the loop, the others keep the
zeroes of the aggregate initialiser. -/
def init (cfg : Config) (start_ts : Timespec) : Shared :=
  { talkers := fun i =>
      { incoming_sem := 0, answer_sem := 0,
        incoming := { from_id := 0, duration_ms := 0, has_request := false },
        active := decide ((i : Int) < cfg.talkers), busy := false, conversations := 0 },
    frames := fun _ =>
      { pc := .loop_head, duration := 0, attempts := 0, target := 0,
        req := { from_id := 0, duration_ms := 0, has_request := false } },
    active_count := cfg.talkers,
    start_ts := start_ts,
    log := [] }

/-- The states of the interleaved execution: any worker with an id below
`cfg.talkers` may take the next step, with any outcome of the environment. -/
inductive Reachable (cfg : Config) (start_ts : Timespec) : Shared → Prop where
  | init : Reachable cfg start_ts (init cfg start_ts)
  | step (s s2 : Shared) (p : Nat) (e : Env) :
      Reachable cfg start_ts s → (p : Int) < cfg.talkers → step cfg s p e = some s2 →
      Reachable cfg start_ts s2

/-- Run a schedule: each entry names the worker that moves and what it observes;
an entry whose worker is blocked, finished or out of range is skipped. -/
def exec (cfg : Config) (s : Shared) : List (Nat × Env) → Shared
  | [] => s
  | (p, e) :: rest =>
      if (p : Int) < cfg.talkers then
        match step cfg s p e with
        | some s2 => exec cfg s2 rest
        | none => exec cfg s rest
      else exec cfg s rest

/-- Program points inside `try_start_call`, before it returns. -/
def Loc.inCall : Loc → Bool
  | .call_start | .call_loop | .call_pick | .call_check | .call_self_busy | .call_post
  | .call_wait | .call_woken | .call_abort | .call_talk | .call_finish => true
  | _ => false

/-- Program points of `try_start_call` at which the local `target` is in use. -/
def Loc.hasTarget : Loc → Bool
  | .call_check | .call_self_busy | .call_post | .call_wait | .call_woken | .call_abort
  | .call_talk | .call_finish => true
  | _ => false

/-- Program points inside one iteration of the loop of `handle_incoming`,
after `sem_trywait` has succeeded. -/
def Loc.inDrain : Loc → Bool
  | .hi_take _ | .hi_answer _ | .hi_talk _ | .hi_finish _ => true
  | _ => false

/-- Program points after the write `self->active = false` of `leave_network`,
and after the loop of `talker_thread`. -/
def Loc.gone : Loc → Bool
  | .leave_count | .exit_check | .done => true
  | _ => false

/-- Program points that execute `finish_conversation`. -/
def Loc.finishing : Loc → Bool
  | .call_finish | .hi_finish _ => true
  | _ => false

/-- Number of talkers with `active` set. -/
def activeTalkers (cfg : Config) (s : Shared) : Nat :=
  countUpTo (fun i => (s.talkers i).active) cfg.talkers.toNat

/-- Number of workers between the two halves of `leave_network`. -/
def leaving (cfg : Config) (s : Shared) : Nat :=
  countUpTo (fun i => decide ((s.frames i).pc = .leave_count)) cfg.talkers.toNat

/-- State `s2` differs from `s` at most in the locals of worker `p` and in the log. -/
def sameShared (p : Nat) (s s2 : Shared) : Prop :=
  s2.talkers = s.talkers ∧ s2.active_count = s.active_count ∧ s2.start_ts = s.start_ts ∧
    ∀ q, q ≠ p → s2.frames q = s.frames q

/-- Worker `p` alone runs `n` steps, observing `sched 0`, `sched 1`, ...; a step
that is not enabled leaves the state as it is. -/
def runSelf (cfg : Config) (p : Nat) : Nat → (Nat → Env) → Shared → Shared
  | 0, _, s => s
  | n + 1, sched, s =>
      runSelf cfg p n (fun i => sched (i + 1)) ((step cfg s p (sched 0)).getD s)

/-- Number of target draws (executions of line 102) in the run `runSelf`. -/
def picks (cfg : Config) (p : Nat) : Nat → (Nat → Env) → Shared → Nat
  | 0, _, _ => 0
  | n + 1, sched, s =>
      (if (s.frames p).pc = .call_pick then 1 else 0) +
        picks cfg p n (fun i => sched (i + 1)) ((step cfg s p (sched 0)).getD s)

/-- Three talkers: 0 and 2 both enter call placement; 2 has just deposited its
call `{2, 51}` into 0, which is itself about to check talker 1. -/
def raceDeposited : Shared :=
  exec cfg3 (init cfg3 t0) (toCheck 0 0 1 ++ toCheck 2 1 0 ++ moves 2 1)

/-- Talker 2 dials and blocks; 0 claims 1, dials, waits; 1 answers and finishes;
0 wakes up, talks and finishes its own call. -/
def raceOwnCallDone : List (Nat × Env) := moves 2 2 ++ moves 0 3 ++ moves 1 8 ++ moves 0 4

/-- Talker 1 enters call placement, draws duration 52 and target 0, and stops in
front of the availability check. -/
def raceSecondCaller : List (Nat × Env) :=
  [(1, quiet 0), (1, quiet 1), (1, quiet 2), (1, quiet 0), (1, quiet 0)]

/-- Talker 1 places its call and blocks; 0 returns to its loop and reaches the
read of its pending call. -/
def raceToDrain : List (Nat × Env) := moves 1 3 ++ moves 0 5

/-- Two talkers: 1 finishes an iteration without a call and stands before
`should_leave`; 0 places a call to 1 and blocks; 1 draws "leave" and returns. -/
def leftWithCall : Shared :=
  exec cfg2 (init cfg2 t0) (moves 1 6 ++ toCheck 0 0 1 ++ moves 0 3 ++ moves 1 4)

/-- Two talkers place a call to each other at the same time. -/
def crossed : Shared :=
  exec cfg2 (init cfg2 t0)
    (toCheck 0 0 1 ++ toCheck 1 0 0 ++ moves 0 1 ++ moves 1 1 ++ moves 0 2 ++ moves 1 2)

/-- Two talkers: worker 0 has just entered `try_start_call`. -/
def atCallStart : Shared := exec cfg2 (init cfg2 t0) (moves 0 4 ++ [(0, quiet 1)])

/-- From `atCallStart`: talker 0 draws target 1, deposits its call, dials and
waits; talker 1 drains the call and answers; talker 0 talks and finishes. -/
def answeredCall : List (Nat × Env) :=
  [(0, quiet 0), (0, quiet 0), (0, quiet 1)] ++ moves 0 3 ++ moves 1 5 ++ moves 0 4

/-- From `atCallStart`: talker 1 enters call placement, claims talker 0 and
marks itself busy, so that 0 (still at the entry of its own call placement)
finds 1 unavailable. -/
def peerBusy : Shared := exec cfg2 atCallStart (toCheck 1 0 0 ++ moves 1 2)

/-- From `raceDeposited` after `raceOwnCallDone`: talker 1 leaves its drain,
flips the coin and enters `try_start_call`. -/
def slotFullAtCallStart : Shared :=
  exec cfg3 raceDeposited (raceOwnCallDone ++ raceSecondCaller.take 2)

/-- After `raceToDrain`: talker 0 runs the loop of `handle_incoming` until
`sem_trywait` fails; talker 1 wakes up, talks and returns. -/
def raceDoubleDrain : List (Nat × Env) := moves 0 10 ++ moves 1 4

end Sem

/-! ## condition_mode.c -/

namespace Cond

/-- The C struct `CallInfo`.  The barrier a call allocates is named by the id
of the worker that allocates it: a worker owns at most one live barrier, since
it waits on it and destroys it before it can allocate the next one.  `none` is
the `NULL` pointer. -/
structure CallInfo where
  from_id : Int
  duration_ms : Int
  ready : Bool
  sync : Option Nat
deriving DecidableEq

/-- The shared fields of the C struct `Talker`; `id` is the index in
`Shared.talkers`.  The condition variable carries no state: it only cuts short
the timed wait of `talker_thread`. -/
structure Talker where
  incoming : CallInfo
  active : Bool
  busy : Bool
  conversations : Int
deriving DecidableEq

/-- Program points of a worker thread: `talker_thread` with `handle_incoming`,
`try_call` and `leave_network` inlined at their call sites. -/
inductive Loc where
  | loop_head                 -- line 145: the `while` condition
  | idle                      -- lines 146-147
  | hi_check (k : Site)       -- lines 74-80 or 74-75, 94 (and 92): under the own mutex
  | hi_answer (k : Site)      -- lines 82-83
  | hi_barrier (k : Site)     -- line 85: arrival at `pthread_barrier_wait(info.sync)`
  | hi_blocked (k : Site)     -- line 85: waiting inside the barrier
  | hi_talk (k : Site)        -- lines 87-88
  | hi_finish (k : Site)      -- line 90: `finish`
  | after_drain               -- line 150
  | coin                      -- line 152
  | wait_incoming             -- lines 154-162: the timed wait on `incoming_cond`
  | call_start                -- lines 98-100
  | call_loop                 -- line 102: the `while` condition
  | call_pick                 -- lines 103-105
  | call_check                -- lines 107-119 or 107-108, 133-135: under the callee mutex
  | call_self_busy            -- lines 121-122
  | call_barrier              -- line 124: arrival at `pthread_barrier_wait(sync)`
  | call_blocked              -- line 124: waiting inside the barrier
  | call_talk                 -- lines 125-129
  | call_finish               -- lines 130-131
  | call_ret (b : Bool)       -- `try_call` has returned `b`
  | leave_check               -- line 168: `should_leave`
  | leave_flag                -- lines 60-62
  | leave_count               -- lines 63-64, 170
  | exit_check                -- lines 174-176
  | done                      -- line 177
deriving DecidableEq

/-- The C locals of a worker thread; the local `sync` of `try_call` is the
barrier named by the worker itself. -/
structure Frame where
  pc : Loc
  duration : Int
  attempts : Int
  target : Int
  info : CallInfo

/-- The C struct `SharedCond`, the locals of every worker, the barriers and
the log.  `barriers b = some q` says that thread `q` is blocked inside barrier
`b`, waiting for the second party. -/
structure Shared where
  talkers : Nat → Talker
  frames : Nat → Frame
  barriers : Nat → Option Nat
  active_count : Int
  start_ts : Timespec
  stop : Bool
  log : List Event

/-- Move worker `p` to program point `l`. -/
def Shared.goto (s : Shared) (p : Nat) (l : Loc) : Shared :=
  { s with frames := Function.update s.frames p { s.frames p with pc := l } }

/-- Replace the locals of worker `p`. -/
def Shared.setFrame (s : Shared) (p : Nat) (f : Frame) : Shared :=
  { s with frames := Function.update s.frames p f }

/-- Replace the shared fields of talker `i`. -/
def Shared.setTalker (s : Shared) (i : Nat) (t : Talker) : Shared :=
  { s with talkers := Function.update s.talkers i t }

/-- Append a line to the log (`log_message`). -/
def Shared.emit (s : Shared) (ev : Event) : Shared :=
  { s with log := s.log ++ [ev] }

/-- Where `handle_incoming` returns to. -/
def afterHandle : Site → Loc
  | .first => .after_drain
  | .second => .leave_check

/-- The function `finish`.  The field `conversations` is a C `int`:
`conversations++` is the increment with two's-complement wrap, which is what
the machine does at `INT_MAX`, where C leaves the result undefined. -/
def finish (s : Shared) (p : Nat) (other_id duration_ms : Int) : Shared :=
  (s.setTalker p { s.talkers p with
    busy := false, conversations := wrapInt ((s.talkers p).conversations + 1) }).emit
    (.finished p other_id duration_ms)

/-- The test `callee->active && !callee->busy && !callee->incoming.ready` of
`try_call`. -/
def available (t : Talker) : Bool := t.active && !t.busy && !t.incoming.ready

/-- Arrival of thread `p` at the two-party barrier `b`: the first party blocks,
the second releases both. -/
def barrier_wait (s : Shared) (b p : Nat) (blocked passed : Loc) : Shared :=
  match s.barriers b with
  | none => ({ s with barriers := Function.update s.barriers b (some p) }).goto p blocked
  | some _ => ({ s with barriers := Function.update s.barriers b none }).goto p passed

/-- One atomic action of worker `p`; `none` when the worker is blocked inside
a barrier, would dereference a null barrier, or has returned. -/
def step (cfg : Config) (s : Shared) (p : Nat) (e : Env) : Option Shared :=
  let self := s.talkers p
  let f := s.frames p
  match f.pc with
  | .loop_head =>
      if self.active && !s.stop && !timed_out cfg s.start_ts e.now
      then some (s.goto p .idle) else some (s.goto p .exit_check)
  | .idle => some (s.goto p (.hi_check .first))
  | .hi_check k =>
      if self.incoming.ready
      then some ((s.setTalker p { self with
          incoming := { self.incoming with ready := false, sync := none },
          busy := true }).setFrame
        p { f with info := self.incoming, pc := .hi_answer k })
      else some (s.goto p (afterHandle k))
  | .hi_answer k => some ((s.emit (.answers p f.info.from_id)).goto p (.hi_barrier k))
  | .hi_barrier k =>
      match f.info.sync with
      | some b => some (barrier_wait s b p (.hi_blocked k) (.hi_talk k))
      | none => none
  | .hi_blocked k =>
      match f.info.sync with
      | some b => if s.barriers b = some p then none else some (s.goto p (.hi_talk k))
      | none => none
  | .hi_talk k =>
      some ((s.emit (.conversation f.info.from_id p f.info.duration_ms)).goto p (.hi_finish k))
  | .hi_finish k =>
      some ((finish s p f.info.from_id f.info.duration_ms).goto p (.hi_check k))
  | .after_drain =>
      if !self.active || s.stop || timed_out cfg s.start_ts e.now
      then some (s.goto p .exit_check) else some (s.goto p .coin)
  | .coin =>
      if random_range 0 1 e.rnd = 0
      then some (s.goto p .wait_incoming) else some (s.goto p .call_start)
  | .wait_incoming => some (s.goto p (.hi_check .second))
  | .call_start =>
      some (s.setFrame p { f with
        duration := random_range cfg.min_call_ms cfg.max_call_ms e.rnd,
        attempts := 0, pc := .call_loop })
  | .call_loop =>
      if decide (f.attempts < cfg.talkers * 2) && !s.stop && !timed_out cfg s.start_ts e.now
      then some (s.goto p .call_pick) else some (s.goto p (.call_ret false))
  | .call_pick =>
      let target := random_range 0 (cfg.talkers - 1) e.rnd
      if target = p
      then some (s.setFrame p { f with target := target, attempts := f.attempts + 1, pc := .call_loop })
      else some (s.setFrame p { f with target := target, pc := .call_check })
  | .call_check =>
      let c := f.target.toNat
      let callee := s.talkers c
      if available callee
      then some (({ s with barriers := Function.update s.barriers p none }.setTalker c
          { callee with
            incoming := { from_id := p, duration_ms := f.duration, ready := true, sync := some p },
            busy := true }).goto p
        .call_self_busy)
      else some ((s.emit (.line_busy f.target p)).setFrame p
        { f with attempts := f.attempts + 1, pc := .call_loop })
  | .call_self_busy =>
      some (((s.setTalker p { self with busy := true }).emit (.dials p f.target)).goto p
        .call_barrier)
  | .call_barrier => some (barrier_wait s p p .call_blocked .call_talk)
  | .call_blocked => if s.barriers p = some p then none else some (s.goto p .call_talk)
  | .call_talk =>
      some ((s.emit (.conversation p f.target f.duration)).goto p .call_finish)
  | .call_finish => some ((finish s p f.target f.duration).goto p (.call_ret true))
  | .call_ret _ => some (s.goto p .leave_check)
  | .leave_check =>
      if should_leave cfg self.conversations e.rnd
      then some (s.goto p .leave_flag) else some (s.goto p .loop_head)
  | .leave_flag => some ((s.setTalker p { self with active := false }).goto p .leave_count)
  | .leave_count =>
      some (({ s with active_count := s.active_count - 1 }.emit
        (.disconnected p (s.active_count - 1))).goto p .exit_check)
  | .exit_check =>
      if s.active_count = 0
      then some ((s.emit .last_finished).goto p .done) else some (s.goto p .done)
  | .done => none

/-- The state built by `run_condition_mode` before the threads are created:
the first `cfg.talkers` slots are initialised by the loop, the others keep the
zeroes of the aggregate initialiser. -/
def init (cfg : Config) (start_ts : Timespec) : Shared :=
  { talkers := fun i =>
      { incoming := { from_id := 0, duration_ms := 0, ready := false, sync := none },
        active := decide ((i : Int) < cfg.talkers), busy := false, conversations := 0 },
    frames := fun _ =>
      { pc := .loop_head, duration := 0, attempts := 0, target := 0,
        info := { from_id := 0, duration_ms := 0, ready := false, sync := none } },
    barriers := fun _ => none,
    active_count := cfg.talkers,
    start_ts := start_ts,
    stop := false,
    log := [] }

/-- The states of the interleaved execution: any worker with an id below
`cfg.talkers` may take the next step, with any outcome of the environment. -/
inductive Reachable (cfg : Config) (start_ts : Timespec) : Shared → Prop where
  | init : Reachable cfg start_ts (init cfg start_ts)
  | step (s s2 : Shared) (p : Nat) (e : Env) :
      Reachable cfg start_ts s → (p : Int) < cfg.talkers → step cfg s p e = some s2 →
      Reachable cfg start_ts s2

/-- Run a schedule: each entry names the worker that moves and what it observes;
an entry whose worker is blocked, finished or out of range is skipped. -/
def exec (cfg : Config) (s : Shared) : List (Nat × Env) → Shared
  | [] => s
  | (p, e) :: rest =>
      if (p : Int) < cfg.talkers then
        match step cfg s p e with
        | some s2 => exec cfg s2 rest
        | none => exec cfg s rest
      else exec cfg s rest

/-- Program points inside `try_call`, before it returns. -/
def Loc.inCall : Loc → Bool
  | .call_start | .call_loop | .call_pick | .call_check | .call_self_busy | .call_barrier
  | .call_blocked | .call_talk | .call_finish => true
  | _ => false

/-- Program points of `try_call` at which the local `target` is in use. -/
def Loc.hasTarget : Loc → Bool
  | .call_check | .call_self_busy | .call_barrier | .call_blocked | .call_talk
  | .call_finish => true
  | _ => false

/-- Program points inside one iteration of the loop of `handle_incoming`,
after the pending call has been read. -/
def Loc.inDrain : Loc → Bool
  | .hi_answer _ | .hi_barrier _ | .hi_blocked _ | .hi_talk _ | .hi_finish _ => true
  | _ => false

/-- Program points after the write `self->active = false` of `leave_network`,
and after the loop of `talker_thread`. -/
def Loc.gone : Loc → Bool
  | .leave_count | .exit_check | .done => true
  | _ => false

/-- Program points that execute `finish`. -/
def Loc.finishing : Loc → Bool
  | .call_finish | .hi_finish _ => true
  | _ => false

/-- Number of talkers with `active` set. -/
def activeTalkers (cfg : Config) (s : Shared) : Nat :=
  countUpTo (fun i => (s.talkers i).active) cfg.talkers.toNat

/-- Number of workers between the two halves of `leave_network`. -/
def leaving (cfg : Config) (s : Shared) : Nat :=
  countUpTo (fun i => decide ((s.frames i).pc = .leave_count)) cfg.talkers.toNat

/-- State `s2` differs from `s` at most in the locals of worker `p` and in the log. -/
def sameShared (p : Nat) (s s2 : Shared) : Prop :=
  s2.talkers = s.talkers ∧ s2.active_count = s.active_count ∧ s2.start_ts = s.start_ts ∧
    s2.stop = s.stop ∧ s2.barriers = s.barriers ∧
    ∀ q, q ≠ p → s2.frames q = s.frames q

/-- Worker `p` alone runs `n` steps, observing `sched 0`, `sched 1`, ...; a step
that is not enabled leaves the state as it is. -/
def runSelf (cfg : Config) (p : Nat) : Nat → (Nat → Env) → Shared → Shared
  | 0, _, s => s
  | n + 1, sched, s =>
      runSelf cfg p n (fun i => sched (i + 1)) ((step cfg s p (sched 0)).getD s)

/-- Number of target draws (executions of line 103) in the run `runSelf`. -/
def picks (cfg : Config) (p : Nat) : Nat → (Nat → Env) → Shared → Nat
  | 0, _, _ => 0
  | n + 1, sched, s =>
      (if (s.frames p).pc = .call_pick then 1 else 0) +
        picks cfg p n (fun i => sched (i + 1)) ((step cfg s p (sched 0)).getD s)

/-- Three talkers: 0 and 2 both enter call placement and 2 deposits its call
`{2, 51}` into 0; then 2 dials and blocks, 0 claims 1, dials and waits, 1
answers and finishes, and 0 passes the barrier, talks and finishes. -/
def raceOwnCallDone : Shared :=
  exec cfg3 (init cfg3 t0)
    (toCheck 0 0 1 ++ toCheck 2 1 0 ++ moves 2 1 ++
      (moves 2 2 ++ moves 0 3 ++ moves 1 7 ++ moves 0 3))

/-- Two talkers: 1 finishes an iteration without a call and stands before
`should_leave`; 0 places a call to 1 and blocks; 1 draws "leave" and returns. -/
def leftWithCall : Shared :=
  exec cfg2 (init cfg2 t0) (moves 1 7 ++ toCheck 0 0 1 ++ moves 0 3 ++ moves 1 4)

/-- Two talkers place a call to each other at the same time. -/
def crossed : Shared :=
  exec cfg2 (init cfg2 t0)
    (toCheck 0 0 1 ++ toCheck 1 0 0 ++ moves 0 1 ++ moves 1 1 ++ moves 0 2 ++ moves 1 2)

/-- Two talkers: worker 0 has just entered `try_call`. -/
def atCallStart : Shared := exec cfg2 (init cfg2 t0) (moves 0 4 ++ [(0, quiet 1)])

/-- From `atCallStart`: talker 0 draws target 1, deposits its call, dials and
waits at the barrier; talker 1 drains the call and arrives at the barrier;
talker 0 talks and finishes. -/
def answeredCall : List (Nat × Env) :=
  [(0, quiet 0), (0, quiet 0), (0, quiet 1)] ++ moves 0 3 ++ moves 1 5 ++ moves 0 3

/-- From `atCallStart`: talker 1 enters call placement, claims talker 0 and
marks itself busy, so that 0 (still at the entry of its own call placement)
finds 1 unavailable. -/
def peerBusy : Shared := exec cfg2 atCallStart (toCheck 1 0 0 ++ moves 1 2)

/-- From `raceOwnCallDone`: talker 1 finds its slot empty, flips the coin and
enters `try_call`. -/
def slotFullAtCallStart : Shared :=
  exec cfg3 raceOwnCallDone [(1, quiet 0), (1, quiet 0), (1, quiet 1)]

end Cond

end Talkers

/-! ## Executions are reachable -/

namespace Talkers

set_option linter.unusedTactic false
set_option linter.unreachableTactic false
set_option linter.unnecessarySeqFocus false

theorem sem_reachable_exec (cfg : Config) (ts : Timespec) (tr : List (Nat × Env)) :
    ∀ s, Sem.Reachable cfg ts s → Sem.Reachable cfg ts (Sem.exec cfg s tr) := by
  induction tr with
  | nil => intro s hs; exact hs
  | cons x rest ih =>
    intro s hs
    obtain ⟨p, e⟩ := x
    unfold Sem.exec
    by_cases hp : (p : Int) < cfg.talkers
    · rw [if_pos hp]
      cases hst : Sem.step cfg s p e with
      | none => exact ih s hs
      | some s2 => exact ih s2 (Sem.Reachable.step s s2 p e hs hp hst)
    · rw [if_neg hp]; exact ih s hs

theorem cond_reachable_exec (cfg : Config) (ts : Timespec) (tr : List (Nat × Env)) :
    ∀ s, Cond.Reachable cfg ts s → Cond.Reachable cfg ts (Cond.exec cfg s tr) := by
  induction tr with
  | nil => intro s hs; exact hs
  | cons x rest ih =>
    intro s hs
    obtain ⟨p, e⟩ := x
    unfold Cond.exec
    by_cases hp : (p : Int) < cfg.talkers
    · rw [if_pos hp]
      cases hst : Cond.step cfg s p e with
      | none => exact ih s hs
      | some s2 => exact ih s2 (Cond.Reachable.step s s2 p e hs hp hst)
    · rw [if_neg hp]; exact ih s hs

/-- A state in which no worker below `cfg.talkers` can move stays as it is
under every schedule. -/
theorem sem_exec_stuck (cfg : Config) (s : Sem.Shared)
    (h : ∀ (p : Nat) (e : Env), (p : Int) < cfg.talkers → Sem.step cfg s p e = none)
    (tr : List (Nat × Env)) : Sem.exec cfg s tr = s := by
  induction tr with
  | nil => rfl
  | cons x rest ih =>
    obtain ⟨p, e⟩ := x
    unfold Sem.exec
    by_cases hp : (p : Int) < cfg.talkers
    · rw [if_pos hp, h p e hp]; exact ih
    · rw [if_neg hp]; exact ih

theorem cond_exec_stuck (cfg : Config) (s : Cond.Shared)
    (h : ∀ (p : Nat) (e : Env), (p : Int) < cfg.talkers → Cond.step cfg s p e = none)
    (tr : List (Nat × Env)) : Cond.exec cfg s tr = s := by
  induction tr with
  | nil => rfl
  | cons x rest ih =>
    obtain ⟨p, e⟩ := x
    unfold Cond.exec
    by_cases hp : (p : Int) < cfg.talkers
    · rw [if_pos hp, h p e hp]; exact ih
    · rw [if_neg hp]; exact ih

/-! ## The race between two call placements -/

/-- C1, evaluated in `semaphore_mode.c`: in a reachable state talker 1 stands
before the availability check with target 0, whose pending-call slot still holds
the undrained call of talker 2 while its busy flag is clear; the check passes and
the deposit overwrites that call. -/
theorem try_start_call_overwrites_pending_call :
    Sem.Reachable cfg3 t0 (Sem.exec cfg3 Sem.raceDeposited
        (Sem.raceOwnCallDone ++ Sem.raceSecondCaller)) ∧
      ((Sem.exec cfg3 Sem.raceDeposited
        (Sem.raceOwnCallDone ++ Sem.raceSecondCaller)).frames 1).pc = .call_check ∧
      ((Sem.exec cfg3 Sem.raceDeposited
        (Sem.raceOwnCallDone ++ Sem.raceSecondCaller)).frames 1).target = 0 ∧
      ((Sem.exec cfg3 Sem.raceDeposited
        (Sem.raceOwnCallDone ++ Sem.raceSecondCaller)).frames 1).duration = 52 ∧
      ((Sem.exec cfg3 Sem.raceDeposited
        (Sem.raceOwnCallDone ++ Sem.raceSecondCaller)).talkers 0).active = true ∧
      ((Sem.exec cfg3 Sem.raceDeposited
        (Sem.raceOwnCallDone ++ Sem.raceSecondCaller)).talkers 0).busy = false ∧
      ((Sem.exec cfg3 Sem.raceDeposited
        (Sem.raceOwnCallDone ++ Sem.raceSecondCaller)).talkers 0).incoming = ⟨2, 51, true⟩ ∧
      (Sem.step cfg3 (Sem.exec cfg3 Sem.raceDeposited
          (Sem.raceOwnCallDone ++ Sem.raceSecondCaller)) 1 (quiet 0)).map
        (fun s2 => ((s2.talkers 0).busy, (s2.talkers 0).incoming, (s2.frames 1).pc)) =
        some (true, ⟨1, 52, true⟩, .call_self_busy) := by
  refine ⟨?_, by decide!⟩
  exact sem_reachable_exec _ _ _ _ (sem_reachable_exec _ _ _ _ Sem.Reachable.init)

/-- C2, evaluated in `semaphore_mode.c`: talker 2 has deposited the call
`{2, 51}` into talker 0 and waits for the answer; talker 0 does not drain until
the end of the schedule; its next drain then reads the record `{1, 52}` of a
later caller, and talker 2 is still waiting. -/
theorem next_drain_reads_other_call :
    Sem.Reachable cfg3 t0 Sem.raceDeposited ∧
      (Sem.raceDeposited.frames 2).pc = .call_self_busy ∧
      (Sem.raceDeposited.frames 2).target = 0 ∧
      (Sem.raceDeposited.frames 2).duration = 51 ∧
      (Sem.raceDeposited.talkers 0).incoming = ⟨2, 51, true⟩ ∧
      (∀ n : Fin (Sem.raceOwnCallDone ++ Sem.raceSecondCaller ++ Sem.raceToDrain).length,
        ((Sem.exec cfg3 Sem.raceDeposited
          ((Sem.raceOwnCallDone ++ Sem.raceSecondCaller ++ Sem.raceToDrain).take n)).frames
            0).pc.inDrain = false) ∧
      ((Sem.exec cfg3 Sem.raceDeposited
        (Sem.raceOwnCallDone ++ Sem.raceSecondCaller ++ Sem.raceToDrain)).frames 0).pc =
          .hi_take .first ∧
      (Sem.step cfg3 (Sem.exec cfg3 Sem.raceDeposited
          (Sem.raceOwnCallDone ++ Sem.raceSecondCaller ++ Sem.raceToDrain)) 0 (quiet 0)).map
        (fun s2 => ((s2.frames 0).req, (s2.frames 2).pc, (s2.talkers 2).answer_sem)) =
        some (⟨1, 52, true⟩, .call_wait, 0) := by
  refine ⟨?_, by decide!⟩
  exact sem_reachable_exec _ _ _ _ Sem.Reachable.init

/-- C4, evaluated in both strategies: a reachable state in which the
pending-call slot of talker 0 is non-empty while its busy flag is clear (talker
0 was claimed by talker 2 while it was placing its own call, and has since
finished that call). -/
theorem pending_call_without_busy :
    (Sem.Reachable cfg3 t0 (Sem.exec cfg3 Sem.raceDeposited Sem.raceOwnCallDone) ∧
      ((Sem.exec cfg3 Sem.raceDeposited Sem.raceOwnCallDone).talkers 0).incoming.has_request
        = true ∧
      ((Sem.exec cfg3 Sem.raceDeposited Sem.raceOwnCallDone).talkers 0).busy = false) ∧
    (Cond.Reachable cfg3 t0 Cond.raceOwnCallDone ∧
      (Cond.raceOwnCallDone.talkers 0).incoming.ready = true ∧
      (Cond.raceOwnCallDone.talkers 0).busy = false) := by
  refine ⟨⟨?_, by decide!⟩, ⟨?_, by decide!⟩⟩
  · exact sem_reachable_exec _ _ _ _ (sem_reachable_exec _ _ _ _ Sem.Reachable.init)
  · exact cond_reachable_exec _ _ _ _ Cond.Reachable.init

/-- C5, evaluated in both strategies: talker 1 has left and its worker has
returned while its busy flag is set and its pending-call slot holds the call of
talker 0; talker 0 waits for the answer, and no schedule changes the state any
more. -/
theorem worker_exits_with_pending_call :
    (Sem.Reachable cfg2 t0 Sem.leftWithCall ∧
      (Sem.leftWithCall.frames 1).pc = .done ∧
      (Sem.leftWithCall.talkers 1).active = false ∧
      (Sem.leftWithCall.talkers 1).busy = true ∧
      (Sem.leftWithCall.talkers 1).incoming = ⟨0, 50, true⟩ ∧
      (Sem.leftWithCall.frames 0).pc = .call_wait ∧
      ∀ tr, Sem.exec cfg2 Sem.leftWithCall tr = Sem.leftWithCall) ∧
    (Cond.Reachable cfg2 t0 Cond.leftWithCall ∧
      (Cond.leftWithCall.frames 1).pc = .done ∧
      (Cond.leftWithCall.talkers 1).active = false ∧
      (Cond.leftWithCall.talkers 1).busy = true ∧
      (Cond.leftWithCall.talkers 1).incoming = ⟨0, 50, true, some 0⟩ ∧
      (Cond.leftWithCall.frames 0).pc = .call_blocked ∧
      ∀ tr, Cond.exec cfg2 Cond.leftWithCall tr = Cond.leftWithCall) := by
  have s0 : (Sem.leftWithCall.frames 0).pc = .call_wait := by decide!
  have s0a : (Sem.leftWithCall.talkers 0).answer_sem = 0 := by decide!
  have s1 : (Sem.leftWithCall.frames 1).pc = .done := by decide!
  have c0 : (Cond.leftWithCall.frames 0).pc = .call_blocked := by decide!
  have c0b : Cond.leftWithCall.barriers 0 = some 0 := by decide!
  have c1 : (Cond.leftWithCall.frames 1).pc = .done := by decide!
  refine ⟨⟨sem_reachable_exec _ _ _ _ Sem.Reachable.init, s1, by decide!, by decide!,
      by decide!, s0, ?_⟩,
    ⟨cond_reachable_exec _ _ _ _ Cond.Reachable.init, c1, by decide!, by decide!,
      by decide!, c0, ?_⟩⟩
  · apply sem_exec_stuck
    intro p e hp
    have hp2 : p < 2 := by simpa [cfg2] using hp
    interval_cases p
    · simp [Sem.step, s0, s0a]
    · simp [Sem.step, s1]
  · apply cond_exec_stuck
    intro p e hp
    have hp2 : p < 2 := by simpa [cfg2] using hp
    interval_cases p
    · simp [Cond.step, c0, c0b]
    · simp [Cond.step, c1]

/-- C6, evaluated in both strategies: a reachable state in which talker 0 waits
for the acknowledgment of talker 1 and talker 1 waits for the acknowledgment of
talker 0; no schedule changes the state any more. -/
theorem mutual_wait_reachable :
    (Sem.Reachable cfg2 t0 Sem.crossed ∧
      (Sem.crossed.frames 0).pc = .call_wait ∧ (Sem.crossed.frames 0).target = 1 ∧
      (Sem.crossed.talkers 0).answer_sem = 0 ∧
      (Sem.crossed.frames 1).pc = .call_wait ∧ (Sem.crossed.frames 1).target = 0 ∧
      (Sem.crossed.talkers 1).answer_sem = 0 ∧
      ∀ tr, Sem.exec cfg2 Sem.crossed tr = Sem.crossed) ∧
    (Cond.Reachable cfg2 t0 Cond.crossed ∧
      (Cond.crossed.frames 0).pc = .call_blocked ∧ (Cond.crossed.frames 0).target = 1 ∧
      Cond.crossed.barriers 0 = some 0 ∧
      (Cond.crossed.frames 1).pc = .call_blocked ∧ (Cond.crossed.frames 1).target = 0 ∧
      Cond.crossed.barriers 1 = some 1 ∧
      ∀ tr, Cond.exec cfg2 Cond.crossed tr = Cond.crossed) := by
  have s0 : (Sem.crossed.frames 0).pc = .call_wait := by decide!
  have s0a : (Sem.crossed.talkers 0).answer_sem = 0 := by decide!
  have s1 : (Sem.crossed.frames 1).pc = .call_wait := by decide!
  have s1a : (Sem.crossed.talkers 1).answer_sem = 0 := by decide!
  have c0 : (Cond.crossed.frames 0).pc = .call_blocked := by decide!
  have c0b : Cond.crossed.barriers 0 = some 0 := by decide!
  have c1 : (Cond.crossed.frames 1).pc = .call_blocked := by decide!
  have c1b : Cond.crossed.barriers 1 = some 1 := by decide!
  refine ⟨⟨sem_reachable_exec _ _ _ _ Sem.Reachable.init, s0, by decide!, s0a, s1,
      by decide!, s1a, ?_⟩,
    ⟨cond_reachable_exec _ _ _ _ Cond.Reachable.init, c0, by decide!, c0b, c1,
      by decide!, c1b, ?_⟩⟩
  · apply sem_exec_stuck
    intro p e hp
    have hp2 : p < 2 := by simpa [cfg2] using hp
    interval_cases p
    · simp [Sem.step, s0, s0a]
    · simp [Sem.step, s1, s1a]
  · apply cond_exec_stuck
    intro p e hp
    have hp2 : p < 2 := by simpa [cfg2] using hp
    interval_cases p
    · simp [Cond.step, c0, c0b]
    · simp [Cond.step, c1, c1b]

/-! ## Counting and arithmetic lemmas -/

theorem countUpTo_congr (f g : Nat → Bool) (n : Nat) (h : ∀ i, i < n → f i = g i) :
    countUpTo f n = countUpTo g n := by
  induction n with
  | zero => rfl
  | succ n ih =>
    simp only [countUpTo]
    rw [ih (fun i hi => h i (Nat.lt_succ_of_lt hi)), h n (Nat.lt_succ_self n)]

theorem countUpTo_all (f : Nat → Bool) (n : Nat) (h : ∀ i, i < n → f i = true) :
    countUpTo f n = n := by
  induction n with
  | zero => rfl
  | succ n ih =>
    simp only [countUpTo]
    rw [ih (fun i hi => h i (Nat.lt_succ_of_lt hi)), h n (Nat.lt_succ_self n)]
    simp

theorem countUpTo_none (f : Nat → Bool) (n : Nat) (h : ∀ i, i < n → f i = false) :
    countUpTo f n = 0 := by
  induction n with
  | zero => rfl
  | succ n ih =>
    simp only [countUpTo]
    rw [ih (fun i hi => h i (Nat.lt_succ_of_lt hi)), h n (Nat.lt_succ_self n)]
    simp

theorem countUpTo_le (f : Nat → Bool) (n : Nat) : countUpTo f n ≤ n := by
  induction n with
  | zero => simp [countUpTo]
  | succ n ih =>
    simp only [countUpTo]
    split <;> omega

/-- Clearing one set index lowers the count by one. -/
theorem countUpTo_clear (f g : Nat → Bool) (n q : Nat) (hq : q < n) (hf : f q = true)
    (hg : g q = false) (h : ∀ i, i ≠ q → g i = f i) :
    countUpTo g n + 1 = countUpTo f n := by
  induction n with
  | zero => omega
  | succ n ih =>
    simp only [countUpTo]
    by_cases hqn : q = n
    · subst hqn
      rw [hf, hg, countUpTo_congr g f q (fun i hi => h i (Nat.ne_of_lt hi))]
      simp
    · have hlt : q < n := by omega
      rw [h n (fun hnq => hqn hnq.symm)]
      have := ih hlt
      omega

theorem wrapInt_of_range (x : Int) (h1 : -2147483648 ≤ x) (h2 : x ≤ 2147483647) :
    wrapInt x = x := by
  unfold wrapInt
  omega

/-- With bounds `0` and `max` inside the `int` range, `random_range` stays
between them. -/
theorem random_range_zero_bounds (max : Int) (r : Nat) (h0 : 0 ≤ max)
    (h1 : max < 2147483647) :
    0 ≤ random_range 0 max r ∧ random_range 0 max r ≤ max := by
  unfold random_range
  split
  · omega
  · rename_i hlt
    have hspan : wrapInt (max - 0 + 1) = max + 1 := by
      rw [wrapInt_of_range] <;> omega
    simp only [hspan]
    have hpos : (0 : Int) < max + 1 := by omega
    have hr : (0 : Int) ≤ (r : Int) := Int.ofNat_nonneg r
    have h3 : 0 ≤ Int.tmod (r : Int) (max + 1) := Int.tmod_nonneg _ hr
    have h4 : Int.tmod (r : Int) (max + 1) < max + 1 := Int.tmod_lt_of_pos _ hpos
    rw [wrapInt_of_range] <;> omega

theorem random_range_talkers (cfg : Config) (hv : cfg.valid) (r : Nat) :
    0 ≤ random_range 0 (cfg.talkers - 1) r ∧ random_range 0 (cfg.talkers - 1) r < cfg.talkers := by
  obtain ⟨h1, h2⟩ := hv
  unfold MAX_TALKERS at h2
  have := random_range_zero_bounds (cfg.talkers - 1) r (by omega) (by omega)
  omega

/-! ## Effect of one step, semaphore strategy -/

theorem sem_step_frames_other {cfg : Config} {s s2 : Sem.Shared} {p : Nat} {e : Env}
    (h : Sem.step cfg s p e = some s2) (q : Nat) (hq : q ≠ p) : s2.frames q = s.frames q := by
  unfold Sem.step at h
  cases hpc : (s.frames p).pc <;> simp only [hpc] at h <;> (try split at h) <;>
    simp only [Option.some.injEq, reduceCtorEq] at h <;> subst h <;>
    simp [Sem.Shared.goto, Sem.Shared.setTalker, Sem.Shared.setFrame, Sem.Shared.emit,
      Sem.finish_conversation, Sem.release_self, Function.update_apply, hq]

theorem sem_step_active {cfg : Config} {s s2 : Sem.Shared} {p : Nat} {e : Env}
    (h : Sem.step cfg s p e = some s2) (j : Nat) :
    (s2.talkers j).active =
      if (s.frames p).pc = .leave_flag ∧ j = p then false else (s.talkers j).active := by
  unfold Sem.step at h
  cases hpc : (s.frames p).pc <;> simp only [hpc] at h <;> (try split at h) <;>
    simp only [Option.some.injEq, reduceCtorEq] at h <;> subst h <;>
    simp [Sem.Shared.goto, Sem.Shared.setTalker, Sem.Shared.setFrame, Sem.Shared.emit,
      Sem.finish_conversation, Sem.release_self, Function.update_apply] <;> split <;> simp_all

theorem sem_step_active_count {cfg : Config} {s s2 : Sem.Shared} {p : Nat} {e : Env}
    (h : Sem.step cfg s p e = some s2) :
    s2.active_count =
      if (s.frames p).pc = .leave_count then s.active_count - 1 else s.active_count := by
  unfold Sem.step at h
  cases hpc : (s.frames p).pc <;> simp only [hpc] at h <;> (try split at h) <;>
    simp only [Option.some.injEq, reduceCtorEq] at h <;> subst h <;>
    simp [Sem.Shared.goto, Sem.Shared.setTalker, Sem.Shared.setFrame, Sem.Shared.emit,
      Sem.finish_conversation, Sem.release_self, Function.update_apply]

theorem sem_step_conversations {cfg : Config} {s s2 : Sem.Shared} {p : Nat} {e : Env}
    (h : Sem.step cfg s p e = some s2) (j : Nat) :
    (s2.talkers j).conversations =
      if j = p ∧ (s.frames p).pc.finishing = true
      then wrapInt ((s.talkers j).conversations + 1) else (s.talkers j).conversations := by
  unfold Sem.step at h
  cases hpc : (s.frames p).pc <;> simp only [hpc] at h <;> (try split at h) <;>
    simp only [Option.some.injEq, reduceCtorEq] at h <;> subst h <;>
    simp [Sem.Shared.goto, Sem.Shared.setTalker, Sem.Shared.setFrame, Sem.Shared.emit,
      Sem.finish_conversation, Sem.release_self, Function.update_apply, Sem.Loc.finishing] <;>
    split <;> simp_all

theorem sem_step_gone {cfg : Config} {s s2 : Sem.Shared} {p : Nat} {e : Env}
    (h : Sem.step cfg s p e = some s2) (hg : (s2.frames p).pc.gone = false) :
    (s.frames p).pc.gone = false ∧ (s.frames p).pc ≠ .leave_flag := by
  unfold Sem.step at h
  cases hpc : (s.frames p).pc <;> simp only [hpc] at h <;> (try split at h) <;>
    simp only [Option.some.injEq, reduceCtorEq] at h <;> subst h <;>
    simp_all [Sem.Shared.goto, Sem.Shared.setTalker, Sem.Shared.setFrame, Sem.Shared.emit,
      Sem.finish_conversation, Sem.release_self, Function.update_apply, Sem.Loc.gone]

theorem sem_step_leave_count {cfg : Config} {s s2 : Sem.Shared} {p : Nat} {e : Env}
    (h : Sem.step cfg s p e = some s2) :
    ((s2.frames p).pc = .leave_count ↔ (s.frames p).pc = .leave_flag) := by
  unfold Sem.step at h
  cases hpc : (s.frames p).pc <;> simp only [hpc] at h <;> (try split at h) <;>
    simp only [Option.some.injEq, reduceCtorEq] at h <;> subst h <;>
    simp [Sem.Shared.goto, Sem.Shared.setTalker, Sem.Shared.setFrame, Sem.Shared.emit,
      Sem.finish_conversation, Sem.release_self, Function.update_apply, Sem.afterHandle] <;>
    (try (split <;> simp))

/-! ## Departure, semaphore strategy -/

/-- A worker that has not yet executed the write of `leave_network` has its
`active` flag set. -/
theorem sem_active_of_not_gone {cfg : Config} {ts : Timespec} {s : Sem.Shared}
    (hr : Sem.Reachable cfg ts s) (p : Nat) (hp : (p : Int) < cfg.talkers)
    (hg : (s.frames p).pc.gone = false) : (s.talkers p).active = true := by
  induction hr with
  | init => simp [Sem.init, hp]
  | step s s2 q e _ _ hst ih =>
    by_cases hqp : p = q
    · subst hqp
      obtain ⟨h1, h2⟩ := sem_step_gone hst hg
      rw [sem_step_active hst p, if_neg (fun hc => h2 hc.1)]
      exact ih h1
    · rw [sem_step_active hst p, if_neg (fun hc => hqp hc.2)]
      rw [sem_step_frames_other hst p hqp] at hg
      exact ih hg

/-- The counter `active_count` equals the number of active talkers plus the
number of workers that have cleared their flag and not yet decremented it. -/
theorem sem_active_count_eq {cfg : Config} {ts : Timespec} {s : Sem.Shared}
    (hv : 0 ≤ cfg.talkers) (hr : Sem.Reachable cfg ts s) :
    s.active_count = (Sem.activeTalkers cfg s : Int) + (Sem.leaving cfg s : Int) := by
  induction hr with
  | init =>
    have h1 : Sem.activeTalkers cfg (Sem.init cfg ts) = cfg.talkers.toNat := by
      apply countUpTo_all
      intro i hi
      simp only [Sem.init, decide_eq_true_eq]
      omega
    have h2 : Sem.leaving cfg (Sem.init cfg ts) = 0 := by
      apply countUpTo_none
      intro i _
      simp [Sem.init]
    rw [h1, h2]
    simp only [Sem.init]
    omega
  | step s s2 q e hs hq hst ih =>
    have hqn : q < cfg.talkers.toNat := by omega
    have hact := sem_step_active hst
    have hcnt := sem_step_active_count hst
    have hfr := sem_step_frames_other hst
    have hlc := sem_step_leave_count hst
    by_cases hflag : (s.frames q).pc = .leave_flag
    · -- first half of leave_network
      have hqa : (s.talkers q).active = true :=
        sem_active_of_not_gone hs q hq (by rw [hflag]; rfl)
      have e1 : Sem.activeTalkers cfg s2 + 1 = Sem.activeTalkers cfg s := by
        apply countUpTo_clear _ _ _ q hqn hqa
        · simp [hact q, hflag]
        · intro i hi
          simp [hact i, hi]
      have e2 : Sem.leaving cfg s + 1 = Sem.leaving cfg s2 := by
        apply countUpTo_clear _ _ _ q hqn
        · simp [hlc.2 hflag]
        · simp [hflag]
        · intro i hi
          simp [hfr i hi]
      rw [hcnt, if_neg (by rw [hflag]; simp), ih]
      omega
    · by_cases hc : (s.frames q).pc = .leave_count
      · -- second half of leave_network
        have e1 : Sem.activeTalkers cfg s2 = Sem.activeTalkers cfg s := by
          apply countUpTo_congr
          intro i _
          simp [hact i, hflag]
        have hn2 : (s2.frames q).pc ≠ .leave_count := fun h2 => hflag (hlc.1 h2)
        have e2 : Sem.leaving cfg s2 + 1 = Sem.leaving cfg s := by
          apply countUpTo_clear _ _ _ q hqn
          · simp [hc]
          · simp [hn2]
          · intro i hi
            simp [hfr i hi]
        rw [hcnt, if_pos hc, ih]
        omega
      · have e1 : Sem.activeTalkers cfg s2 = Sem.activeTalkers cfg s := by
          apply countUpTo_congr
          intro i _
          simp [hact i, hflag]
        have hn2 : (s2.frames q).pc ≠ .leave_count := fun h2 => hflag (hlc.1 h2)
        have e2 : Sem.leaving cfg s2 = Sem.leaving cfg s := by
          apply countUpTo_congr
          intro i _
          by_cases hi : i = q
          · subst hi; simp [hn2, hc]
          · simp [hfr i hi]
        rw [hcnt, if_neg hc, ih, e1, e2]

/-! ## Effect of one step, condition strategy -/

theorem cond_step_frames_other {cfg : Config} {s s2 : Cond.Shared} {p : Nat} {e : Env}
    (h : Cond.step cfg s p e = some s2) (q : Nat) (hq : q ≠ p) : s2.frames q = s.frames q := by
  unfold Cond.step at h
  cases hpc : (s.frames p).pc <;> simp only [hpc] at h <;> (repeat' split at h) <;>
    simp only [Option.some.injEq, reduceCtorEq] at h <;> subst h <;>
    (try simp only [Cond.barrier_wait]) <;> (repeat' split) <;>
    simp_all [Cond.Shared.goto, Cond.Shared.setTalker, Cond.Shared.setFrame, Cond.Shared.emit,
      Cond.finish, Cond.barrier_wait, Function.update_apply, hq] <;>
    (try (split <;> simp_all))

theorem cond_step_active {cfg : Config} {s s2 : Cond.Shared} {p : Nat} {e : Env}
    (h : Cond.step cfg s p e = some s2) (j : Nat) :
    (s2.talkers j).active =
      if (s.frames p).pc = .leave_flag ∧ j = p then false else (s.talkers j).active := by
  unfold Cond.step at h
  cases hpc : (s.frames p).pc <;> simp only [hpc] at h <;> (repeat' split at h) <;>
    simp only [Option.some.injEq, reduceCtorEq] at h <;> subst h <;>
    (try simp only [Cond.barrier_wait]) <;> (repeat' split) <;>
    simp_all [Cond.Shared.goto, Cond.Shared.setTalker, Cond.Shared.setFrame, Cond.Shared.emit,
      Cond.finish, Cond.barrier_wait, Function.update_apply] <;>
    (try (split <;> simp_all))

theorem cond_step_active_count {cfg : Config} {s s2 : Cond.Shared} {p : Nat} {e : Env}
    (h : Cond.step cfg s p e = some s2) :
    s2.active_count =
      if (s.frames p).pc = .leave_count then s.active_count - 1 else s.active_count := by
  unfold Cond.step at h
  cases hpc : (s.frames p).pc <;> simp only [hpc] at h <;> (repeat' split at h) <;>
    simp only [Option.some.injEq, reduceCtorEq] at h <;> subst h <;>
    (try simp only [Cond.barrier_wait]) <;> (repeat' split) <;>
    simp_all [Cond.Shared.goto, Cond.Shared.setTalker, Cond.Shared.setFrame, Cond.Shared.emit,
      Cond.finish, Cond.barrier_wait, Function.update_apply] <;>
    (try (split <;> simp_all))

theorem cond_step_conversations {cfg : Config} {s s2 : Cond.Shared} {p : Nat} {e : Env}
    (h : Cond.step cfg s p e = some s2) (j : Nat) :
    (s2.talkers j).conversations =
      if j = p ∧ (s.frames p).pc.finishing = true
      then wrapInt ((s.talkers j).conversations + 1) else (s.talkers j).conversations := by
  unfold Cond.step at h
  cases hpc : (s.frames p).pc <;> simp only [hpc] at h <;> (repeat' split at h) <;>
    simp only [Option.some.injEq, reduceCtorEq] at h <;> subst h <;>
    (try simp only [Cond.barrier_wait]) <;> (repeat' split) <;>
    simp_all [Cond.Shared.goto, Cond.Shared.setTalker, Cond.Shared.setFrame, Cond.Shared.emit,
      Cond.finish, Cond.barrier_wait, Function.update_apply, Cond.Loc.finishing] <;>
    (try (split <;> simp_all))

theorem cond_step_gone {cfg : Config} {s s2 : Cond.Shared} {p : Nat} {e : Env}
    (h : Cond.step cfg s p e = some s2) (hg : (s2.frames p).pc.gone = false) :
    (s.frames p).pc.gone = false ∧ (s.frames p).pc ≠ .leave_flag := by
  unfold Cond.step at h
  cases hpc : (s.frames p).pc <;> simp only [hpc] at h <;> (repeat' split at h) <;>
    simp only [Option.some.injEq, reduceCtorEq] at h <;> subst h <;>
    (try simp only [Cond.barrier_wait]) <;> (repeat' split) <;>
    simp_all [Cond.Shared.goto, Cond.Shared.setTalker, Cond.Shared.setFrame, Cond.Shared.emit,
      Cond.finish, Cond.barrier_wait, Function.update_apply, Cond.Loc.gone] <;>
    (try (split <;> simp_all))

theorem cond_step_leave_count {cfg : Config} {s s2 : Cond.Shared} {p : Nat} {e : Env}
    (h : Cond.step cfg s p e = some s2) :
    ((s2.frames p).pc = .leave_count ↔ (s.frames p).pc = .leave_flag) := by
  unfold Cond.step at h
  cases hpc : (s.frames p).pc <;> simp only [hpc] at h <;> (repeat' split at h) <;>
    simp only [Option.some.injEq, reduceCtorEq] at h <;> subst h <;>
    (try simp only [Cond.barrier_wait]) <;> (repeat' split) <;>
    simp_all [Cond.Shared.goto, Cond.Shared.setTalker, Cond.Shared.setFrame, Cond.Shared.emit,
      Cond.finish, Cond.barrier_wait, Function.update_apply, Cond.afterHandle] <;>
    (try (split <;> simp_all))


/-! ## Departure, condition strategy -/

/-- A worker that has not yet executed the write of `leave_network` has its
`active` flag set. -/
theorem cond_active_of_not_gone {cfg : Config} {ts : Timespec} {s : Cond.Shared}
    (hr : Cond.Reachable cfg ts s) (p : Nat) (hp : (p : Int) < cfg.talkers)
    (hg : (s.frames p).pc.gone = false) : (s.talkers p).active = true := by
  induction hr with
  | init => simp [Cond.init, hp]
  | step s s2 q e _ _ hst ih =>
    by_cases hqp : p = q
    · subst hqp
      obtain ⟨h1, h2⟩ := cond_step_gone hst hg
      rw [cond_step_active hst p, if_neg (fun hc => h2 hc.1)]
      exact ih h1
    · rw [cond_step_active hst p, if_neg (fun hc => hqp hc.2)]
      rw [cond_step_frames_other hst p hqp] at hg
      exact ih hg

/-- The counter `active_count` equals the number of active talkers plus the
number of workers that have cleared their flag and not yet decremented it. -/
theorem cond_active_count_eq {cfg : Config} {ts : Timespec} {s : Cond.Shared}
    (hv : 0 ≤ cfg.talkers) (hr : Cond.Reachable cfg ts s) :
    s.active_count = (Cond.activeTalkers cfg s : Int) + (Cond.leaving cfg s : Int) := by
  induction hr with
  | init =>
    have h1 : Cond.activeTalkers cfg (Cond.init cfg ts) = cfg.talkers.toNat := by
      apply countUpTo_all
      intro i hi
      simp only [Cond.init, decide_eq_true_eq]
      omega
    have h2 : Cond.leaving cfg (Cond.init cfg ts) = 0 := by
      apply countUpTo_none
      intro i _
      simp [Cond.init]
    rw [h1, h2]
    simp only [Cond.init]
    omega
  | step s s2 q e hs hq hst ih =>
    have hqn : q < cfg.talkers.toNat := by omega
    have hact := cond_step_active hst
    have hcnt := cond_step_active_count hst
    have hfr := cond_step_frames_other hst
    have hlc := cond_step_leave_count hst
    by_cases hflag : (s.frames q).pc = .leave_flag
    · -- first half of leave_network
      have hqa : (s.talkers q).active = true :=
        cond_active_of_not_gone hs q hq (by rw [hflag]; rfl)
      have e1 : Cond.activeTalkers cfg s2 + 1 = Cond.activeTalkers cfg s := by
        apply countUpTo_clear _ _ _ q hqn hqa
        · simp [hact q, hflag]
        · intro i hi
          simp [hact i, hi]
      have e2 : Cond.leaving cfg s + 1 = Cond.leaving cfg s2 := by
        apply countUpTo_clear _ _ _ q hqn
        · simp [hlc.2 hflag]
        · simp [hflag]
        · intro i hi
          simp [hfr i hi]
      rw [hcnt, if_neg (by rw [hflag]; simp), ih]
      omega
    · by_cases hc : (s.frames q).pc = .leave_count
      · -- second half of leave_network
        have e1 : Cond.activeTalkers cfg s2 = Cond.activeTalkers cfg s := by
          apply countUpTo_congr
          intro i _
          simp [hact i, hflag]
        have hn2 : (s2.frames q).pc ≠ .leave_count := fun h2 => hflag (hlc.1 h2)
        have e2 : Cond.leaving cfg s2 + 1 = Cond.leaving cfg s := by
          apply countUpTo_clear _ _ _ q hqn
          · simp [hc]
          · simp [hn2]
          · intro i hi
            simp [hfr i hi]
        rw [hcnt, if_pos hc, ih]
        omega
      · have e1 : Cond.activeTalkers cfg s2 = Cond.activeTalkers cfg s := by
          apply countUpTo_congr
          intro i _
          simp [hact i, hflag]
        have hn2 : (s2.frames q).pc ≠ .leave_count := fun h2 => hflag (hlc.1 h2)
        have e2 : Cond.leaving cfg s2 = Cond.leaving cfg s := by
          apply countUpTo_congr
          intro i _
          by_cases hi : i = q
          · subst hi; simp [hn2, hc]
          · simp [hfr i hi]
        rw [hcnt, if_neg hc, ih, e1, e2]

/-! ## Call placement and draining, semaphore strategy -/

theorem sem_afterHandle_hasTarget (k : Site) : (Sem.afterHandle k).hasTarget = false := by
  cases k <;> rfl

theorem sem_afterHandle_inCall (k : Site) : (Sem.afterHandle k).inCall = false := by
  cases k <;> rfl

theorem sem_afterHandle_inDrain (k : Site) : (Sem.afterHandle k).inDrain = false := by
  cases k <;> rfl

theorem sem_afterHandle_ne_ret (k : Site) (b : Bool) : Sem.afterHandle k ≠ .call_ret b := by
  cases k <;> simp [Sem.afterHandle]

theorem sem_step_incoming {cfg : Config} {s s2 : Sem.Shared} {p : Nat} {e : Env}
    (h : Sem.step cfg s p e = some s2) (j : Nat)
    (hne : (s2.talkers j).incoming ≠ (s.talkers j).incoming) :
    ((s.frames p).pc = .call_check ∧ j = (s.frames p).target.toNat ∧
        Sem.available (s.talkers j) = true ∧
        (s2.talkers j).incoming = ⟨p, (s.frames p).duration, true⟩ ∧
        (s2.talkers j).busy = true) ∨
      (j = p ∧ (s2.talkers j).incoming.has_request = false) := by
  unfold Sem.step at h
  cases hpc : (s.frames p).pc <;> simp only [hpc] at h <;> (try split at h) <;>
    simp only [Option.some.injEq, reduceCtorEq] at h <;> subst h <;>
    simp_all [Sem.Shared.goto, Sem.Shared.setTalker, Sem.Shared.setFrame, Sem.Shared.emit,
      Sem.finish_conversation, Sem.release_self, Function.update_apply] <;>
    (try (split at hne <;> simp_all))

theorem sem_step_target {cfg : Config} {s s2 : Sem.Shared} {p : Nat} {e : Env}
    (h : Sem.step cfg s p e = some s2) (ht : (s2.frames p).pc.hasTarget = true) :
    ((s.frames p).pc.hasTarget = true ∧ (s2.frames p).target = (s.frames p).target) ∨
      ((s2.frames p).target = random_range 0 (cfg.talkers - 1) e.rnd ∧
        (s2.frames p).target ≠ p) := by
  unfold Sem.step at h
  cases hpc : (s.frames p).pc <;> (try (rename_i k; cases k)) <;>
    simp only [hpc] at h <;> (try split at h) <;>
    simp only [Option.some.injEq, reduceCtorEq] at h <;> subst h <;>
    simp_all [Sem.Shared.goto, Sem.Shared.setTalker, Sem.Shared.setFrame, Sem.Shared.emit,
      Sem.finish_conversation, Sem.release_self, Function.update_apply, Sem.Loc.hasTarget,
      Sem.afterHandle]

/-- Inside `try_start_call`, past the self-test of line 103, the local `target`
is the id of another talker. -/
theorem sem_target_ne_self {cfg : Config} {ts : Timespec} {s : Sem.Shared} (hv : cfg.valid)
    (hr : Sem.Reachable cfg ts s) (p : Nat) (ht : (s.frames p).pc.hasTarget = true) :
    0 ≤ (s.frames p).target ∧ (s.frames p).target < cfg.talkers ∧
      (s.frames p).target ≠ p := by
  induction hr with
  | init => simp [Sem.init, Sem.Loc.hasTarget] at ht
  | step s s2 q e _ _ hst ih =>
    by_cases hqp : p = q
    · subst hqp
      rcases sem_step_target hst ht with ⟨h1, h2⟩ | ⟨h1, h2⟩
      · rw [h2]; exact ih h1
      · have := random_range_talkers cfg hv e.rnd
        rw [← h1] at this
        exact ⟨this.1, this.2, h2⟩
    · rw [sem_step_frames_other hst p hqp] at ht ⊢
      exact ih ht

/-- A pending call never names the owner of the slot as its caller. -/
theorem sem_pending_from_other {cfg : Config} {ts : Timespec} {s : Sem.Shared}
    (hv : cfg.valid) (hr : Sem.Reachable cfg ts s) (j : Nat)
    (hp : (s.talkers j).incoming.has_request = true) :
    (s.talkers j).incoming.from_id ≠ j := by
  induction hr with
  | init => simp [Sem.init] at hp
  | step s s2 q e hs _ hst ih =>
    by_cases hsame : (s2.talkers j).incoming = (s.talkers j).incoming
    · rw [hsame] at hp ⊢
      exact ih hp
    · rcases sem_step_incoming hst j hsame with ⟨h1, h2, _, h4, _⟩ | ⟨_, h2⟩
      · have ht := sem_target_ne_self hv hs q (by rw [h1]; rfl)
        rw [h4]
        simp only
        intro hc
        apply ht.2.2
        rw [hc, h2]
        omega
      · rw [h2] at hp
        exact absurd hp (by simp)

theorem sem_step_ret_true {cfg : Config} {s s2 : Sem.Shared} {p : Nat} {e : Env}
    (h : Sem.step cfg s p e = some s2) (hret : (s2.frames p).pc = .call_ret true) :
    (s.frames p).pc = .call_finish ∧
      s2.log = s.log ++ [.finished p (s.frames p).target (s.frames p).duration] := by
  unfold Sem.step at h
  cases hpc : (s.frames p).pc <;> simp only [hpc] at h <;> (try split at h) <;>
    simp only [Option.some.injEq, reduceCtorEq] at h <;> subst h <;>
    simp_all [Sem.Shared.goto, Sem.Shared.setTalker, Sem.Shared.setFrame, Sem.Shared.emit,
      Sem.finish_conversation, Sem.release_self, Function.update_apply,
      sem_afterHandle_ne_ret]

theorem sem_step_call_pc {cfg : Config} {s s2 : Sem.Shared} {p : Nat} {e : Env}
    (h : Sem.step cfg s p e = some s2) (hin : (s.frames p).pc.inCall = true) :
    ((s2.frames p).pc.inCall = true ∧ (s.frames p).pc.finishing = false) ∨
      ((s2.frames p).pc = .call_ret true ∧ (s.frames p).pc.finishing = true) ∨
      ((s2.frames p).pc = .call_ret false ∧ (s.frames p).pc.finishing = false) := by
  unfold Sem.step at h
  cases hpc : (s.frames p).pc <;> (try (rename_i k; cases k)) <;>
    simp only [hpc] at h <;> (try split at h) <;>
    simp only [Option.some.injEq, reduceCtorEq] at h <;> subst h <;>
    simp_all [Sem.Shared.goto, Sem.Shared.setTalker, Sem.Shared.setFrame, Sem.Shared.emit,
      Sem.finish_conversation, Sem.release_self, Function.update_apply, Sem.Loc.inCall,
      Sem.Loc.finishing, Sem.afterHandle]

theorem sem_step_call {cfg : Config} {s s2 : Sem.Shared} {p : Nat} {e : Env}
    (h : Sem.step cfg s p e = some s2) (hin : (s.frames p).pc.inCall = true) :
    ((s2.frames p).pc.inCall = true ∧
        (s2.talkers p).conversations = (s.talkers p).conversations) ∨
      ((s2.frames p).pc = .call_ret true ∧
        (s2.talkers p).conversations = wrapInt ((s.talkers p).conversations + 1)) ∨
      ((s2.frames p).pc = .call_ret false ∧
        (s2.talkers p).conversations = (s.talkers p).conversations) := by
  have hconv := sem_step_conversations h p
  rcases sem_step_call_pc h hin with ⟨h1, h2⟩ | ⟨h1, h2⟩ | ⟨h1, h2⟩
  · left; refine ⟨h1, ?_⟩; rw [hconv, h2]; simp
  · right; left; refine ⟨h1, ?_⟩; rw [hconv, h2]; simp
  · right; right; refine ⟨h1, ?_⟩; rw [hconv, h2]; simp

theorem sem_step_drain_pc {cfg : Config} {s s2 : Sem.Shared} {p : Nat} {e : Env}
    (h : Sem.step cfg s p e = some s2) (hin : (s.frames p).pc.inDrain = true) :
    ((s2.frames p).pc.inDrain = true ∧ (s.frames p).pc.finishing = false) ∨
      ((s2.frames p).pc.inDrain = false ∧ (s.frames p).pc.finishing = true) := by
  unfold Sem.step at h
  cases hpc : (s.frames p).pc <;> (try (rename_i k; cases k)) <;>
    simp only [hpc] at h <;> (try split at h) <;>
    simp only [Option.some.injEq, reduceCtorEq] at h <;> subst h <;>
    simp_all [Sem.Shared.goto, Sem.Shared.setTalker, Sem.Shared.setFrame, Sem.Shared.emit,
      Sem.finish_conversation, Sem.release_self, Function.update_apply, Sem.Loc.inDrain,
      Sem.Loc.finishing, Sem.afterHandle]

theorem sem_step_drain {cfg : Config} {s s2 : Sem.Shared} {p : Nat} {e : Env}
    (h : Sem.step cfg s p e = some s2) (hin : (s.frames p).pc.inDrain = true) :
    ((s2.frames p).pc.inDrain = true ∧
        (s2.talkers p).conversations = (s.talkers p).conversations) ∨
      ((s2.frames p).pc.inDrain = false ∧
        (s2.talkers p).conversations = wrapInt ((s.talkers p).conversations + 1)) := by
  have hconv := sem_step_conversations h p
  rcases sem_step_drain_pc h hin with ⟨h1, h2⟩ | ⟨h1, h2⟩
  · left; refine ⟨h1, ?_⟩; rw [hconv, h2]; simp
  · right; refine ⟨h1, ?_⟩; rw [hconv, h2]; simp

/-- Along a schedule, follow worker `p` from a program point inside a code
segment to the first state outside it: if every step either stays inside
without touching `conversations` or leaves with `R`, then `R` holds at the end. -/
theorem sem_segment (cfg : Config) (p : Nat) (inSeg : Sem.Loc → Bool)
    (R : Int → Sem.Shared → Prop)
    (H : ∀ (s : Sem.Shared) (q : Nat) (e : Env) (s2 : Sem.Shared),
      Sem.step cfg s q e = some s2 → inSeg (s.frames p).pc = true →
        (inSeg (s2.frames p).pc = true ∧
          (s2.talkers p).conversations = (s.talkers p).conversations) ∨
        (inSeg (s2.frames p).pc = false ∧ R (s.talkers p).conversations s2))
    (tr : List (Nat × Env)) :
    ∀ s : Sem.Shared, inSeg (s.frames p).pc = true →
      (∀ n, n < tr.length → inSeg ((Sem.exec cfg s (tr.take n)).frames p).pc = true) →
      inSeg ((Sem.exec cfg s tr).frames p).pc = false →
      R (s.talkers p).conversations (Sem.exec cfg s tr) := by
  induction tr with
  | nil =>
    intro s h1 _ h3
    simp only [Sem.exec] at h3
    rw [h1] at h3
    exact absurd h3 (by simp)
  | cons x rest ih =>
    intro s h1 h2 h3
    obtain ⟨q, e⟩ := x
    have key : ∀ s1 : Sem.Shared,
        (∀ l, Sem.exec cfg s ((q, e) :: l) = Sem.exec cfg s1 l) →
        ((inSeg (s1.frames p).pc = true ∧
            (s1.talkers p).conversations = (s.talkers p).conversations) ∨
          (inSeg (s1.frames p).pc = false ∧ R (s.talkers p).conversations s1)) →
        R (s.talkers p).conversations (Sem.exec cfg s ((q, e) :: rest)) := by
      intro s1 he hcase
      rw [he rest] at h3 ⊢
      have hpre : ∀ n, n < rest.length →
          inSeg ((Sem.exec cfg s1 (rest.take n)).frames p).pc = true := by
        intro n hn
        have h4 := h2 (n + 1) (by simp only [List.length_cons]; omega)
        rw [List.take_succ_cons, he] at h4
        exact h4
      rcases hcase with ⟨hin, hc⟩ | ⟨hout, hR⟩
      · rw [← hc]; exact ih s1 hin hpre h3
      · cases rest with
        | nil => simpa [Sem.exec] using hR
        | cons y rest2 =>
          have h5 := hpre 0 (by simp)
          simp only [List.take_zero, Sem.exec] at h5
          rw [hout] at h5
          exact absurd h5 (by simp)
    by_cases hq : (q : Int) < cfg.talkers
    · cases hst : Sem.step cfg s q e with
      | none => exact key s (fun l => by simp [Sem.exec, hq, hst]) (Or.inl ⟨h1, rfl⟩)
      | some s2 => exact key s2 (fun l => by simp [Sem.exec, hq, hst]) (H s q e s2 hst h1)
    · exact key s (fun l => by simp [Sem.exec, hq]) (Or.inl ⟨h1, rfl⟩)

/-- From the entry of `try_start_call` to its return, whatever the other
workers do in between: the return value is `true` exactly when the caller's
`conversations` has grown by one, and it is unchanged on `false`. -/
theorem sem_call_counts (cfg : Config) (p : Nat) (tr : List (Nat × Env)) (s : Sem.Shared)
    (h1 : (s.frames p).pc.inCall = true)
    (h2 : ∀ n, n < tr.length → ((Sem.exec cfg s (tr.take n)).frames p).pc.inCall = true)
    (h3 : ((Sem.exec cfg s tr).frames p).pc.inCall = false) :
    ∃ b : Bool, ((Sem.exec cfg s tr).frames p).pc = .call_ret b ∧
      ((Sem.exec cfg s tr).talkers p).conversations =
        (if b then wrapInt ((s.talkers p).conversations + 1)
          else (s.talkers p).conversations) := by
  apply sem_segment cfg p Sem.Loc.inCall
    (fun c s2 => ∃ b : Bool, (s2.frames p).pc = .call_ret b ∧
      (s2.talkers p).conversations = (if b then wrapInt (c + 1) else c)) _ tr s h1 h2 h3
  intro s q e s2 hst hin
  by_cases hqp : p = q
  · subst hqp
    rcases sem_step_call hst hin with ⟨a, b⟩ | ⟨a, b⟩ | ⟨a, b⟩
    · exact Or.inl ⟨a, b⟩
    · exact Or.inr ⟨by rw [a]; rfl, true, a, by simpa using b⟩
    · exact Or.inr ⟨by rw [a]; rfl, false, a, by simpa using b⟩
  · left
    rw [sem_step_frames_other hst p hqp, sem_step_conversations hst p]
    exact ⟨hin, by simp [hqp]⟩

/-- From the read of a pending call in `handle_incoming` to the end of that
loop iteration, whatever the other workers do in between: the callee's
`conversations` grows by exactly one. -/
theorem sem_drain_counts (cfg : Config) (p : Nat) (tr : List (Nat × Env)) (s : Sem.Shared)
    (h1 : (s.frames p).pc.inDrain = true)
    (h2 : ∀ n, n < tr.length → ((Sem.exec cfg s (tr.take n)).frames p).pc.inDrain = true)
    (h3 : ((Sem.exec cfg s tr).frames p).pc.inDrain = false) :
    ((Sem.exec cfg s tr).talkers p).conversations =
      wrapInt ((s.talkers p).conversations + 1) := by
  apply sem_segment cfg p Sem.Loc.inDrain
    (fun c s2 => (s2.talkers p).conversations = wrapInt (c + 1)) _ tr s h1 h2 h3
  intro s q e s2 hst hin
  by_cases hqp : p = q
  · subst hqp
    rcases sem_step_drain hst hin with ⟨a, b⟩ | ⟨a, b⟩
    · exact Or.inl ⟨a, b⟩
    · exact Or.inr ⟨a, b⟩
  · left
    rw [sem_step_frames_other hst p hqp, sem_step_conversations hst p]
    exact ⟨hin, by simp [hqp]⟩

/-! ## Call placement and draining, condition strategy -/

theorem cond_afterHandle_hasTarget (k : Site) : (Cond.afterHandle k).hasTarget = false := by
  cases k <;> rfl

theorem cond_afterHandle_inCall (k : Site) : (Cond.afterHandle k).inCall = false := by
  cases k <;> rfl

theorem cond_afterHandle_inDrain (k : Site) : (Cond.afterHandle k).inDrain = false := by
  cases k <;> rfl

theorem cond_afterHandle_ne_ret (k : Site) (b : Bool) : Cond.afterHandle k ≠ .call_ret b := by
  cases k <;> simp [Cond.afterHandle]

theorem cond_step_incoming {cfg : Config} {s s2 : Cond.Shared} {p : Nat} {e : Env}
    (h : Cond.step cfg s p e = some s2) (j : Nat)
    (hne : (s2.talkers j).incoming ≠ (s.talkers j).incoming) :
    ((s.frames p).pc = .call_check ∧ j = (s.frames p).target.toNat ∧
        Cond.available (s.talkers j) = true ∧
        (s2.talkers j).incoming = ⟨p, (s.frames p).duration, true, some p⟩ ∧
        (s2.talkers j).busy = true) ∨
      (j = p ∧ (s2.talkers j).incoming.ready = false) := by
  unfold Cond.step at h
  cases hpc : (s.frames p).pc <;> simp only [hpc] at h <;> (repeat' split at h) <;>
    simp only [Option.some.injEq, reduceCtorEq] at h <;> subst h <;>
    (try simp only [Cond.barrier_wait]) <;> (repeat' split) <;>
    simp_all [Cond.Shared.goto, Cond.Shared.setTalker, Cond.Shared.setFrame, Cond.Shared.emit,
      Cond.finish, Cond.barrier_wait, Function.update_apply] <;>
    (try (split at hne <;> simp_all))

theorem cond_step_target {cfg : Config} {s s2 : Cond.Shared} {p : Nat} {e : Env}
    (h : Cond.step cfg s p e = some s2) (ht : (s2.frames p).pc.hasTarget = true) :
    ((s.frames p).pc.hasTarget = true ∧ (s2.frames p).target = (s.frames p).target) ∨
      ((s2.frames p).target = random_range 0 (cfg.talkers - 1) e.rnd ∧
        (s2.frames p).target ≠ p) := by
  unfold Cond.step at h
  cases hpc : (s.frames p).pc <;> (try (rename_i k; cases k)) <;>
    simp only [hpc] at h <;> (repeat' split at h) <;>
    simp only [Option.some.injEq, reduceCtorEq] at h <;> subst h <;>
    (try simp only [Cond.barrier_wait]) <;> (repeat' split) <;>
    simp_all [Cond.Shared.goto, Cond.Shared.setTalker, Cond.Shared.setFrame, Cond.Shared.emit,
      Cond.finish, Cond.barrier_wait, Function.update_apply, Cond.Loc.hasTarget,
      Cond.afterHandle]

/-- Inside `try_call`, past the self-test of line 104, the local `target`
is the id of another talker. -/
theorem cond_target_ne_self {cfg : Config} {ts : Timespec} {s : Cond.Shared} (hv : cfg.valid)
    (hr : Cond.Reachable cfg ts s) (p : Nat) (ht : (s.frames p).pc.hasTarget = true) :
    0 ≤ (s.frames p).target ∧ (s.frames p).target < cfg.talkers ∧
      (s.frames p).target ≠ p := by
  induction hr with
  | init => simp [Cond.init, Cond.Loc.hasTarget] at ht
  | step s s2 q e _ _ hst ih =>
    by_cases hqp : p = q
    · subst hqp
      rcases cond_step_target hst ht with ⟨h1, h2⟩ | ⟨h1, h2⟩
      · rw [h2]; exact ih h1
      · have := random_range_talkers cfg hv e.rnd
        rw [← h1] at this
        exact ⟨this.1, this.2, h2⟩
    · rw [cond_step_frames_other hst p hqp] at ht ⊢
      exact ih ht

/-- A pending call never names the owner of the slot as its caller. -/
theorem cond_pending_from_other {cfg : Config} {ts : Timespec} {s : Cond.Shared}
    (hv : cfg.valid) (hr : Cond.Reachable cfg ts s) (j : Nat)
    (hp : (s.talkers j).incoming.ready = true) :
    (s.talkers j).incoming.from_id ≠ j := by
  induction hr with
  | init => simp [Cond.init] at hp
  | step s s2 q e hs _ hst ih =>
    by_cases hsame : (s2.talkers j).incoming = (s.talkers j).incoming
    · rw [hsame] at hp ⊢
      exact ih hp
    · rcases cond_step_incoming hst j hsame with ⟨h1, h2, _, h4, _⟩ | ⟨_, h2⟩
      · have ht := cond_target_ne_self hv hs q (by rw [h1]; rfl)
        rw [h4]
        simp only
        intro hc
        apply ht.2.2
        rw [hc, h2]
        omega
      · rw [h2] at hp
        exact absurd hp (by simp)

theorem cond_step_ret_true {cfg : Config} {s s2 : Cond.Shared} {p : Nat} {e : Env}
    (h : Cond.step cfg s p e = some s2) (hret : (s2.frames p).pc = .call_ret true) :
    (s.frames p).pc = .call_finish ∧
      s2.log = s.log ++ [.finished p (s.frames p).target (s.frames p).duration] := by
  unfold Cond.step at h
  cases hpc : (s.frames p).pc <;> simp only [hpc] at h <;> (repeat' split at h) <;>
    simp only [Option.some.injEq, reduceCtorEq] at h <;> subst h <;>
    (try simp only [Cond.barrier_wait]) <;> (repeat' split) <;>
    simp_all [Cond.Shared.goto, Cond.Shared.setTalker, Cond.Shared.setFrame, Cond.Shared.emit,
      Cond.finish, Cond.barrier_wait, Function.update_apply,
      cond_afterHandle_ne_ret]

theorem cond_step_call_pc {cfg : Config} {s s2 : Cond.Shared} {p : Nat} {e : Env}
    (h : Cond.step cfg s p e = some s2) (hin : (s.frames p).pc.inCall = true) :
    ((s2.frames p).pc.inCall = true ∧ (s.frames p).pc.finishing = false) ∨
      ((s2.frames p).pc = .call_ret true ∧ (s.frames p).pc.finishing = true) ∨
      ((s2.frames p).pc = .call_ret false ∧ (s.frames p).pc.finishing = false) := by
  unfold Cond.step at h
  cases hpc : (s.frames p).pc <;> (try (rename_i k; cases k)) <;>
    simp only [hpc] at h <;> (repeat' split at h) <;>
    simp only [Option.some.injEq, reduceCtorEq] at h <;> subst h <;>
    (try simp only [Cond.barrier_wait]) <;> (repeat' split) <;>
    simp_all [Cond.Shared.goto, Cond.Shared.setTalker, Cond.Shared.setFrame, Cond.Shared.emit,
      Cond.finish, Cond.barrier_wait, Function.update_apply, Cond.Loc.inCall,
      Cond.Loc.finishing, Cond.afterHandle]

theorem cond_step_call {cfg : Config} {s s2 : Cond.Shared} {p : Nat} {e : Env}
    (h : Cond.step cfg s p e = some s2) (hin : (s.frames p).pc.inCall = true) :
    ((s2.frames p).pc.inCall = true ∧
        (s2.talkers p).conversations = (s.talkers p).conversations) ∨
      ((s2.frames p).pc = .call_ret true ∧
        (s2.talkers p).conversations = wrapInt ((s.talkers p).conversations + 1)) ∨
      ((s2.frames p).pc = .call_ret false ∧
        (s2.talkers p).conversations = (s.talkers p).conversations) := by
  have hconv := cond_step_conversations h p
  rcases cond_step_call_pc h hin with ⟨h1, h2⟩ | ⟨h1, h2⟩ | ⟨h1, h2⟩
  · left; refine ⟨h1, ?_⟩; rw [hconv, h2]; simp
  · right; left; refine ⟨h1, ?_⟩; rw [hconv, h2]; simp
  · right; right; refine ⟨h1, ?_⟩; rw [hconv, h2]; simp

theorem cond_step_drain_pc {cfg : Config} {s s2 : Cond.Shared} {p : Nat} {e : Env}
    (h : Cond.step cfg s p e = some s2) (hin : (s.frames p).pc.inDrain = true) :
    ((s2.frames p).pc.inDrain = true ∧ (s.frames p).pc.finishing = false) ∨
      ((s2.frames p).pc.inDrain = false ∧ (s.frames p).pc.finishing = true) := by
  unfold Cond.step at h
  cases hpc : (s.frames p).pc <;> (try (rename_i k; cases k)) <;>
    simp only [hpc] at h <;> (repeat' split at h) <;>
    simp only [Option.some.injEq, reduceCtorEq] at h <;> subst h <;>
    (try simp only [Cond.barrier_wait]) <;> (repeat' split) <;>
    simp_all [Cond.Shared.goto, Cond.Shared.setTalker, Cond.Shared.setFrame, Cond.Shared.emit,
      Cond.finish, Cond.barrier_wait, Function.update_apply, Cond.Loc.inDrain,
      Cond.Loc.finishing, Cond.afterHandle]

theorem cond_step_drain {cfg : Config} {s s2 : Cond.Shared} {p : Nat} {e : Env}
    (h : Cond.step cfg s p e = some s2) (hin : (s.frames p).pc.inDrain = true) :
    ((s2.frames p).pc.inDrain = true ∧
        (s2.talkers p).conversations = (s.talkers p).conversations) ∨
      ((s2.frames p).pc.inDrain = false ∧
        (s2.talkers p).conversations = wrapInt ((s.talkers p).conversations + 1)) := by
  have hconv := cond_step_conversations h p
  rcases cond_step_drain_pc h hin with ⟨h1, h2⟩ | ⟨h1, h2⟩
  · left; refine ⟨h1, ?_⟩; rw [hconv, h2]; simp
  · right; refine ⟨h1, ?_⟩; rw [hconv, h2]; simp

/-- Along a schedule, follow worker `p` from a program point inside a code
segment to the first state outside it: if every step either stays inside
without touching `conversations` or leaves with `R`, then `R` holds at the end. -/
theorem cond_segment (cfg : Config) (p : Nat) (inSeg : Cond.Loc → Bool)
    (R : Int → Cond.Shared → Prop)
    (H : ∀ (s : Cond.Shared) (q : Nat) (e : Env) (s2 : Cond.Shared),
      Cond.step cfg s q e = some s2 → inSeg (s.frames p).pc = true →
        (inSeg (s2.frames p).pc = true ∧
          (s2.talkers p).conversations = (s.talkers p).conversations) ∨
        (inSeg (s2.frames p).pc = false ∧ R (s.talkers p).conversations s2))
    (tr : List (Nat × Env)) :
    ∀ s : Cond.Shared, inSeg (s.frames p).pc = true →
      (∀ n, n < tr.length → inSeg ((Cond.exec cfg s (tr.take n)).frames p).pc = true) →
      inSeg ((Cond.exec cfg s tr).frames p).pc = false →
      R (s.talkers p).conversations (Cond.exec cfg s tr) := by
  induction tr with
  | nil =>
    intro s h1 _ h3
    simp only [Cond.exec] at h3
    rw [h1] at h3
    exact absurd h3 (by simp)
  | cons x rest ih =>
    intro s h1 h2 h3
    obtain ⟨q, e⟩ := x
    have key : ∀ s1 : Cond.Shared,
        (∀ l, Cond.exec cfg s ((q, e) :: l) = Cond.exec cfg s1 l) →
        ((inSeg (s1.frames p).pc = true ∧
            (s1.talkers p).conversations = (s.talkers p).conversations) ∨
          (inSeg (s1.frames p).pc = false ∧ R (s.talkers p).conversations s1)) →
        R (s.talkers p).conversations (Cond.exec cfg s ((q, e) :: rest)) := by
      intro s1 he hcase
      rw [he rest] at h3 ⊢
      have hpre : ∀ n, n < rest.length →
          inSeg ((Cond.exec cfg s1 (rest.take n)).frames p).pc = true := by
        intro n hn
        have h4 := h2 (n + 1) (by simp only [List.length_cons]; omega)
        rw [List.take_succ_cons, he] at h4
        exact h4
      rcases hcase with ⟨hin, hc⟩ | ⟨hout, hR⟩
      · rw [← hc]; exact ih s1 hin hpre h3
      · cases rest with
        | nil => simpa [Cond.exec] using hR
        | cons y rest2 =>
          have h5 := hpre 0 (by simp)
          simp only [List.take_zero, Cond.exec] at h5
          rw [hout] at h5
          exact absurd h5 (by simp)
    by_cases hq : (q : Int) < cfg.talkers
    · cases hst : Cond.step cfg s q e with
      | none => exact key s (fun l => by simp [Cond.exec, hq, hst]) (Or.inl ⟨h1, rfl⟩)
      | some s2 => exact key s2 (fun l => by simp [Cond.exec, hq, hst]) (H s q e s2 hst h1)
    · exact key s (fun l => by simp [Cond.exec, hq]) (Or.inl ⟨h1, rfl⟩)

/-- From the entry of `try_call` to its return, whatever the other
workers do in between: the return value is `true` exactly when the caller's
`conversations` has grown by one, and it is unchanged on `false`. -/
theorem cond_call_counts (cfg : Config) (p : Nat) (tr : List (Nat × Env)) (s : Cond.Shared)
    (h1 : (s.frames p).pc.inCall = true)
    (h2 : ∀ n, n < tr.length → ((Cond.exec cfg s (tr.take n)).frames p).pc.inCall = true)
    (h3 : ((Cond.exec cfg s tr).frames p).pc.inCall = false) :
    ∃ b : Bool, ((Cond.exec cfg s tr).frames p).pc = .call_ret b ∧
      ((Cond.exec cfg s tr).talkers p).conversations =
        (if b then wrapInt ((s.talkers p).conversations + 1)
          else (s.talkers p).conversations) := by
  apply cond_segment cfg p Cond.Loc.inCall
    (fun c s2 => ∃ b : Bool, (s2.frames p).pc = .call_ret b ∧
      (s2.talkers p).conversations = (if b then wrapInt (c + 1) else c)) _ tr s h1 h2 h3
  intro s q e s2 hst hin
  by_cases hqp : p = q
  · subst hqp
    rcases cond_step_call hst hin with ⟨a, b⟩ | ⟨a, b⟩ | ⟨a, b⟩
    · exact Or.inl ⟨a, b⟩
    · exact Or.inr ⟨by rw [a]; rfl, true, a, by simpa using b⟩
    · exact Or.inr ⟨by rw [a]; rfl, false, a, by simpa using b⟩
  · left
    rw [cond_step_frames_other hst p hqp, cond_step_conversations hst p]
    exact ⟨hin, by simp [hqp]⟩

/-- From the read of a pending call in `handle_incoming` to the end of that
loop iteration, whatever the other workers do in between: the callee's
`conversations` grows by exactly one. -/
theorem cond_drain_counts (cfg : Config) (p : Nat) (tr : List (Nat × Env)) (s : Cond.Shared)
    (h1 : (s.frames p).pc.inDrain = true)
    (h2 : ∀ n, n < tr.length → ((Cond.exec cfg s (tr.take n)).frames p).pc.inDrain = true)
    (h3 : ((Cond.exec cfg s tr).frames p).pc.inDrain = false) :
    ((Cond.exec cfg s tr).talkers p).conversations =
      wrapInt ((s.talkers p).conversations + 1) := by
  apply cond_segment cfg p Cond.Loc.inDrain
    (fun c s2 => (s2.talkers p).conversations = wrapInt (c + 1)) _ tr s h1 h2 h3
  intro s q e s2 hst hin
  by_cases hqp : p = q
  · subst hqp
    rcases cond_step_drain hst hin with ⟨a, b⟩ | ⟨a, b⟩
    · exact Or.inl ⟨a, b⟩
    · exact Or.inr ⟨a, b⟩
  · left
    rw [cond_step_frames_other hst p hqp, cond_step_conversations hst p]
    exact ⟨hin, by simp [hqp]⟩

/-! ## Exhausting the attempts, semaphore strategy -/

theorem sem_sameShared_trans {p : Nat} {s s1 s2 : Sem.Shared} (h1 : Sem.sameShared p s s1)
    (h2 : Sem.sameShared p s1 s2) : Sem.sameShared p s s2 := by
  obtain ⟨a1, b1, c1, d1⟩ := h1
  obtain ⟨a2, b2, c2, d2⟩ := h2
  exact ⟨a2.trans a1, b2.trans b1, c2.trans c1, fun q hq => (d2 q hq).trans (d1 q hq)⟩

theorem sem_runSelf_succ {cfg : Config} {p : Nat} {s s1 : Sem.Shared} (sched : Nat → Env)
    (h : Sem.step cfg s p (sched 0) = some s1) (k : Nat) :
    Sem.runSelf cfg p (k + 1) sched s = Sem.runSelf cfg p k (fun i => sched (i + 1)) s1 := by
  simp [Sem.runSelf, h]

theorem sem_picks_succ {cfg : Config} {p : Nat} {s s1 : Sem.Shared} (sched : Nat → Env)
    (h : Sem.step cfg s p (sched 0) = some s1) (k : Nat) :
    Sem.picks cfg p (k + 1) sched s =
      (if (s.frames p).pc = .call_pick then 1 else 0) +
        Sem.picks cfg p k (fun i => sched (i + 1)) s1 := by
  simp [Sem.picks, h]

theorem sem_call_start_step (cfg : Config) (s : Sem.Shared) (p : Nat) (e : Env)
    (hpc : (s.frames p).pc = .call_start) :
    ∃ s1, Sem.step cfg s p e = some s1 ∧ (s1.frames p).pc = .call_loop ∧
      (s1.frames p).attempts = 0 ∧ Sem.sameShared p s s1 := by
  refine ⟨_, by simp only [Sem.step, hpc]; rfl, ?_⟩
  simp [Sem.Shared.setFrame, Sem.sameShared]
  intro q hq
  simp [Function.update_apply, hq]

theorem sem_call_loop_continue (cfg : Config) (s : Sem.Shared) (p : Nat) (e : Env)
    (hpc : (s.frames p).pc = .call_loop) (hlt : (s.frames p).attempts < cfg.talkers * 2)
    (hstop : e.stop = false) (hto : timed_out cfg s.start_ts e.now = false) :
    ∃ s1, Sem.step cfg s p e = some s1 ∧ (s1.frames p).pc = .call_pick ∧
      (s1.frames p).attempts = (s.frames p).attempts ∧ Sem.sameShared p s s1 := by
  refine ⟨s.goto p .call_pick, by simp [Sem.step, hpc, hlt, hstop, hto], ?_⟩
  simp [Sem.Shared.goto, Sem.sameShared]
  intro q hq
  simp [Function.update_apply, hq]

theorem sem_call_loop_exit (cfg : Config) (s : Sem.Shared) (p : Nat) (e : Env)
    (hpc : (s.frames p).pc = .call_loop) (hge : ¬ (s.frames p).attempts < cfg.talkers * 2) :
    ∃ s1, Sem.step cfg s p e = some s1 ∧ (s1.frames p).pc = .call_ret false ∧
      (s1.frames p).attempts = (s.frames p).attempts ∧ Sem.sameShared p s s1 := by
  refine ⟨s.goto p (.call_ret false), by simp [Sem.step, hpc, hge], ?_⟩
  simp [Sem.Shared.goto, Sem.sameShared]
  intro q hq
  simp [Function.update_apply, hq]

theorem sem_call_pick_self (cfg : Config) (s : Sem.Shared) (p : Nat) (e : Env)
    (hpc : (s.frames p).pc = .call_pick)
    (ht : random_range 0 (cfg.talkers - 1) e.rnd = p) :
    ∃ s1, Sem.step cfg s p e = some s1 ∧ (s1.frames p).pc = .call_loop ∧
      (s1.frames p).attempts = (s.frames p).attempts + 1 ∧ Sem.sameShared p s s1 := by
  refine ⟨_, by simp only [Sem.step, hpc, ht, if_true]; rfl, ?_⟩
  simp [Sem.Shared.setFrame, Sem.sameShared]
  intro q hq
  simp [Function.update_apply, hq]

theorem sem_call_pick_other (cfg : Config) (s : Sem.Shared) (p : Nat) (e : Env)
    (hpc : (s.frames p).pc = .call_pick)
    (ht : random_range 0 (cfg.talkers - 1) e.rnd ≠ p) :
    ∃ s1, Sem.step cfg s p e = some s1 ∧ (s1.frames p).pc = .call_check ∧
      (s1.frames p).attempts = (s.frames p).attempts ∧
      (s1.frames p).target = random_range 0 (cfg.talkers - 1) e.rnd ∧
      Sem.sameShared p s s1 := by
  refine ⟨_, by simp only [Sem.step, hpc, ht, if_false]; rfl, ?_⟩
  simp [Sem.Shared.setFrame, Sem.sameShared]
  intro q hq
  simp [Function.update_apply, hq]

theorem sem_call_check_busy (cfg : Config) (s : Sem.Shared) (p : Nat) (e : Env)
    (hpc : (s.frames p).pc = .call_check)
    (hav : Sem.available (s.talkers (s.frames p).target.toNat) = false) :
    ∃ s1, Sem.step cfg s p e = some s1 ∧ (s1.frames p).pc = .call_loop ∧
      (s1.frames p).attempts = (s.frames p).attempts + 1 ∧ Sem.sameShared p s s1 := by
  refine ⟨_, by simp only [Sem.step, hpc, hav]; rfl, ?_⟩
  simp [Sem.Shared.setFrame, Sem.Shared.emit, Sem.sameShared]
  intro q hq
  simp [Function.update_apply, hq]

/-- The retry loop of `try_start_call` when no stop is requested, the budget has
not run out and every drawn target is the caller or an unavailable talker: with
`m` attempts left it draws `m` targets, returns `false` and leaves every talker
as it was. -/
theorem sem_call_loop_exhausts (cfg : Config) (p : Nat) (m : Nat) :
    ∀ (s : Sem.Shared) (sched : Nat → Env),
      (s.frames p).pc = .call_loop →
      (s.frames p).attempts + m = cfg.talkers * 2 →
      (∀ i, (sched i).stop = false ∧ timed_out cfg s.start_ts (sched i).now = false) →
      (∀ i, ((Sem.runSelf cfg p i sched s).frames p).pc = .call_pick →
        random_range 0 (cfg.talkers - 1) (sched i).rnd = p ∨
        Sem.available (s.talkers (random_range 0 (cfg.talkers - 1) (sched i).rnd).toNat)
          = false) →
      ∃ k, ((Sem.runSelf cfg p k sched s).frames p).pc = .call_ret false ∧
        ((Sem.runSelf cfg p k sched s).frames p).attempts = cfg.talkers * 2 ∧
        Sem.picks cfg p k sched s = m ∧
        Sem.sameShared p s (Sem.runSelf cfg p k sched s) := by
  induction m with
  | zero =>
    intro s sched hpc hatt _ _
    obtain ⟨s1, hs1, hp1, ha1, hsame1⟩ :=
      sem_call_loop_exit cfg s p (sched 0) hpc (by omega)
    refine ⟨1, ?_⟩
    rw [sem_runSelf_succ sched hs1, sem_picks_succ sched hs1]
    simp only [Sem.runSelf, Sem.picks, hpc]
    refine ⟨hp1, by omega, by simp, hsame1⟩
  | succ m ih =>
    intro s sched hpc hatt hq hd
    obtain ⟨s1, hs1, hp1, ha1, hsame1⟩ :=
      sem_call_loop_continue cfg s p (sched 0) hpc (by omega) (hq 0).1 (hq 0).2
    by_cases ht : random_range 0 (cfg.talkers - 1) (sched 1).rnd = p
    · -- the draw is the caller itself
      obtain ⟨s2, hs2, hp2, ha2, hsame2⟩ := sem_call_pick_self cfg s1 p (sched 1) hp1 ht
      have hsame := sem_sameShared_trans hsame1 hsame2
      obtain ⟨k, h1, h2, h3, h4⟩ := ih s2 (fun i => sched (i + 1 + 1)) hp2 (by omega)
        (fun i => by rw [hsame.2.2.1]; exact hq (i + 1 + 1))
        (fun i hi => by
          rw [hsame.1]
          refine hd (i + 1 + 1) ?_
          rw [sem_runSelf_succ sched hs1, sem_runSelf_succ (fun i => sched (i + 1)) hs2]
          exact hi)
      refine ⟨k + 1 + 1, ?_⟩
      rw [sem_runSelf_succ sched hs1, sem_picks_succ sched hs1,
        sem_runSelf_succ (fun i => sched (i + 1)) hs2,
        sem_picks_succ (fun i => sched (i + 1)) hs2]
      refine ⟨h1, h2, ?_, sem_sameShared_trans hsame h4⟩
      rw [h3, hpc, hp1]
      simp
      omega
    · -- the draw is another talker, found unavailable
      obtain ⟨s2, hs2, hp2, ha2, ht2, hsame2⟩ :=
        sem_call_pick_other cfg s1 p (sched 1) hp1 ht
      have hsame12 := sem_sameShared_trans hsame1 hsame2
      have hav : Sem.available (s2.talkers (s2.frames p).target.toNat) = false := by
        rw [hsame12.1, ht2]
        have hat : ((Sem.runSelf cfg p 1 sched s).frames p).pc = .call_pick := by
          rw [sem_runSelf_succ sched hs1]
          exact hp1
        rcases hd 1 hat with h | h
        · exact absurd h ht
        · exact h
      obtain ⟨s3, hs3, hp3, ha3, hsame3⟩ := sem_call_check_busy cfg s2 p (sched 2) hp2 hav
      have hsame := sem_sameShared_trans hsame12 hsame3
      obtain ⟨k, h1, h2, h3, h4⟩ := ih s3 (fun i => sched (i + 1 + 1 + 1)) hp3 (by omega)
        (fun i => by rw [hsame.2.2.1]; exact hq (i + 1 + 1 + 1))
        (fun i hi => by
          rw [hsame.1]
          refine hd (i + 1 + 1 + 1) ?_
          rw [sem_runSelf_succ sched hs1, sem_runSelf_succ (fun i => sched (i + 1)) hs2,
            sem_runSelf_succ (fun i => sched (i + 1 + 1)) hs3]
          exact hi)
      refine ⟨k + 1 + 1 + 1, ?_⟩
      rw [sem_runSelf_succ sched hs1, sem_picks_succ sched hs1,
        sem_runSelf_succ (fun i => sched (i + 1)) hs2,
        sem_picks_succ (fun i => sched (i + 1)) hs2,
        sem_runSelf_succ (fun i => sched (i + 1 + 1)) hs3,
        sem_picks_succ (fun i => sched (i + 1 + 1)) hs3]
      refine ⟨h1, h2, ?_, sem_sameShared_trans hsame h4⟩
      rw [h3, hpc, hp1, hp2]
      simp
      omega

/-- With a single talker every target draw is the caller itself. -/
theorem random_range_single (r : Nat) : random_range 0 (1 - 1) r = 0 := by
  simp [random_range]

/-- The function `try_start_call` from its entry, under the same assumptions: it
returns `false` after `2 * talkers` target draws and changes no talker. -/
theorem sem_try_start_call_exhausts (cfg : Config) (hN : 0 ≤ cfg.talkers) (p : Nat)
    (s : Sem.Shared) (sched : Nat → Env) (hpc : (s.frames p).pc = .call_start)
    (hq : ∀ i, (sched i).stop = false ∧ timed_out cfg s.start_ts (sched i).now = false)
    (hd : ∀ i, ((Sem.runSelf cfg p i sched s).frames p).pc = .call_pick →
      random_range 0 (cfg.talkers - 1) (sched i).rnd = p ∨
      Sem.available (s.talkers (random_range 0 (cfg.talkers - 1) (sched i).rnd).toNat)
        = false) :
    ∃ k, ((Sem.runSelf cfg p k sched s).frames p).pc = .call_ret false ∧
      ((Sem.runSelf cfg p k sched s).frames p).attempts = cfg.talkers * 2 ∧
      (Sem.picks cfg p k sched s : Int) = cfg.talkers * 2 ∧
      Sem.sameShared p s (Sem.runSelf cfg p k sched s) := by
  obtain ⟨s1, hs1, hp1, ha1, hsame1⟩ := sem_call_start_step cfg s p (sched 0) hpc
  obtain ⟨k, h1, h2, h3, h4⟩ := sem_call_loop_exhausts cfg p (cfg.talkers * 2).toNat s1
    (fun i => sched (i + 1)) hp1 (by rw [ha1]; omega)
    (fun i => by rw [hsame1.2.2.1]; exact hq (i + 1))
    (fun i hi => by
      rw [hsame1.1]
      refine hd (i + 1) ?_
      rw [sem_runSelf_succ sched hs1]
      exact hi)
  refine ⟨k + 1, ?_⟩
  rw [sem_runSelf_succ sched hs1, sem_picks_succ sched hs1]
  refine ⟨h1, h2, ?_, sem_sameShared_trans hsame1 h4⟩
  rw [h3, hpc]
  simp
  omega

/-! ## Exhausting the attempts, condition strategy -/

theorem cond_sameShared_trans {p : Nat} {s s1 s2 : Cond.Shared} (h1 : Cond.sameShared p s s1)
    (h2 : Cond.sameShared p s1 s2) : Cond.sameShared p s s2 := by
  obtain ⟨a1, b1, c1, x1, y1, d1⟩ := h1
  obtain ⟨a2, b2, c2, x2, y2, d2⟩ := h2
  exact ⟨a2.trans a1, b2.trans b1, c2.trans c1, x2.trans x1, y2.trans y1,
    fun q hq => (d2 q hq).trans (d1 q hq)⟩

theorem cond_runSelf_succ {cfg : Config} {p : Nat} {s s1 : Cond.Shared} (sched : Nat → Env)
    (h : Cond.step cfg s p (sched 0) = some s1) (k : Nat) :
    Cond.runSelf cfg p (k + 1) sched s = Cond.runSelf cfg p k (fun i => sched (i + 1)) s1 := by
  simp [Cond.runSelf, h]

theorem cond_picks_succ {cfg : Config} {p : Nat} {s s1 : Cond.Shared} (sched : Nat → Env)
    (h : Cond.step cfg s p (sched 0) = some s1) (k : Nat) :
    Cond.picks cfg p (k + 1) sched s =
      (if (s.frames p).pc = .call_pick then 1 else 0) +
        Cond.picks cfg p k (fun i => sched (i + 1)) s1 := by
  simp [Cond.picks, h]

theorem cond_call_start_step (cfg : Config) (s : Cond.Shared) (p : Nat) (e : Env)
    (hpc : (s.frames p).pc = .call_start) :
    ∃ s1, Cond.step cfg s p e = some s1 ∧ (s1.frames p).pc = .call_loop ∧
      (s1.frames p).attempts = 0 ∧ Cond.sameShared p s s1 := by
  refine ⟨_, by simp only [Cond.step, hpc]; rfl, ?_⟩
  simp [Cond.Shared.setFrame, Cond.sameShared]
  intro q hq
  simp [Function.update_apply, hq]

theorem cond_call_loop_continue (cfg : Config) (s : Cond.Shared) (p : Nat) (e : Env)
    (hpc : (s.frames p).pc = .call_loop) (hlt : (s.frames p).attempts < cfg.talkers * 2)
    (hstop : s.stop = false) (hto : timed_out cfg s.start_ts e.now = false) :
    ∃ s1, Cond.step cfg s p e = some s1 ∧ (s1.frames p).pc = .call_pick ∧
      (s1.frames p).attempts = (s.frames p).attempts ∧ Cond.sameShared p s s1 := by
  refine ⟨s.goto p .call_pick, by simp [Cond.step, hpc, hlt, hstop, hto], ?_⟩
  simp [Cond.Shared.goto, Cond.sameShared]
  intro q hq
  simp [Function.update_apply, hq]

theorem cond_call_loop_exit (cfg : Config) (s : Cond.Shared) (p : Nat) (e : Env)
    (hpc : (s.frames p).pc = .call_loop) (hge : ¬ (s.frames p).attempts < cfg.talkers * 2) :
    ∃ s1, Cond.step cfg s p e = some s1 ∧ (s1.frames p).pc = .call_ret false ∧
      (s1.frames p).attempts = (s.frames p).attempts ∧ Cond.sameShared p s s1 := by
  refine ⟨s.goto p (.call_ret false), by simp [Cond.step, hpc, hge], ?_⟩
  simp [Cond.Shared.goto, Cond.sameShared]
  intro q hq
  simp [Function.update_apply, hq]

theorem cond_call_pick_self (cfg : Config) (s : Cond.Shared) (p : Nat) (e : Env)
    (hpc : (s.frames p).pc = .call_pick)
    (ht : random_range 0 (cfg.talkers - 1) e.rnd = p) :
    ∃ s1, Cond.step cfg s p e = some s1 ∧ (s1.frames p).pc = .call_loop ∧
      (s1.frames p).attempts = (s.frames p).attempts + 1 ∧ Cond.sameShared p s s1 := by
  refine ⟨_, by simp only [Cond.step, hpc, ht, if_true]; rfl, ?_⟩
  simp [Cond.Shared.setFrame, Cond.sameShared]
  intro q hq
  simp [Function.update_apply, hq]

theorem cond_call_pick_other (cfg : Config) (s : Cond.Shared) (p : Nat) (e : Env)
    (hpc : (s.frames p).pc = .call_pick)
    (ht : random_range 0 (cfg.talkers - 1) e.rnd ≠ p) :
    ∃ s1, Cond.step cfg s p e = some s1 ∧ (s1.frames p).pc = .call_check ∧
      (s1.frames p).attempts = (s.frames p).attempts ∧
      (s1.frames p).target = random_range 0 (cfg.talkers - 1) e.rnd ∧
      Cond.sameShared p s s1 := by
  refine ⟨_, by simp only [Cond.step, hpc, ht, if_false]; rfl, ?_⟩
  simp [Cond.Shared.setFrame, Cond.sameShared]
  intro q hq
  simp [Function.update_apply, hq]

theorem cond_call_check_busy (cfg : Config) (s : Cond.Shared) (p : Nat) (e : Env)
    (hpc : (s.frames p).pc = .call_check)
    (hav : Cond.available (s.talkers (s.frames p).target.toNat) = false) :
    ∃ s1, Cond.step cfg s p e = some s1 ∧ (s1.frames p).pc = .call_loop ∧
      (s1.frames p).attempts = (s.frames p).attempts + 1 ∧ Cond.sameShared p s s1 := by
  refine ⟨_, by simp only [Cond.step, hpc, hav]; rfl, ?_⟩
  simp [Cond.Shared.setFrame, Cond.Shared.emit, Cond.sameShared]
  intro q hq
  simp [Function.update_apply, hq]

/-- The retry loop of `try_call` when no stop is requested, the budget has
not run out and every drawn target is the caller or an unavailable talker: with
`m` attempts left it draws `m` targets, returns `false` and leaves every talker
as it was. -/
theorem cond_call_loop_exhausts (cfg : Config) (p : Nat) (m : Nat) :
    ∀ (s : Cond.Shared) (sched : Nat → Env),
      (s.frames p).pc = .call_loop →
      (s.frames p).attempts + m = cfg.talkers * 2 →
      (∀ i, s.stop = false ∧ timed_out cfg s.start_ts (sched i).now = false) →
      (∀ i, ((Cond.runSelf cfg p i sched s).frames p).pc = .call_pick →
        random_range 0 (cfg.talkers - 1) (sched i).rnd = p ∨
        Cond.available (s.talkers (random_range 0 (cfg.talkers - 1) (sched i).rnd).toNat)
          = false) →
      ∃ k, ((Cond.runSelf cfg p k sched s).frames p).pc = .call_ret false ∧
        ((Cond.runSelf cfg p k sched s).frames p).attempts = cfg.talkers * 2 ∧
        Cond.picks cfg p k sched s = m ∧
        Cond.sameShared p s (Cond.runSelf cfg p k sched s) := by
  induction m with
  | zero =>
    intro s sched hpc hatt _ _
    obtain ⟨s1, hs1, hp1, ha1, hsame1⟩ :=
      cond_call_loop_exit cfg s p (sched 0) hpc (by omega)
    refine ⟨1, ?_⟩
    rw [cond_runSelf_succ sched hs1, cond_picks_succ sched hs1]
    simp only [Cond.runSelf, Cond.picks, hpc]
    refine ⟨hp1, by omega, by simp, hsame1⟩
  | succ m ih =>
    intro s sched hpc hatt hq hd
    obtain ⟨s1, hs1, hp1, ha1, hsame1⟩ :=
      cond_call_loop_continue cfg s p (sched 0) hpc (by omega) (hq 0).1 (hq 0).2
    by_cases ht : random_range 0 (cfg.talkers - 1) (sched 1).rnd = p
    · -- the draw is the caller itself
      obtain ⟨s2, hs2, hp2, ha2, hsame2⟩ := cond_call_pick_self cfg s1 p (sched 1) hp1 ht
      have hsame := cond_sameShared_trans hsame1 hsame2
      obtain ⟨k, h1, h2, h3, h4⟩ := ih s2 (fun i => sched (i + 1 + 1)) hp2 (by omega)
        (fun i => by rw [hsame.2.2.1, hsame.2.2.2.1]; exact hq (i + 1 + 1))
        (fun i hi => by
          rw [hsame.1]
          refine hd (i + 1 + 1) ?_
          rw [cond_runSelf_succ sched hs1, cond_runSelf_succ (fun i => sched (i + 1)) hs2]
          exact hi)
      refine ⟨k + 1 + 1, ?_⟩
      rw [cond_runSelf_succ sched hs1, cond_picks_succ sched hs1,
        cond_runSelf_succ (fun i => sched (i + 1)) hs2,
        cond_picks_succ (fun i => sched (i + 1)) hs2]
      refine ⟨h1, h2, ?_, cond_sameShared_trans hsame h4⟩
      rw [h3, hpc, hp1]
      simp
      omega
    · -- the draw is another talker, found unavailable
      obtain ⟨s2, hs2, hp2, ha2, ht2, hsame2⟩ :=
        cond_call_pick_other cfg s1 p (sched 1) hp1 ht
      have hsame12 := cond_sameShared_trans hsame1 hsame2
      have hav : Cond.available (s2.talkers (s2.frames p).target.toNat) = false := by
        rw [hsame12.1, ht2]
        have hat : ((Cond.runSelf cfg p 1 sched s).frames p).pc = .call_pick := by
          rw [cond_runSelf_succ sched hs1]
          exact hp1
        rcases hd 1 hat with h | h
        · exact absurd h ht
        · exact h
      obtain ⟨s3, hs3, hp3, ha3, hsame3⟩ := cond_call_check_busy cfg s2 p (sched 2) hp2 hav
      have hsame := cond_sameShared_trans hsame12 hsame3
      obtain ⟨k, h1, h2, h3, h4⟩ := ih s3 (fun i => sched (i + 1 + 1 + 1)) hp3 (by omega)
        (fun i => by rw [hsame.2.2.1, hsame.2.2.2.1]; exact hq (i + 1 + 1 + 1))
        (fun i hi => by
          rw [hsame.1]
          refine hd (i + 1 + 1 + 1) ?_
          rw [cond_runSelf_succ sched hs1, cond_runSelf_succ (fun i => sched (i + 1)) hs2,
            cond_runSelf_succ (fun i => sched (i + 1 + 1)) hs3]
          exact hi)
      refine ⟨k + 1 + 1 + 1, ?_⟩
      rw [cond_runSelf_succ sched hs1, cond_picks_succ sched hs1,
        cond_runSelf_succ (fun i => sched (i + 1)) hs2,
        cond_picks_succ (fun i => sched (i + 1)) hs2,
        cond_runSelf_succ (fun i => sched (i + 1 + 1)) hs3,
        cond_picks_succ (fun i => sched (i + 1 + 1)) hs3]
      refine ⟨h1, h2, ?_, cond_sameShared_trans hsame h4⟩
      rw [h3, hpc, hp1, hp2]
      simp
      omega

/-- The function `try_call` from its entry, under the same assumptions: it
returns `false` after `2 * talkers` target draws and changes no talker. -/
theorem cond_try_call_exhausts (cfg : Config) (hN : 0 ≤ cfg.talkers) (p : Nat)
    (s : Cond.Shared) (sched : Nat → Env) (hpc : (s.frames p).pc = .call_start)
    (hq : ∀ i, s.stop = false ∧ timed_out cfg s.start_ts (sched i).now = false)
    (hd : ∀ i, ((Cond.runSelf cfg p i sched s).frames p).pc = .call_pick →
      random_range 0 (cfg.talkers - 1) (sched i).rnd = p ∨
      Cond.available (s.talkers (random_range 0 (cfg.talkers - 1) (sched i).rnd).toNat)
        = false) :
    ∃ k, ((Cond.runSelf cfg p k sched s).frames p).pc = .call_ret false ∧
      ((Cond.runSelf cfg p k sched s).frames p).attempts = cfg.talkers * 2 ∧
      (Cond.picks cfg p k sched s : Int) = cfg.talkers * 2 ∧
      Cond.sameShared p s (Cond.runSelf cfg p k sched s) := by
  obtain ⟨s1, hs1, hp1, ha1, hsame1⟩ := cond_call_start_step cfg s p (sched 0) hpc
  obtain ⟨k, h1, h2, h3, h4⟩ := cond_call_loop_exhausts cfg p (cfg.talkers * 2).toNat s1
    (fun i => sched (i + 1)) hp1 (by rw [ha1]; omega)
    (fun i => by rw [hsame1.2.2.1, hsame1.2.2.2.1]; exact hq (i + 1))
    (fun i hi => by
      rw [hsame1.1]
      refine hd (i + 1) ?_
      rw [cond_runSelf_succ sched hs1]
      exact hi)
  refine ⟨k + 1, ?_⟩
  rw [cond_runSelf_succ sched hs1, cond_picks_succ sched hs1]
  refine ⟨h1, h2, ?_, cond_sameShared_trans hsame1 h4⟩
  rw [h3, hpc]
  simp
  omega

/-! ## The decision to leave -/

theorem roundHalfEven_nonneg (q : ℚ) (h : 0 ≤ q) : 0 ≤ roundHalfEven q := by
  have hf : (0 : Int) ≤ Int.floor q := Int.floor_nonneg.mpr h
  unfold roundHalfEven
  simp only
  split
  · exact hf
  · split
    · omega
    · split <;> omega

theorem roundDouble_nonneg (q : ℚ) : 0 ≤ roundDouble q := by
  unfold roundDouble
  split
  · exact le_refl 0
  · rename_i hq
    have hpos : 0 < q := lt_of_not_le hq
    simp only
    apply mul_nonneg
    · exact_mod_cast roundHalfEven_nonneg _ (mul_nonneg hpos.le (zpow_nonneg (by norm_num) _))
    · exact zpow_nonneg (by norm_num) _

/-- The quotient `rand() / (double)RAND_MAX` is never below zero. -/
theorem rand_ratio_not_lt_zero (r : Nat) : Dbl.lt (rand_ratio r) (.fin 0) = false := by
  simp only [rand_ratio, Dbl.lt, decide_eq_false_iff_not, not_lt]
  exact roundDouble_nonneg _

/-- Rounding to the nearest integer moves a rational by at most one half. -/
theorem roundHalfEven_err (y : ℚ) : |(roundHalfEven y : ℚ) - y| ≤ 1 / 2 := by
  have h1 : ((Int.floor y : Int) : ℚ) ≤ y := Int.floor_le y
  have h2 : y < ((Int.floor y : Int) : ℚ) + 1 := Int.lt_floor_add_one y
  unfold roundHalfEven
  simp only
  rw [abs_le]
  split
  · rename_i h; constructor <;> linarith
  · rename_i h
    split
    · rename_i h3; push_cast; constructor <;> linarith
    · rename_i h3
      split
      · constructor <;> linarith
      · push_cast; constructor <;> linarith

/-- No integer is nearer to a rational than its rounding. -/
theorem roundHalfEven_nearest (y : ℚ) (m : Int) :
    |(roundHalfEven y : ℚ) - y| ≤ |(m : ℚ) - y| := by
  have h1 : ((Int.floor y : Int) : ℚ) ≤ y := Int.floor_le y
  have h2 : y < ((Int.floor y : Int) : ℚ) + 1 := Int.lt_floor_add_one y
  have hm : (m : ℚ) ≤ (Int.floor y : Int) ∨ ((Int.floor y : Int) : ℚ) + 1 ≤ m := by
    rcases le_or_lt m (Int.floor y) with h | h
    · left; exact_mod_cast h
    · right; exact_mod_cast h
  have hb1 : (m : ℚ) - y ≤ |(m : ℚ) - y| := le_abs_self _
  have hb2 : -((m : ℚ) - y) ≤ |(m : ℚ) - y| := neg_le_abs _
  unfold roundHalfEven
  simp only
  rw [abs_le]
  split
  · rename_i h
    rcases hm with hm | hm <;> constructor <;> linarith
  · rename_i h
    split
    · rename_i h3
      push_cast
      rcases hm with hm | hm <;> constructor <;> linarith
    · rename_i h3
      split
      · rcases hm with hm | hm <;> constructor <;> linarith
      · push_cast
        rcases hm with hm | hm <;> constructor <;> linarith

/-- The exponent computed by `roundDouble` is the binary exponent of its
argument. -/
theorem roundDouble_exponent (q : ℚ) (hq : 0 < q) :
    (2 : ℚ) ^ (if q < (2 : ℚ) ^ ((Nat.log2 q.num.toNat : Int) - (Nat.log2 q.den : Int))
        then (Nat.log2 q.num.toNat : Int) - (Nat.log2 q.den : Int) - 1
        else (Nat.log2 q.num.toNat : Int) - (Nat.log2 q.den : Int)) ≤ q ∧
      q < (2 : ℚ) ^ ((if q < (2 : ℚ) ^ ((Nat.log2 q.num.toNat : Int) - (Nat.log2 q.den : Int))
        then (Nat.log2 q.num.toNat : Int) - (Nat.log2 q.den : Int) - 1
        else (Nat.log2 q.num.toNat : Int) - (Nat.log2 q.den : Int)) + 1) := by
  have hnum : 0 < q.num := Rat.num_pos.mpr hq
  have hn0 : q.num.toNat ≠ 0 := by omega
  have hd0 : q.den ≠ 0 := q.den_ne_zero
  have ha1 : (2 : ℚ) ^ (Nat.log2 q.num.toNat) ≤ (q.num.toNat : ℚ) := by
    exact_mod_cast Nat.log2_self_le hn0
  have ha2 : (q.num.toNat : ℚ) < (2 : ℚ) ^ (Nat.log2 q.num.toNat + 1) := by
    exact_mod_cast (Nat.lt_log2_self : q.num.toNat < _)
  have hb1 : (2 : ℚ) ^ (Nat.log2 q.den) ≤ (q.den : ℚ) := by
    exact_mod_cast Nat.log2_self_le hd0
  have hb2 : (q.den : ℚ) < (2 : ℚ) ^ (Nat.log2 q.den + 1) := by
    exact_mod_cast (Nat.lt_log2_self : q.den < _)
  have hdpos : (0 : ℚ) < q.den := by exact_mod_cast Nat.pos_of_ne_zero hd0
  have hqn : q * q.den = (q.num.toNat : ℚ) := by
    have h1 : ((q.num.toNat : Int) : ℚ) = (q.num : ℚ) := by
      rw [Int.toNat_of_nonneg hnum.le]
    have h2 : q * q.den = (q.num : ℚ) := Rat.mul_den_eq_num q
    rw [h2, ← h1]; norm_cast
  have h2ne : (2 : ℚ) ≠ 0 := by norm_num
  have hA : (0 : ℚ) < (2 : ℚ) ^ (Nat.log2 q.num.toNat) := by positivity
  have hB : (0 : ℚ) < (2 : ℚ) ^ (Nat.log2 q.den) := by positivity
  -- q < 2 ^ (e0 + 1)
  have hup : q < (2 : ℚ) ^ ((Nat.log2 q.num.toNat : Int) - (Nat.log2 q.den : Int) + 1) := by
    rw [show (Nat.log2 q.num.toNat : Int) - (Nat.log2 q.den : Int) + 1 =
      ((Nat.log2 q.num.toNat + 1 : Nat) : Int) - ((Nat.log2 q.den : Nat) : Int) by push_cast; ring]
    rw [zpow_sub₀ h2ne, zpow_natCast, zpow_natCast, lt_div_iff₀ hB]
    calc q * 2 ^ (Nat.log2 q.den) ≤ q * q.den := by
          apply mul_le_mul_of_nonneg_left hb1 hq.le
      _ = (q.num.toNat : ℚ) := hqn
      _ < _ := ha2
  -- 2 ^ (e0 - 1) < q
  have hlo : (2 : ℚ) ^ ((Nat.log2 q.num.toNat : Int) - (Nat.log2 q.den : Int) - 1) < q := by
    rw [show (Nat.log2 q.num.toNat : Int) - (Nat.log2 q.den : Int) - 1 =
      ((Nat.log2 q.num.toNat : Nat) : Int) - ((Nat.log2 q.den + 1 : Nat) : Int) by push_cast; ring]
    rw [zpow_sub₀ h2ne, zpow_natCast, zpow_natCast, div_lt_iff₀ (by positivity)]
    calc (2 : ℚ) ^ (Nat.log2 q.num.toNat) ≤ (q.num.toNat : ℚ) := ha1
      _ = q * q.den := hqn.symm
      _ < q * 2 ^ (Nat.log2 q.den + 1) := by
          apply mul_lt_mul_of_pos_left hb2 hq
  split
  · rename_i h
    refine ⟨hlo.le, ?_⟩
    rw [show (Nat.log2 q.num.toNat : Int) - (Nat.log2 q.den : Int) - 1 + 1 =
      (Nat.log2 q.num.toNat : Int) - (Nat.log2 q.den : Int) by ring]
    exact h
  · rename_i h
    exact ⟨not_lt.mp h, hup⟩

/-- A positive rational has one binary exponent. -/
theorem binary_exponent_unique (q : ℚ) (e e2 : Int) (h1 : (2 : ℚ) ^ e ≤ q)
    (h2 : q < (2 : ℚ) ^ (e + 1)) (h3 : (2 : ℚ) ^ e2 ≤ q) (h4 : q < (2 : ℚ) ^ (e2 + 1)) :
    e = e2 := by
  have a : e < e2 + 1 :=
    (zpow_lt_zpow_iff_right₀ (by norm_num : (1 : ℚ) < 2)).mp (lt_of_le_of_lt h1 h4)
  have b : e2 < e + 1 :=
    (zpow_lt_zpow_iff_right₀ (by norm_num : (1 : ℚ) < 2)).mp (lt_of_le_of_lt h3 h2)
  omega

/-- The function `roundDouble` on a rational with binary exponent `e`: the
rational is scaled to a 53-bit significand, rounded to an integer, and scaled
back. -/
theorem roundDouble_eq (q : ℚ) (e : Int) (h1 : (2 : ℚ) ^ e ≤ q) (h2 : q < (2 : ℚ) ^ (e + 1)) :
    roundDouble q = (roundHalfEven (q * (2 : ℚ) ^ (52 - e)) : ℚ) * (2 : ℚ) ^ (e - 52) := by
  have hq : 0 < q := lt_of_lt_of_le (zpow_pos (by norm_num) e) h1
  have hex := roundDouble_exponent q hq
  have he := binary_exponent_unique q _ e hex.1 hex.2 h1 h2
  unfold roundDouble
  rw [if_neg (not_le.mpr hq)]
  simp only
  rw [he]

/-- The function `roundDouble` returns a binary64 value nearest to its argument: the
relative error is at most `2 ^ (-53)`. -/
theorem roundDouble_err (q : ℚ) (hq : 0 ≤ q) : |roundDouble q - q| ≤ q / 2 ^ 53 := by
  rcases eq_or_lt_of_le hq with h0 | hpos
  · subst h0
    simp [roundDouble]
  · obtain ⟨h1, h2⟩ := roundDouble_exponent q hpos
    generalize (if q < (2 : ℚ) ^ ((Nat.log2 q.num.toNat : Int) - (Nat.log2 q.den : Int))
        then (Nat.log2 q.num.toNat : Int) - (Nat.log2 q.den : Int) - 1
        else (Nat.log2 q.num.toNat : Int) - (Nat.log2 q.den : Int)) = e at h1 h2
    rw [roundDouble_eq q e h1 h2]
    have hs : (0 : ℚ) < (2 : ℚ) ^ (e - 52) := zpow_pos (by norm_num) _
    have hinv : (2 : ℚ) ^ (52 - e) * (2 : ℚ) ^ (e - 52) = 1 := by
      rw [← zpow_add₀ (by norm_num : (2 : ℚ) ≠ 0)]
      simp
    have herr := roundHalfEven_err (q * (2 : ℚ) ^ (52 - e))
    have hfac : (roundHalfEven (q * (2 : ℚ) ^ (52 - e)) : ℚ) * (2 : ℚ) ^ (e - 52) - q =
        ((roundHalfEven (q * (2 : ℚ) ^ (52 - e)) : ℚ) - q * (2 : ℚ) ^ (52 - e)) *
          (2 : ℚ) ^ (e - 52) := by
      rw [sub_mul, mul_assoc, hinv, mul_one]
    rw [hfac, abs_mul, abs_of_pos hs]
    have hle : (1 / 2 : ℚ) * (2 : ℚ) ^ (e - 52) ≤ q / 2 ^ 53 := by
      have : (2 : ℚ) ^ (e - 52) = (2 : ℚ) ^ e / 2 ^ 52 := by
        rw [zpow_sub₀ (by norm_num : (2 : ℚ) ≠ 0)]; norm_cast
      rw [this, le_div_iff₀ (by positivity)]
      have : (1 / 2 : ℚ) * ((2 : ℚ) ^ e / 2 ^ 52) * 2 ^ 53 = (2 : ℚ) ^ e := by
        ring
      rw [this]; exact h1
    calc _ ≤ (1 / 2 : ℚ) * (2 : ℚ) ^ (e - 52) := mul_le_mul_of_nonneg_right herr hs.le
      _ ≤ _ := hle

/-- The quotient `rand() / (double)RAND_MAX` is the exact quotient rounded to
binary64: it differs from the exact quotient by a relative error of at most
`2 ^ (-53)`, and on the grid of binary64 values with the binary exponent of the
exact quotient it is a multiple of the grid step, and no multiple is nearer. -/
theorem rand_ratio_rounds (r : Nat) :
    (∃ x : ℚ, rand_ratio r = .fin x ∧
      |x - (r : ℚ) / (RAND_MAX : ℚ)| ≤ (r : ℚ) / (RAND_MAX : ℚ) / 2 ^ 53) ∧
    ∀ (x : ℚ) (e : Int), rand_ratio r = .fin x →
      (2 : ℚ) ^ e ≤ (r : ℚ) / (RAND_MAX : ℚ) →
      (r : ℚ) / (RAND_MAX : ℚ) < (2 : ℚ) ^ (e + 1) →
      (∃ m : Int, x = (m : ℚ) * (2 : ℚ) ^ (e - 52)) ∧
      ∀ m : Int, |x - (r : ℚ) / (RAND_MAX : ℚ)| ≤
        |(m : ℚ) * (2 : ℚ) ^ (e - 52) - (r : ℚ) / (RAND_MAX : ℚ)| := by
  have hq : (0 : ℚ) ≤ (r : ℚ) / (RAND_MAX : ℚ) := by positivity
  refine ⟨⟨_, rfl, roundDouble_err _ hq⟩, ?_⟩
  intro x e hx h1 h2
  have hx2 : x = roundDouble ((r : ℚ) / (RAND_MAX : ℚ)) := by
    unfold rand_ratio at hx
    exact (Dbl.fin.inj hx).symm
  subst hx2
  rw [roundDouble_eq _ e h1 h2]
  refine ⟨⟨_, rfl⟩, fun m => ?_⟩
  generalize (r : ℚ) / (RAND_MAX : ℚ) = q
  have hs : (0 : ℚ) < (2 : ℚ) ^ (e - 52) := zpow_pos (by norm_num) _
  have hinv : (2 : ℚ) ^ (52 - e) * (2 : ℚ) ^ (e - 52) = 1 := by
    rw [← zpow_add₀ (by norm_num : (2 : ℚ) ≠ 0)]
    simp
  have hfac : ∀ a : ℚ, a * (2 : ℚ) ^ (e - 52) - q =
      (a - q * (2 : ℚ) ^ (52 - e)) * (2 : ℚ) ^ (e - 52) := by
    intro a
    rw [sub_mul, mul_assoc, hinv, mul_one]
  rw [hfac, hfac, abs_mul, abs_mul, abs_of_pos hs]
  exact mul_le_mul_of_nonneg_right (roundHalfEven_nearest _ m) hs.le

/-- The double quotient of the draw `715827882`. -/
theorem rand_ratio_third :
    rand_ratio 715827882 = .fin (6004799500364459 / 18014398509481984) := by
  unfold rand_ratio
  rw [roundDouble_eq _ (-2) (by decide!) (by decide!)]
  decide!

/-- C8 as stated fails: with no call cap, the leave probability
`6004799500364459 / 2 ^ 54` (a binary64 value in `[0, 1]`) and the draw
`715827882`, the draw divided by `RAND_MAX` is strictly below the leave
probability, yet `should_leave` returns false: the double quotient is the
exact one rounded up to the leave probability itself. -/
theorem should_leave_differs_from_exact_quotient :
    cfgThird.stop_after_calls = 0 ∧
      cfgThird.leave_probability = .fin (6004799500364459 / 18014398509481984) ∧
      (715827882 : ℚ) / (RAND_MAX : ℚ) < 6004799500364459 / 18014398509481984 ∧
      leave_by_exact_quotient cfgThird 0 715827882 = true ∧
      rand_ratio 715827882 = cfgThird.leave_probability ∧
      should_leave cfgThird 0 715827882 = false := by
  refine ⟨rfl, rfl, by decide!, by decide!, rand_ratio_third, ?_⟩
  unfold should_leave
  rw [rand_ratio_third]
  decide!

/-- C8, amended: `should_leave` returns true exactly when the positive call cap
is reached or the quotient `rand() / (double)RAND_MAX` is strictly below
`leave_probability`, where the quotient is the draw divided by `RAND_MAX` and
rounded to the nearest binary64 value: it lies within a relative error of
`2 ^ (-53)` of the exact quotient, on the binary64 grid of the exact quotient's
binary exponent, and no point of that grid is nearer.
So it returns true when the exact quotient, enlarged by that error, is below
the probability, and, the cap aside, false when the probability is not above
the exact quotient reduced by that error.  A cap `≤ 0` never triggers leaving,
a reached positive cap always does, and with probability 0 and the cap not
reached it returns false for every draw.  Both strategies branch on this same
function. -/
theorem should_leave_spec (cfg : Config) (conversations : Int) (r : Nat) :
    (should_leave cfg conversations r = true ↔
      (0 < cfg.stop_after_calls ∧ cfg.stop_after_calls ≤ conversations) ∨
        Dbl.lt (rand_ratio r) cfg.leave_probability = true) ∧
    (∃ x : ℚ, rand_ratio r = .fin x ∧
      |x - (r : ℚ) / (RAND_MAX : ℚ)| ≤ (r : ℚ) / (RAND_MAX : ℚ) / 2 ^ 53) ∧
    (∀ (x : ℚ) (e : Int), rand_ratio r = .fin x →
      (2 : ℚ) ^ e ≤ (r : ℚ) / (RAND_MAX : ℚ) →
      (r : ℚ) / (RAND_MAX : ℚ) < (2 : ℚ) ^ (e + 1) →
      (∃ m : Int, x = (m : ℚ) * (2 : ℚ) ^ (e - 52)) ∧
      ∀ m : Int, |x - (r : ℚ) / (RAND_MAX : ℚ)| ≤
        |(m : ℚ) * (2 : ℚ) ^ (e - 52) - (r : ℚ) / (RAND_MAX : ℚ)|) ∧
    (∀ pq : ℚ, cfg.leave_probability = .fin pq →
      ((r : ℚ) / (RAND_MAX : ℚ) + (r : ℚ) / (RAND_MAX : ℚ) / 2 ^ 53 < pq →
        should_leave cfg conversations r = true) ∧
      (¬ (0 < cfg.stop_after_calls ∧ cfg.stop_after_calls ≤ conversations) →
        pq ≤ (r : ℚ) / (RAND_MAX : ℚ) - (r : ℚ) / (RAND_MAX : ℚ) / 2 ^ 53 →
        should_leave cfg conversations r = false)) ∧
    (cfg.stop_after_calls ≤ 0 →
      should_leave cfg conversations r = Dbl.lt (rand_ratio r) cfg.leave_probability) ∧
    (0 < cfg.stop_after_calls → cfg.stop_after_calls ≤ conversations →
      should_leave cfg conversations r = true) ∧
    (cfg.leave_probability = .fin 0 →
      ¬ (0 < cfg.stop_after_calls ∧ cfg.stop_after_calls ≤ conversations) →
      should_leave cfg conversations r = false) ∧
    (∀ (s : Sem.Shared) (p : Nat) (e : Env), (s.frames p).pc = .leave_check →
      Sem.step cfg s p e = some (s.goto p
        (if should_leave cfg (s.talkers p).conversations e.rnd then .leave_flag
          else .loop_head))) ∧
    (∀ (s : Cond.Shared) (p : Nat) (e : Env), (s.frames p).pc = .leave_check →
      Cond.step cfg s p e = some (s.goto p
        (if should_leave cfg (s.talkers p).conversations e.rnd then .leave_flag
          else .loop_head))) := by
  refine ⟨?_, (rand_ratio_rounds r).1, (rand_ratio_rounds r).2, ?_, ?_, ?_, ?_, ?_, ?_⟩
  · unfold should_leave
    split
    · rename_i h; simp only [true_iff]; exact Or.inl ⟨h.1, h.2⟩
    · rename_i h
      constructor
      · intro h2; exact Or.inr h2
      · rintro (h2 | h2)
        · exact absurd ⟨h2.1, h2.2⟩ h
        · exact h2
  · intro pq hp
    have herr := roundDouble_err ((r : ℚ) / (RAND_MAX : ℚ)) (by positivity)
    rw [abs_le] at herr
    constructor
    · intro hlt
      unfold should_leave
      split
      · rfl
      · rw [hp]
        simp only [rand_ratio, Dbl.lt, decide_eq_true_eq]
        linarith [herr.2]
    · intro hcap hge
      unfold should_leave
      rw [if_neg (fun h3 => hcap ⟨h3.1, h3.2⟩), hp]
      simp only [rand_ratio, Dbl.lt, decide_eq_false_iff_not, not_lt]
      linarith [herr.1]
  · intro h
    unfold should_leave
    rw [if_neg]
    intro h2
    have := h2.1
    omega
  · intro h1 h2
    unfold should_leave
    rw [if_pos ⟨h1, h2⟩]
  · intro h1 h2
    unfold should_leave
    rw [if_neg (fun h3 => h2 ⟨h3.1, h3.2⟩), h1]
    exact rand_ratio_not_lt_zero r
  · intro s p e hpc
    simp only [Sem.step, hpc]
    split <;> simp_all
  · intro s p e hpc
    simp only [Cond.step, hpc]
    split <;> simp_all

theorem should_leave_spec_witness :
    should_leave cfg2 0 1000000 = true ∧
      should_leave cfg2 0 2000000000 = false ∧
      should_leave cfg2 0 0 = Dbl.lt (rand_ratio 0) cfg2.leave_probability ∧
      should_leave ⟨2, 10, 10, 50, 59, 1, .fin 0, 0⟩ 1 5 = true ∧
      should_leave cfg3 0 7 = false ∧
      ((∃ m : Int, (6004799500364459 / 18014398509481984 : ℚ) =
          (m : ℚ) * (2 : ℚ) ^ ((-2 : Int) - 52)) ∧
        ∀ m : Int,
          |(6004799500364459 / 18014398509481984 : ℚ) -
              ((715827882 : Nat) : ℚ) / (RAND_MAX : ℚ)| ≤
            |(m : ℚ) * (2 : ℚ) ^ ((-2 : Int) - 52) -
              ((715827882 : Nat) : ℚ) / (RAND_MAX : ℚ)|) :=
  ⟨((should_leave_spec cfg2 0 1000000).2.2.2.1 (1 / 2) rfl).1 (by decide!),
    ((should_leave_spec cfg2 0 2000000000).2.2.2.1 (1 / 2) rfl).2 (by decide) (by decide!),
    (should_leave_spec cfg2 0 0).2.2.2.2.1 (by decide),
    (should_leave_spec ⟨2, 10, 10, 50, 59, 1, .fin 0, 0⟩ 1 5).2.2.2.2.2.1 (by decide) (by decide),
    (should_leave_spec cfg3 0 7).2.2.2.2.2.2.1 rfl (by decide),
    (should_leave_spec cfg3 0 715827882).2.2.1 (6004799500364459 / 18014398509481984) (-2)
      rand_ratio_third (by decide!) (by decide!)⟩

/-! ## Departure: the counter tracks the flags -/

theorem sem_step_gone_stays {cfg : Config} {s s2 : Sem.Shared} {p : Nat} {e : Env}
    (h : Sem.step cfg s p e = some s2) (hg : (s.frames p).pc.gone = true) :
    (s2.frames p).pc.gone = true := by
  unfold Sem.step at h
  cases hpc : (s.frames p).pc <;> (try (rename_i k; cases k)) <;>
    simp only [hpc] at h <;> (try split at h) <;>
    simp only [Option.some.injEq, reduceCtorEq] at h <;> subst h <;>
    simp_all [Sem.Shared.goto, Sem.Shared.setTalker, Sem.Shared.setFrame, Sem.Shared.emit,
      Function.update_apply, Sem.Loc.gone]

/-- The function `leave_network` run without interruption from a reachable
state: it clears the flag of the leaving talker only, lowers `active_count` by
one, and keeps the counter equal to the number of set flags. -/
theorem sem_leave_network {cfg : Config} {ts : Timespec} {s : Sem.Shared}
    (hr : Sem.Reachable cfg ts s) (p : Nat) (hp : (p : Int) < cfg.talkers)
    (hpc : (s.frames p).pc = .leave_flag) (e1 e2 : Env) :
    ∃ s1 s2, Sem.step cfg s p e1 = some s1 ∧ Sem.step cfg s1 p e2 = some s2 ∧
      (s.talkers p).active = true ∧ (s2.talkers p).active = false ∧
      (∀ j, j ≠ p → (s2.talkers j).active = (s.talkers j).active) ∧
      s2.active_count = s.active_count - 1 ∧
      Sem.activeTalkers cfg s2 + 1 = Sem.activeTalkers cfg s := by
  have hact : (s.talkers p).active = true :=
    sem_active_of_not_gone hr p hp (by rw [hpc]; rfl)
  have h1 : Sem.step cfg s p e1 =
      some ((s.setTalker p { s.talkers p with active := false }).goto p .leave_count) := by
    simp [Sem.step, hpc]
  have hpc1 : (((s.setTalker p { s.talkers p with active := false }).goto p
      .leave_count).frames p).pc = .leave_count := by
    simp [Sem.Shared.goto, Sem.Shared.setTalker]
  obtain ⟨s2, h2⟩ : ∃ s2, Sem.step cfg ((s.setTalker p { s.talkers p with active := false }).goto
      p .leave_count) p e2 = some s2 := by
    simp [Sem.step, hpc1]
  have a1 := sem_step_active h1
  have a2 := sem_step_active h2
  have c1 := sem_step_active_count h1
  have c2 := sem_step_active_count h2
  rw [hpc1] at a2 c2
  rw [hpc] at a1 c1
  have hall : ∀ j, (s2.talkers j).active = if j = p then false else (s.talkers j).active := by
    intro j
    rw [a2 j, a1 j]
    simp
  refine ⟨_, s2, h1, h2, hact, by simp [hall], fun j hj => by simp [hall, hj], ?_, ?_⟩
  · rw [c2, c1]; simp
  · apply countUpTo_clear _ _ _ p (by omega) hact
    · simp [hall]
    · intro i hi; simp [hall, hi]

theorem sem_active_count_le {cfg : Config} {ts : Timespec} {s : Sem.Shared}
    (hr : Sem.Reachable cfg ts s) : s.active_count ≤ cfg.talkers := by
  induction hr with
  | init => simp [Sem.init]
  | step s s2 q e _ _ hst ih =>
    rw [sem_step_active_count hst]
    split <;> omega

theorem cond_step_gone_stays {cfg : Config} {s s2 : Cond.Shared} {p : Nat} {e : Env}
    (h : Cond.step cfg s p e = some s2) (hg : (s.frames p).pc.gone = true) :
    (s2.frames p).pc.gone = true := by
  unfold Cond.step at h
  cases hpc : (s.frames p).pc <;> (try (rename_i k; cases k)) <;>
    simp only [hpc] at h <;> (repeat' split at h) <;>
    simp only [Option.some.injEq, reduceCtorEq] at h <;> subst h <;>
    (try simp only [Cond.barrier_wait]) <;> (repeat' split) <;>
    simp_all [Cond.Shared.goto, Cond.Shared.setTalker, Cond.Shared.setFrame, Cond.Shared.emit,
      Cond.finish, Function.update_apply, Cond.Loc.gone]

/-- The function `leave_network` run without interruption from a reachable
state: it clears the flag of the leaving talker only, lowers `active_count` by
one, and keeps the counter equal to the number of set flags. -/
theorem cond_leave_network {cfg : Config} {ts : Timespec} {s : Cond.Shared}
    (hr : Cond.Reachable cfg ts s) (p : Nat) (hp : (p : Int) < cfg.talkers)
    (hpc : (s.frames p).pc = .leave_flag) (e1 e2 : Env) :
    ∃ s1 s2, Cond.step cfg s p e1 = some s1 ∧ Cond.step cfg s1 p e2 = some s2 ∧
      (s.talkers p).active = true ∧ (s2.talkers p).active = false ∧
      (∀ j, j ≠ p → (s2.talkers j).active = (s.talkers j).active) ∧
      s2.active_count = s.active_count - 1 ∧
      Cond.activeTalkers cfg s2 + 1 = Cond.activeTalkers cfg s := by
  have hact : (s.talkers p).active = true :=
    cond_active_of_not_gone hr p hp (by rw [hpc]; rfl)
  have h1 : Cond.step cfg s p e1 =
      some ((s.setTalker p { s.talkers p with active := false }).goto p .leave_count) := by
    simp [Cond.step, hpc]
  have hpc1 : (((s.setTalker p { s.talkers p with active := false }).goto p
      .leave_count).frames p).pc = .leave_count := by
    simp [Cond.Shared.goto, Cond.Shared.setTalker]
  obtain ⟨s2, h2⟩ : ∃ s2, Cond.step cfg ((s.setTalker p { s.talkers p with active := false }).goto
      p .leave_count) p e2 = some s2 := by
    simp [Cond.step, hpc1]
  have a1 := cond_step_active h1
  have a2 := cond_step_active h2
  have c1 := cond_step_active_count h1
  have c2 := cond_step_active_count h2
  rw [hpc1] at a2 c2
  rw [hpc] at a1 c1
  have hall : ∀ j, (s2.talkers j).active = if j = p then false else (s.talkers j).active := by
    intro j
    rw [a2 j, a1 j]
    simp
  refine ⟨_, s2, h1, h2, hact, by simp [hall], fun j hj => by simp [hall, hj], ?_, ?_⟩
  · rw [c2, c1]; simp
  · apply countUpTo_clear _ _ _ p (by omega) hact
    · simp [hall]
    · intro i hi; simp [hall, hi]

theorem cond_active_count_le {cfg : Config} {ts : Timespec} {s : Cond.Shared}
    (hr : Cond.Reachable cfg ts s) : s.active_count ≤ cfg.talkers := by
  induction hr with
  | init => simp [Cond.init]
  | step s s2 q e _ _ hst ih =>
    rw [cond_step_active_count hst]
    split <;> omega

theorem sem_step_exec_single (cfg : Config) (s : Sem.Shared) (p : Nat) (e : Env)
    (hp : (p : Int) < cfg.talkers) (h : (Sem.step cfg s p e).isSome = true) :
    Sem.step cfg s p e = some (Sem.exec cfg s [(p, e)]) := by
  cases hst : Sem.step cfg s p e with
  | none => rw [hst] at h; exact absurd h (by simp)
  | some s2 => simp [Sem.exec, hp, hst]

theorem cond_step_exec_single (cfg : Config) (s : Cond.Shared) (p : Nat) (e : Env)
    (hp : (p : Int) < cfg.talkers) (h : (Cond.step cfg s p e).isSome = true) :
    Cond.step cfg s p e = some (Cond.exec cfg s [(p, e)]) := by
  cases hst : Cond.step cfg s p e with
  | none => rw [hst] at h; exact absurd h (by simp)
  | some s2 => simp [Cond.exec, hp, hst]

theorem cfg2_valid : cfg2.valid := by
  unfold Config.valid cfg2 MAX_TALKERS
  decide

theorem cfg3_valid : cfg3.valid := by
  unfold Config.valid cfg3 MAX_TALKERS
  decide

/-- C9 as stated fails: a reachable state of either strategy in which
`active_count` is 2 while only one talker has its `active` flag set: talker 1
has executed the first write of `leave_network` (the flag, under its mutex) and
not yet the `atomic_fetch_sub`.  A finished `leave_network` does not bring the
two together either: when both talkers leave and talker 1 clears its flag
between the two writes of talker 0, talker 0 ends `leave_network` with the
counter at 1 and no flag set. -/
theorem active_count_differs_from_active_talkers :
    (Sem.Reachable cfg2 t0 (Sem.exec cfg2 (Sem.init cfg2 t0) (moves 1 8)) ∧
      (Sem.exec cfg2 (Sem.init cfg2 t0) (moves 1 8)).active_count = 2 ∧
      Sem.activeTalkers cfg2 (Sem.exec cfg2 (Sem.init cfg2 t0) (moves 1 8)) = 1 ∧
      ((Sem.exec cfg2 (Sem.init cfg2 t0) (moves 1 8)).frames 1).pc = .leave_count ∧
      Sem.Reachable cfg2 t0
        (Sem.exec cfg2 (Sem.init cfg2 t0) (moves 0 8 ++ moves 1 8 ++ moves 0 1)) ∧
      (Sem.exec cfg2 (Sem.init cfg2 t0) (moves 0 8 ++ moves 1 8 ++ moves 0 1)).active_count
        = 1 ∧
      Sem.activeTalkers cfg2
        (Sem.exec cfg2 (Sem.init cfg2 t0) (moves 0 8 ++ moves 1 8 ++ moves 0 1)) = 0 ∧
      ((Sem.exec cfg2 (Sem.init cfg2 t0) (moves 0 8 ++ moves 1 8 ++ moves 0 1)).frames 0).pc
        = .exit_check) ∧
    (Cond.Reachable cfg2 t0 (Cond.exec cfg2 (Cond.init cfg2 t0) (moves 1 9)) ∧
      (Cond.exec cfg2 (Cond.init cfg2 t0) (moves 1 9)).active_count = 2 ∧
      Cond.activeTalkers cfg2 (Cond.exec cfg2 (Cond.init cfg2 t0) (moves 1 9)) = 1 ∧
      ((Cond.exec cfg2 (Cond.init cfg2 t0) (moves 1 9)).frames 1).pc = .leave_count ∧
      Cond.Reachable cfg2 t0
        (Cond.exec cfg2 (Cond.init cfg2 t0) (moves 0 9 ++ moves 1 9 ++ moves 0 1)) ∧
      (Cond.exec cfg2 (Cond.init cfg2 t0) (moves 0 9 ++ moves 1 9 ++ moves 0 1)).active_count
        = 1 ∧
      Cond.activeTalkers cfg2
        (Cond.exec cfg2 (Cond.init cfg2 t0) (moves 0 9 ++ moves 1 9 ++ moves 0 1)) = 0 ∧
      ((Cond.exec cfg2 (Cond.init cfg2 t0) (moves 0 9 ++ moves 1 9 ++ moves 0 1)).frames 0).pc
        = .exit_check) := by
  refine ⟨⟨sem_reachable_exec _ _ _ _ Sem.Reachable.init, by decide!, by decide!, by decide!,
      sem_reachable_exec _ _ _ _ Sem.Reachable.init, by decide!⟩,
    ⟨cond_reachable_exec _ _ _ _ Cond.Reachable.init, by decide!, by decide!, by decide!,
      cond_reachable_exec _ _ _ _ Cond.Reachable.init, by decide!⟩⟩

/-- C9, amended: `active_count` starts at the number of talkers, all of them
active.  In every reachable state, and so before and after every step of a
worker, it equals the number of active talkers plus the number of workers
between the two writes of `leave_network`; the counter and the number of set
flags agree whenever no worker stands between the two writes.  A step changes a
flag only by clearing the flag of the worker that executes the first write of
`leave_network`, and changes the counter only by lowering it by one in the
second write.  The two writes of one `leave_network`, taken one right after the
other, clear exactly the flag of the leaving talker and lower the counter by
one.  `leave_network` starts with the flag set, and a worker whose flag is
clear is past it for good.  Hence no flag goes from false to true, and the
counter never grows and stays between 0 and the number of talkers. -/
theorem active_count_tracks_active_talkers (cfg : Config) (ts : Timespec) (hv : cfg.valid)
    (s s2 : Sem.Shared) (p : Nat) (e : Env) (hs : Sem.Reachable cfg ts s)
    (hp : (p : Int) < cfg.talkers) (hst : Sem.step cfg s p e = some s2)
    (c c2 : Cond.Shared) (q : Nat) (e' : Env) (hc : Cond.Reachable cfg ts c)
    (hq : (q : Int) < cfg.talkers) (hct : Cond.step cfg c q e' = some c2) :
    ((Sem.init cfg ts).active_count = cfg.talkers ∧
      (∀ i : Nat, (i : Int) < cfg.talkers → ((Sem.init cfg ts).talkers i).active = true) ∧
      (Sem.activeTalkers cfg (Sem.init cfg ts) : Int) = cfg.talkers ∧
      s.active_count = (Sem.activeTalkers cfg s : Int) + (Sem.leaving cfg s : Int) ∧
      (Sem.leaving cfg s = 0 → s.active_count = (Sem.activeTalkers cfg s : Int)) ∧
      s2.active_count = (Sem.activeTalkers cfg s2 : Int) + (Sem.leaving cfg s2 : Int) ∧
      (∀ j, (s2.talkers j).active ≠ (s.talkers j).active →
        j = p ∧ (s.frames p).pc = .leave_flag ∧ (s.talkers j).active = true ∧
          (s2.talkers j).active = false) ∧
      (s2.active_count ≠ s.active_count →
        (s.frames p).pc = .leave_count ∧ s2.active_count = s.active_count - 1) ∧
      ((s.frames p).pc = .leave_flag →
        (s.talkers p).active = true ∧
        ∀ e1 e2, ∃ s3 s4, Sem.step cfg s p e1 = some s3 ∧ Sem.step cfg s3 p e2 = some s4 ∧
          (s4.talkers p).active = false ∧
          (∀ j, j ≠ p → (s4.talkers j).active = (s.talkers j).active) ∧
          s4.active_count = s.active_count - 1 ∧
          (s.active_count = (Sem.activeTalkers cfg s : Int) →
            s4.active_count = (Sem.activeTalkers cfg s4 : Int))) ∧
      ((s.talkers p).active = false →
        (s.frames p).pc.gone = true ∧ (s2.frames p).pc.gone = true) ∧
      (∀ j, (s.talkers j).active = false → (s2.talkers j).active = false) ∧
      0 ≤ s.active_count ∧ s.active_count ≤ cfg.talkers ∧ s2.active_count ≤ s.active_count) ∧
    ((Cond.init cfg ts).active_count = cfg.talkers ∧
      (∀ i : Nat, (i : Int) < cfg.talkers → ((Cond.init cfg ts).talkers i).active = true) ∧
      (Cond.activeTalkers cfg (Cond.init cfg ts) : Int) = cfg.talkers ∧
      c.active_count = (Cond.activeTalkers cfg c : Int) + (Cond.leaving cfg c : Int) ∧
      (Cond.leaving cfg c = 0 → c.active_count = (Cond.activeTalkers cfg c : Int)) ∧
      c2.active_count = (Cond.activeTalkers cfg c2 : Int) + (Cond.leaving cfg c2 : Int) ∧
      (∀ j, (c2.talkers j).active ≠ (c.talkers j).active →
        j = q ∧ (c.frames q).pc = .leave_flag ∧ (c.talkers j).active = true ∧
          (c2.talkers j).active = false) ∧
      (c2.active_count ≠ c.active_count →
        (c.frames q).pc = .leave_count ∧ c2.active_count = c.active_count - 1) ∧
      ((c.frames q).pc = .leave_flag →
        (c.talkers q).active = true ∧
        ∀ e1 e2, ∃ c3 c4, Cond.step cfg c q e1 = some c3 ∧ Cond.step cfg c3 q e2 = some c4 ∧
          (c4.talkers q).active = false ∧
          (∀ j, j ≠ q → (c4.talkers j).active = (c.talkers j).active) ∧
          c4.active_count = c.active_count - 1 ∧
          (c.active_count = (Cond.activeTalkers cfg c : Int) →
            c4.active_count = (Cond.activeTalkers cfg c4 : Int))) ∧
      ((c.talkers q).active = false →
        (c.frames q).pc.gone = true ∧ (c2.frames q).pc.gone = true) ∧
      (∀ j, (c.talkers j).active = false → (c2.talkers j).active = false) ∧
      0 ≤ c.active_count ∧ c.active_count ≤ cfg.talkers ∧ c2.active_count ≤ c.active_count) := by
  have hN : 0 ≤ cfg.talkers := by have := hv.1; omega
  constructor
  · have hinv := sem_active_count_eq hN hs
    have hact := sem_step_active hst
    have hcnt := sem_step_active_count hst
    have hinit : Sem.activeTalkers cfg (Sem.init cfg ts) = cfg.talkers.toNat := by
      apply countUpTo_all
      intro i hi
      simp only [Sem.init, decide_eq_true_eq]
      omega
    refine ⟨rfl, fun i hi => by simp [Sem.init, hi], by rw [hinit]; omega, hinv,
      fun h0 => by rw [hinv, h0]; simp,
      sem_active_count_eq hN (Sem.Reachable.step s s2 p e hs hp hst), ?_, ?_, ?_, ?_, ?_,
      by omega,
      sem_active_count_le hs, by rw [hcnt]; split <;> omega⟩
    · intro j hj
      rw [hact j] at hj
      by_cases hcond : (s.frames p).pc = .leave_flag ∧ j = p
      · obtain ⟨h1, h2⟩ := hcond
        subst h2
        have := sem_active_of_not_gone hs j hp (by rw [h1]; rfl)
        exact ⟨rfl, h1, this, by rw [hact j]; simp [h1]⟩
      · rw [if_neg hcond] at hj
        exact absurd rfl hj
    · intro hne
      rw [hcnt] at hne ⊢
      by_cases hl : (s.frames p).pc = .leave_count
      · simp [hl]
      · rw [if_neg hl] at hne; exact absurd rfl hne
    · intro hflag
      refine ⟨sem_active_of_not_gone hs p hp (by rw [hflag]; rfl), fun e1 e2 => ?_⟩
      obtain ⟨s3, s4, h1, h2, _, h4, h5, h6, h7⟩ := sem_leave_network hs p hp hflag e1 e2
      exact ⟨s3, s4, h1, h2, h4, h5, h6, fun heq => by rw [h6, heq]; omega⟩
    · intro hfalse
      have hg : (s.frames p).pc.gone = true := by
        by_contra hng
        have := sem_active_of_not_gone hs p hp (by simpa using hng)
        rw [hfalse] at this
        exact absurd this (by simp)
      exact ⟨hg, sem_step_gone_stays hst hg⟩
    · intro j hj
      rw [hact j]
      split
      · rfl
      · exact hj
  · have hinv := cond_active_count_eq hN hc
    have hact := cond_step_active hct
    have hcnt := cond_step_active_count hct
    have hinit : Cond.activeTalkers cfg (Cond.init cfg ts) = cfg.talkers.toNat := by
      apply countUpTo_all
      intro i hi
      simp only [Cond.init, decide_eq_true_eq]
      omega
    refine ⟨rfl, fun i hi => by simp [Cond.init, hi], by rw [hinit]; omega, hinv,
      fun h0 => by rw [hinv, h0]; simp,
      cond_active_count_eq hN (Cond.Reachable.step c c2 q e' hc hq hct), ?_, ?_, ?_, ?_, ?_,
      by omega,
      cond_active_count_le hc, by rw [hcnt]; split <;> omega⟩
    · intro j hj
      rw [hact j] at hj
      by_cases hcond : (c.frames q).pc = .leave_flag ∧ j = q
      · obtain ⟨h1, h2⟩ := hcond
        subst h2
        have := cond_active_of_not_gone hc j hq (by rw [h1]; rfl)
        exact ⟨rfl, h1, this, by rw [hact j]; simp [h1]⟩
      · rw [if_neg hcond] at hj
        exact absurd rfl hj
    · intro hne
      rw [hcnt] at hne ⊢
      by_cases hl : (c.frames q).pc = .leave_count
      · simp [hl]
      · rw [if_neg hl] at hne; exact absurd rfl hne
    · intro hflag
      refine ⟨cond_active_of_not_gone hc q hq (by rw [hflag]; rfl), fun e1 e2 => ?_⟩
      obtain ⟨c3, c4, h1, h2, _, h4, h5, h6, h7⟩ := cond_leave_network hc q hq hflag e1 e2
      exact ⟨c3, c4, h1, h2, h4, h5, h6, fun heq => by rw [h6, heq]; omega⟩
    · intro hfalse
      have hg : (c.frames q).pc.gone = true := by
        by_contra hng
        have := cond_active_of_not_gone hc q hq (by simpa using hng)
        rw [hfalse] at this
        exact absurd this (by simp)
      exact ⟨hg, cond_step_gone_stays hct hg⟩
    · intro j hj
      rw [hact j]
      split
      · rfl
      · exact hj

theorem active_count_tracks_active_talkers_witness :
    cfg2.valid ∧
      Sem.Reachable cfg2 t0 (Sem.exec cfg2 (Sem.init cfg2 t0) (moves 1 7)) ∧
      ((Sem.exec cfg2 (Sem.init cfg2 t0) (moves 1 7)).frames 1).pc = .leave_flag ∧
      (Sem.exec cfg2 (Sem.init cfg2 t0) (moves 1 7)).active_count =
        (Sem.activeTalkers cfg2 (Sem.exec cfg2 (Sem.init cfg2 t0) (moves 1 7)) : Int) +
          (Sem.leaving cfg2 (Sem.exec cfg2 (Sem.init cfg2 t0) (moves 1 7)) : Int) ∧
      Cond.Reachable cfg2 t0 (Cond.exec cfg2 (Cond.init cfg2 t0) (moves 1 8)) ∧
      ((Cond.exec cfg2 (Cond.init cfg2 t0) (moves 1 8)).frames 1).pc = .leave_flag ∧
      (Cond.exec cfg2 (Cond.init cfg2 t0) (moves 1 8)).active_count =
        (Cond.activeTalkers cfg2 (Cond.exec cfg2 (Cond.init cfg2 t0) (moves 1 8)) : Int) +
          (Cond.leaving cfg2 (Cond.exec cfg2 (Cond.init cfg2 t0) (moves 1 8)) : Int) :=
  have hs := sem_reachable_exec cfg2 t0 (moves 1 7) _ Sem.Reachable.init
  have hc := cond_reachable_exec cfg2 t0 (moves 1 8) _ Cond.Reachable.init
  have h := active_count_tracks_active_talkers cfg2 t0 cfg2_valid
    (Sem.exec cfg2 (Sem.init cfg2 t0) (moves 1 7)) _ 1 (quiet 0) hs (by decide)
    (sem_step_exec_single cfg2 _ 1 (quiet 0) (by decide) (by decide!))
    (Cond.exec cfg2 (Cond.init cfg2 t0) (moves 1 8)) _ 1 (quiet 0) hc (by decide)
    (cond_step_exec_single cfg2 _ 1 (quiet 0) (by decide) (by decide!))
  ⟨cfg2_valid, hs, by decide!, h.1.2.2.2.1, hc, by decide!, h.2.2.2.2.1⟩

/-- C3: in both strategies, in every reachable state, a step of a worker that
writes a pending call writes it into the slot of another talker and records
the writer as the caller; call placement returns true only out of
`finish_conversation` / `finish` with a target other than the caller; and every
pending call names a caller other than the owner of the slot. -/
theorem no_self_call (cfg : Config) (ts : Timespec) (hv : cfg.valid)
    (s s2 : Sem.Shared) (p : Nat) (e : Env) (hs : Sem.Reachable cfg ts s)
    (hst : Sem.step cfg s p e = some s2)
    (c c2 : Cond.Shared) (q : Nat) (e' : Env) (hc : Cond.Reachable cfg ts c)
    (hct : Cond.step cfg c q e' = some c2) :
    ((∀ j, (s2.talkers j).incoming ≠ (s.talkers j).incoming →
        (s2.talkers j).incoming.has_request = true →
        (s.frames p).pc = .call_check ∧ j ≠ p ∧ (s2.talkers j).incoming.from_id = p ∧
          (s2.talkers j).incoming.from_id ≠ j) ∧
      ((s2.frames p).pc = .call_ret true →
        (s.frames p).pc = .call_finish ∧ (s.frames p).target ≠ p ∧
          s2.log = s.log ++ [.finished p (s.frames p).target (s.frames p).duration]) ∧
      (∀ j, (s.talkers j).incoming.has_request = true →
        (s.talkers j).incoming.from_id ≠ j)) ∧
    ((∀ j, (c2.talkers j).incoming ≠ (c.talkers j).incoming →
        (c2.talkers j).incoming.ready = true →
        (c.frames q).pc = .call_check ∧ j ≠ q ∧ (c2.talkers j).incoming.from_id = q ∧
          (c2.talkers j).incoming.from_id ≠ j) ∧
      ((c2.frames q).pc = .call_ret true →
        (c.frames q).pc = .call_finish ∧ (c.frames q).target ≠ q ∧
          c2.log = c.log ++ [.finished q (c.frames q).target (c.frames q).duration]) ∧
      (∀ j, (c.talkers j).incoming.ready = true →
        (c.talkers j).incoming.from_id ≠ j)) := by
  constructor
  · refine ⟨?_, ?_, fun j hj => sem_pending_from_other hv hs j hj⟩
    · intro j hne hreq
      rcases sem_step_incoming hst j hne with ⟨h1, h2, _, h4, _⟩ | ⟨_, h2⟩
      · have ht := sem_target_ne_self hv hs p (by rw [h1]; rfl)
        have hjp : j ≠ p := by
          intro hjp
          apply ht.2.2
          rw [← hjp, h2]
          omega
        refine ⟨h1, hjp, by rw [h4], ?_⟩
        rw [h4]
        simp only
        intro heq
        exact hjp (by exact_mod_cast heq.symm)
      · rw [h2] at hreq
        exact absurd hreq (by simp)
    · intro hret
      obtain ⟨h1, h2⟩ := sem_step_ret_true hst hret
      exact ⟨h1, (sem_target_ne_self hv hs p (by rw [h1]; rfl)).2.2, h2⟩
  · refine ⟨?_, ?_, fun j hj => cond_pending_from_other hv hc j hj⟩
    · intro j hne hreq
      rcases cond_step_incoming hct j hne with ⟨h1, h2, _, h4, _⟩ | ⟨_, h2⟩
      · have ht := cond_target_ne_self hv hc q (by rw [h1]; rfl)
        have hjq : j ≠ q := by
          intro hjq
          apply ht.2.2
          rw [← hjq, h2]
          omega
        refine ⟨h1, hjq, by rw [h4], ?_⟩
        rw [h4]
        simp only
        intro heq
        exact hjq (by exact_mod_cast heq.symm)
      · rw [h2] at hreq
        exact absurd hreq (by simp)
    · intro hret
      obtain ⟨h1, h2⟩ := cond_step_ret_true hct hret
      exact ⟨h1, (cond_target_ne_self hv hc q (by rw [h1]; rfl)).2.2, h2⟩

theorem no_self_call_witness :
    cfg2.valid ∧
      Sem.Reachable cfg2 t0 (Sem.exec cfg2 (Sem.init cfg2 t0) (toCheck 0 0 1)) ∧
      ((Sem.exec cfg2 (Sem.exec cfg2 (Sem.init cfg2 t0) (toCheck 0 0 1))
        [(0, quiet 0)]).talkers 1).incoming = ⟨0, 50, true⟩ ∧
      (∀ j, ((Sem.exec cfg2 (Sem.init cfg2 t0) (toCheck 0 0 1)).talkers j).incoming.has_request
          = true →
        ((Sem.exec cfg2 (Sem.init cfg2 t0) (toCheck 0 0 1)).talkers j).incoming.from_id ≠ j) ∧
      Cond.Reachable cfg2 t0 (Cond.exec cfg2 (Cond.init cfg2 t0) (toCheck 0 0 1)) ∧
      ((Cond.exec cfg2 (Cond.exec cfg2 (Cond.init cfg2 t0) (toCheck 0 0 1))
        [(0, quiet 0)]).talkers 1).incoming = ⟨0, 50, true, some 0⟩ ∧
      (∀ j, ((Cond.exec cfg2 (Cond.init cfg2 t0) (toCheck 0 0 1)).talkers j).incoming.ready
          = true →
        ((Cond.exec cfg2 (Cond.init cfg2 t0) (toCheck 0 0 1)).talkers j).incoming.from_id ≠ j) :=
  have hs := sem_reachable_exec cfg2 t0 (toCheck 0 0 1) _ Sem.Reachable.init
  have hc := cond_reachable_exec cfg2 t0 (toCheck 0 0 1) _ Cond.Reachable.init
  have h := no_self_call cfg2 t0 cfg2_valid
    (Sem.exec cfg2 (Sem.init cfg2 t0) (toCheck 0 0 1)) _ 0 (quiet 0) hs
    (sem_step_exec_single cfg2 _ 0 (quiet 0) (by decide) (by decide!))
    (Cond.exec cfg2 (Cond.init cfg2 t0) (toCheck 0 0 1)) _ 0 (quiet 0) hc
    (cond_step_exec_single cfg2 _ 0 (quiet 0) (by decide) (by decide!))
  ⟨cfg2_valid, hs, by decide!, h.1.2.2, hc, by decide!, h.2.2.2⟩

/-- Counting conversations as C `int`s, in both strategies.  Follow a worker
from any point inside call placement to its return, whatever the other workers
do in between: it returns `true` after one `conversations++` of its own counter,
or `false` with the counter unchanged.  From any point inside one iteration of
the loop of `handle_incoming` to the end of that iteration the own counter is
incremented once.  A step never changes the counter of a talker other than the
one whose worker takes it, and it leaves the own counter as it is or increments
it.  The increment is `+ 1` for every counter below `INT_MAX` and wraps to
`INT_MIN` at `INT_MAX`. -/
theorem conversations_count (cfg : Config) (p : Nat) :
    ((∀ (s : Sem.Shared) (tr : List (Nat × Env)), (s.frames p).pc.inCall = true →
        (∀ n, n < tr.length → ((Sem.exec cfg s (tr.take n)).frames p).pc.inCall = true) →
        ((Sem.exec cfg s tr).frames p).pc.inCall = false →
        ∃ b : Bool, ((Sem.exec cfg s tr).frames p).pc = .call_ret b ∧
          ((Sem.exec cfg s tr).talkers p).conversations =
            (if b then wrapInt ((s.talkers p).conversations + 1)
              else (s.talkers p).conversations)) ∧
      (∀ (s : Sem.Shared) (tr : List (Nat × Env)), (s.frames p).pc.inDrain = true →
        (∀ n, n < tr.length → ((Sem.exec cfg s (tr.take n)).frames p).pc.inDrain = true) →
        ((Sem.exec cfg s tr).frames p).pc.inDrain = false →
        ((Sem.exec cfg s tr).talkers p).conversations =
          wrapInt ((s.talkers p).conversations + 1)) ∧
      (∀ (s s2 : Sem.Shared) (e : Env), Sem.step cfg s p e = some s2 →
        (∀ j, j ≠ p → (s2.talkers j).conversations = (s.talkers j).conversations) ∧
        ((s2.talkers p).conversations = (s.talkers p).conversations ∨
          (s2.talkers p).conversations = wrapInt ((s.talkers p).conversations + 1)))) ∧
    ((∀ (s : Cond.Shared) (tr : List (Nat × Env)), (s.frames p).pc.inCall = true →
        (∀ n, n < tr.length → ((Cond.exec cfg s (tr.take n)).frames p).pc.inCall = true) →
        ((Cond.exec cfg s tr).frames p).pc.inCall = false →
        ∃ b : Bool, ((Cond.exec cfg s tr).frames p).pc = .call_ret b ∧
          ((Cond.exec cfg s tr).talkers p).conversations =
            (if b then wrapInt ((s.talkers p).conversations + 1)
              else (s.talkers p).conversations)) ∧
      (∀ (s : Cond.Shared) (tr : List (Nat × Env)), (s.frames p).pc.inDrain = true →
        (∀ n, n < tr.length → ((Cond.exec cfg s (tr.take n)).frames p).pc.inDrain = true) →
        ((Cond.exec cfg s tr).frames p).pc.inDrain = false →
        ((Cond.exec cfg s tr).talkers p).conversations =
          wrapInt ((s.talkers p).conversations + 1)) ∧
      (∀ (s s2 : Cond.Shared) (e : Env), Cond.step cfg s p e = some s2 →
        (∀ j, j ≠ p → (s2.talkers j).conversations = (s.talkers j).conversations) ∧
        ((s2.talkers p).conversations = (s.talkers p).conversations ∨
          (s2.talkers p).conversations = wrapInt ((s.talkers p).conversations + 1)))) ∧
    (∀ c : Int, -2147483648 ≤ c → c < 2147483647 → wrapInt (c + 1) = c + 1) ∧
    wrapInt (2147483647 + 1) = -2147483648 := by
  refine ⟨⟨fun s tr => sem_call_counts cfg p tr s, fun s tr => sem_drain_counts cfg p tr s,
      ?_⟩,
    ⟨fun s tr => cond_call_counts cfg p tr s, fun s tr => cond_drain_counts cfg p tr s, ?_⟩,
    fun c h1 h2 => by unfold wrapInt; omega, by decide⟩
  · intro s s2 e hst
    have h := sem_step_conversations hst
    refine ⟨fun j hj => by rw [h j]; simp [hj], ?_⟩
    rw [h p]
    split
    · right; rfl
    · left; rfl
  · intro s s2 e hst
    have h := cond_step_conversations hst
    refine ⟨fun j hj => by rw [h j]; simp [hj], ?_⟩
    rw [h p]
    split
    · right; rfl
    · left; rfl

theorem conversations_count_witness :
    (∃ b : Bool, ((Sem.exec cfg2 Sem.atCallStart Sem.answeredCall).frames 0).pc = .call_ret b ∧
        ((Sem.exec cfg2 Sem.atCallStart Sem.answeredCall).talkers 0).conversations =
          (if b then wrapInt ((Sem.atCallStart.talkers 0).conversations + 1)
            else (Sem.atCallStart.talkers 0).conversations)) ∧
      ((Sem.exec cfg2 Sem.atCallStart Sem.answeredCall).frames 0).pc = .call_ret true ∧
      ((Sem.exec cfg2 (Sem.exec cfg2 Sem.atCallStart (Sem.answeredCall.take 9))
          (moves 1 4)).talkers 1).conversations =
        wrapInt
          (((Sem.exec cfg2 Sem.atCallStart (Sem.answeredCall.take 9)).talkers 1).conversations
            + 1) ∧
      (∃ b : Bool, ((Cond.exec cfg2 Cond.atCallStart Cond.answeredCall).frames 0).pc = .call_ret b ∧
        ((Cond.exec cfg2 Cond.atCallStart Cond.answeredCall).talkers 0).conversations =
          (if b then wrapInt ((Cond.atCallStart.talkers 0).conversations + 1)
            else (Cond.atCallStart.talkers 0).conversations)) ∧
      ((Cond.exec cfg2 Cond.atCallStart Cond.answeredCall).frames 0).pc = .call_ret true ∧
      ((Cond.exec cfg2 (Cond.exec cfg2 Cond.atCallStart (Cond.answeredCall.take 9))
          (moves 1 4)).talkers 1).conversations =
        wrapInt
          (((Cond.exec cfg2 Cond.atCallStart (Cond.answeredCall.take 9)).talkers 1).conversations
            + 1) :=
  ⟨(conversations_count cfg2 0).1.1 Sem.atCallStart Sem.answeredCall (by decide!) (by decide!)
      (by decide!),
    by decide!,
    (conversations_count cfg2 1).1.2.1 (Sem.exec cfg2 Sem.atCallStart (Sem.answeredCall.take 9))
      (moves 1 4) (by decide!) (by decide!) (by decide!),
    (conversations_count cfg2 0).2.1.1 Cond.atCallStart Cond.answeredCall (by decide!) (by decide!)
      (by decide!),
    by decide!,
    (conversations_count cfg2 1).2.1.2.1
      (Cond.exec cfg2 Cond.atCallStart (Cond.answeredCall.take 9)) (moves 1 4) (by decide!)
      (by decide!) (by decide!)⟩

/-- C10, evaluated in `semaphore_mode.c`: the race of C1 and C2 continued.
Talker 0 holds the single undrained record `{1, 52}` and two semaphore tokens,
one of them left over from the overwritten call of talker 2.  Its drain loop
runs twice for that one call, the second time on the cleared record, and counts
two conversations; at the end talker 0 has counted 3 conversations and talker 1
has counted 2, although only two conversations took place (0 with 1, and 1
with 0), while talker 2 is still waiting for its answer with a count of 0, and
talker 1 is left with a spare acknowledgment. -/
theorem call_drained_twice :
    Sem.Reachable cfg3 t0 (Sem.exec cfg3 Sem.raceDeposited
        (Sem.raceOwnCallDone ++ Sem.raceSecondCaller ++ Sem.raceToDrain ++
          Sem.raceDoubleDrain)) ∧
      (((Sem.exec cfg3 Sem.raceDeposited
          (Sem.raceOwnCallDone ++ Sem.raceSecondCaller ++ Sem.raceToDrain)).talkers 0).incoming,
        ((Sem.exec cfg3 Sem.raceDeposited
          (Sem.raceOwnCallDone ++ Sem.raceSecondCaller ++ Sem.raceToDrain)).talkers
            0).incoming_sem,
        ((Sem.exec cfg3 Sem.raceDeposited
          (Sem.raceOwnCallDone ++ Sem.raceSecondCaller ++ Sem.raceToDrain)).frames 0).pc) =
        (⟨1, 52, true⟩, 1, .hi_take .first) ∧
      (List.range 3).map (fun i => ((Sem.exec cfg3 Sem.raceDeposited
          (Sem.raceOwnCallDone ++ Sem.raceSecondCaller ++ Sem.raceToDrain)).talkers
            i).conversations) = [1, 1, 0] ∧
      ((Sem.exec cfg3 Sem.raceDeposited
          (Sem.raceOwnCallDone ++ Sem.raceSecondCaller ++ Sem.raceToDrain ++
            moves 0 1)).frames 0).req = ⟨1, 52, true⟩ ∧
      ((Sem.exec cfg3 Sem.raceDeposited
          (Sem.raceOwnCallDone ++ Sem.raceSecondCaller ++ Sem.raceToDrain ++
            moves 0 6)).frames 0).req = ⟨1, 52, false⟩ ∧
      (List.range 3).map (fun i => ((Sem.exec cfg3 Sem.raceDeposited
          (Sem.raceOwnCallDone ++ Sem.raceSecondCaller ++ Sem.raceToDrain ++
            Sem.raceDoubleDrain)).talkers i).conversations) = [3, 2, 0] ∧
      ((Sem.exec cfg3 Sem.raceDeposited
          (Sem.raceOwnCallDone ++ Sem.raceSecondCaller ++ Sem.raceToDrain ++
            Sem.raceDoubleDrain)).log.count (.finished 0 1 52)) = 2 ∧
      ((Sem.exec cfg3 Sem.raceDeposited
          (Sem.raceOwnCallDone ++ Sem.raceSecondCaller ++ Sem.raceToDrain ++
            Sem.raceDoubleDrain)).log.count (.finished 1 0 52)) = 1 ∧
      (List.range 3).map (fun i => ((Sem.exec cfg3 Sem.raceDeposited
          (Sem.raceOwnCallDone ++ Sem.raceSecondCaller ++ Sem.raceToDrain ++
            Sem.raceDoubleDrain)).frames i).pc) =
        [.after_drain, .call_ret true, .call_wait] ∧
      (List.range 3).map (fun i => ((Sem.exec cfg3 Sem.raceDeposited
          (Sem.raceOwnCallDone ++ Sem.raceSecondCaller ++ Sem.raceToDrain ++
            Sem.raceDoubleDrain)).talkers i).answer_sem) = [0, 1, 0] := by
  refine ⟨?_, by decide!⟩
  exact sem_reachable_exec _ _ _ _ (sem_reachable_exec _ _ _ _ Sem.Reachable.init)

/-- Exhausting the attempts, in both strategies.  Call placement is run from its
entry by the caller alone, no stop is requested and the time budget has not run
out.  When every target it draws is the caller itself or a talker that fails
the availability test of the strategy (in `try_start_call` that test is
`active && !busy`, which a talker with a pending call can pass),
call placement returns `false` after exactly `2 * talkers` target draws (the
attempt counter ends at that value), and changes neither a talker nor the
counter nor another worker.  With a single talker this happens for every
sequence of draws. -/
theorem call_placement_exhausts (cfg : Config) (hN : 0 ≤ cfg.talkers) (p : Nat)
    (sched : Nat → Env)
    (s : Sem.Shared) (hs : (s.frames p).pc = .call_start)
    (hsq : ∀ i, (sched i).stop = false ∧ timed_out cfg s.start_ts (sched i).now = false)
    (c : Cond.Shared) (hc : (c.frames p).pc = .call_start)
    (hcq : ∀ i, c.stop = false ∧ timed_out cfg c.start_ts (sched i).now = false) :
    ((∀ i, ((Sem.runSelf cfg p i sched s).frames p).pc = .call_pick →
        random_range 0 (cfg.talkers - 1) (sched i).rnd = p ∨
        Sem.available (s.talkers (random_range 0 (cfg.talkers - 1) (sched i).rnd).toNat)
          = false) →
      ∃ k, ((Sem.runSelf cfg p k sched s).frames p).pc = .call_ret false ∧
        ((Sem.runSelf cfg p k sched s).frames p).attempts = cfg.talkers * 2 ∧
        (Sem.picks cfg p k sched s : Int) = cfg.talkers * 2 ∧
        Sem.sameShared p s (Sem.runSelf cfg p k sched s)) ∧
    ((∀ i, ((Cond.runSelf cfg p i sched c).frames p).pc = .call_pick →
        random_range 0 (cfg.talkers - 1) (sched i).rnd = p ∨
        Cond.available (c.talkers (random_range 0 (cfg.talkers - 1) (sched i).rnd).toNat)
          = false) →
      ∃ k, ((Cond.runSelf cfg p k sched c).frames p).pc = .call_ret false ∧
        ((Cond.runSelf cfg p k sched c).frames p).attempts = cfg.talkers * 2 ∧
        (Cond.picks cfg p k sched c : Int) = cfg.talkers * 2 ∧
        Cond.sameShared p c (Cond.runSelf cfg p k sched c)) ∧
    (cfg.talkers = 1 → p = 0 →
      (∃ k, ((Sem.runSelf cfg p k sched s).frames p).pc = .call_ret false ∧
        Sem.picks cfg p k sched s = 2 ∧
        Sem.sameShared p s (Sem.runSelf cfg p k sched s)) ∧
      (∃ k, ((Cond.runSelf cfg p k sched c).frames p).pc = .call_ret false ∧
        Cond.picks cfg p k sched c = 2 ∧
        Cond.sameShared p c (Cond.runSelf cfg p k sched c))) := by
  refine ⟨fun hd => sem_try_start_call_exhausts cfg hN p s sched hs hsq hd,
    fun hd => cond_try_call_exhausts cfg hN p c sched hc hcq hd, ?_⟩
  intro h1 hp
  have hself : ∀ r : Nat, random_range 0 (cfg.talkers - 1) r = (p : Int) := by
    intro r
    rw [h1, hp]
    exact random_range_single r
  obtain ⟨k, a1, _, a3, a4⟩ :=
    sem_try_start_call_exhausts cfg hN p s sched hs hsq (fun i _ => Or.inl (hself _))
  obtain ⟨k2, b1, _, b3, b4⟩ :=
    cond_try_call_exhausts cfg hN p c sched hc hcq (fun i _ => Or.inl (hself _))
  rw [h1] at a3 b3
  exact ⟨⟨k, a1, by omega, a4⟩, ⟨k2, b1, by omega, b4⟩⟩

theorem call_placement_exhausts_witness :
    (Sem.peerBusy.frames 0).pc = .call_start ∧
      Sem.available (Sem.peerBusy.talkers 1) = false ∧
      (∃ k, ((Sem.runSelf cfg2 0 k (fun _ => quiet 1) Sem.peerBusy).frames 0).pc =
          .call_ret false ∧
        ((Sem.runSelf cfg2 0 k (fun _ => quiet 1) Sem.peerBusy).frames 0).attempts =
          cfg2.talkers * 2 ∧
        (Sem.picks cfg2 0 k (fun _ => quiet 1) Sem.peerBusy : Int) = cfg2.talkers * 2 ∧
        Sem.sameShared 0 Sem.peerBusy (Sem.runSelf cfg2 0 k (fun _ => quiet 1) Sem.peerBusy)) ∧
      (Cond.peerBusy.frames 0).pc = .call_start ∧
      Cond.available (Cond.peerBusy.talkers 1) = false ∧
      (∃ k, ((Cond.runSelf cfg2 0 k (fun _ => quiet 1) Cond.peerBusy).frames 0).pc =
          .call_ret false ∧
        ((Cond.runSelf cfg2 0 k (fun _ => quiet 1) Cond.peerBusy).frames 0).attempts =
          cfg2.talkers * 2 ∧
        (Cond.picks cfg2 0 k (fun _ => quiet 1) Cond.peerBusy : Int) = cfg2.talkers * 2 ∧
        Cond.sameShared 0 Cond.peerBusy
          (Cond.runSelf cfg2 0 k (fun _ => quiet 1) Cond.peerBusy)) :=
  have h := call_placement_exhausts cfg2 (by decide) 0 (fun _ => quiet 1)
    Sem.peerBusy (by decide!) (fun _ => by beta_reduce; decide!)
    Cond.peerBusy (by decide!) (fun _ => by beta_reduce; decide!)
  ⟨by decide!, by decide!, h.1 (fun _ _ => Or.inr (by beta_reduce; decide!)),
    by decide!, by decide!, h.2.1 (fun _ _ => Or.inr (by beta_reduce; decide!))⟩

/-- A worker that cannot move stays where it is, however long it is run. -/
theorem sem_runSelf_stuck (cfg : Config) (p : Nat) (s : Sem.Shared)
    (h : ∀ e, Sem.step cfg s p e = none) (k : Nat) :
    ∀ sched, Sem.runSelf cfg p k sched s = s := by
  induction k with
  | zero => intro sched; rfl
  | succ k ih =>
    intro sched
    simp only [Sem.runSelf, h, Option.getD_none]
    exact ih _

theorem sem_runSelf_add (cfg : Config) (p : Nat) (a b : Nat) :
    ∀ (sched : Nat → Env) (s : Sem.Shared),
      Sem.runSelf cfg p (a + b) sched s =
        Sem.runSelf cfg p b (fun i => sched (i + a)) (Sem.runSelf cfg p a sched s) := by
  induction a with
  | zero => intro sched s; simp [Sem.runSelf]
  | succ a ih =>
    intro sched s
    rw [show a + 1 + b = (a + b) + 1 by omega]
    simp only [Sem.runSelf]
    rw [ih]
    rfl

/-- C7, evaluated in `semaphore_mode.c`: in a reachable state talker 1 enters
call placement while talker 0, the only target it draws, is unavailable: the
pending-call slot of talker 0 still holds the undrained call of talker 2 (its
busy flag is clear).  Run with no stop request and no time budget, talker 1
does not return `false` after `2 * 3` draws with every talker unchanged: after
one draw it overwrites the slot of talker 0, marks talker 0 busy, posts its
semaphore and blocks in `sem_wait`, where it stays however long it is run.
In `condition_mode.c` the same situation ends otherwise: the call of talker 2
is kept, no talker changes and `try_call` returns `false` after six draws. -/
theorem try_start_call_claims_peer_with_pending_call :
    (Sem.Reachable cfg3 t0 Sem.slotFullAtCallStart ∧
      (Sem.slotFullAtCallStart.frames 1).pc = .call_start ∧
      (Sem.slotFullAtCallStart.talkers 0).active = true ∧
      (Sem.slotFullAtCallStart.talkers 0).busy = false ∧
      (Sem.slotFullAtCallStart.talkers 0).incoming = ⟨2, 51, true⟩ ∧
      (Sem.slotFullAtCallStart.talkers 0).incoming_sem = 1 ∧
      random_range 0 (cfg3.talkers - 1) (quiet 0).rnd = 0 ∧
      ((Sem.runSelf cfg3 1 6 (fun _ => quiet 0) Sem.slotFullAtCallStart).frames 1).pc
        = .call_wait ∧
      Sem.picks cfg3 1 6 (fun _ => quiet 0) Sem.slotFullAtCallStart = 1 ∧
      ((Sem.runSelf cfg3 1 6 (fun _ => quiet 0) Sem.slotFullAtCallStart).talkers 0).busy
        = true ∧
      ((Sem.runSelf cfg3 1 6 (fun _ => quiet 0) Sem.slotFullAtCallStart).talkers 0).incoming
        = ⟨1, 50, true⟩ ∧
      ((Sem.runSelf cfg3 1 6 (fun _ => quiet 0) Sem.slotFullAtCallStart).talkers 0).incoming_sem
        = 2 ∧
      (∀ k, ((Sem.runSelf cfg3 1 k (fun _ => quiet 0) Sem.slotFullAtCallStart).frames 1).pc
        ≠ .call_ret false) ∧
      (∀ j,
        ((Sem.runSelf cfg3 1 (6 + j) (fun _ => quiet 0) Sem.slotFullAtCallStart).frames 1).pc
          = .call_wait)) ∧
    (Cond.Reachable cfg3 t0 Cond.slotFullAtCallStart ∧
      (Cond.slotFullAtCallStart.frames 1).pc = .call_start ∧
      (Cond.slotFullAtCallStart.talkers 0).active = true ∧
      (Cond.slotFullAtCallStart.talkers 0).busy = false ∧
      (Cond.slotFullAtCallStart.talkers 0).incoming = ⟨2, 51, true, some 2⟩ ∧
      ((Cond.runSelf cfg3 1 20 (fun _ => quiet 0) Cond.slotFullAtCallStart).frames 1).pc
        = .call_ret false ∧
      Cond.picks cfg3 1 20 (fun _ => quiet 0) Cond.slotFullAtCallStart = 6 ∧
      (∀ j : Fin 3,
        (Cond.runSelf cfg3 1 20 (fun _ => quiet 0) Cond.slotFullAtCallStart).talkers j
          = Cond.slotFullAtCallStart.talkers j)) := by
  have hpc : ((Sem.runSelf cfg3 1 6 (fun _ => quiet 0) Sem.slotFullAtCallStart).frames 1).pc
      = .call_wait := by decide!
  have hsem :
      ((Sem.runSelf cfg3 1 6 (fun _ => quiet 0) Sem.slotFullAtCallStart).talkers 1).answer_sem
        = 0 := by decide!
  have hlate : ∀ k, 6 ≤ k →
      Sem.runSelf cfg3 1 k (fun _ => quiet 0) Sem.slotFullAtCallStart =
        Sem.runSelf cfg3 1 6 (fun _ => quiet 0) Sem.slotFullAtCallStart := by
    intro k hk
    obtain ⟨j, rfl⟩ : ∃ j, k = 6 + j := ⟨k - 6, by omega⟩
    rw [sem_runSelf_add]
    exact sem_runSelf_stuck cfg3 1 _ (fun e => by simp [Sem.step, hpc, hsem]) j _
  refine ⟨⟨sem_reachable_exec _ _ _ _ (sem_reachable_exec _ _ _ _ Sem.Reachable.init),
      by decide!, by decide!, by decide!, by decide!, by decide!, by decide!, hpc, by decide!,
      by decide!, by decide!, by decide!, ?_, ?_⟩,
    ⟨cond_reachable_exec _ _ _ _ (cond_reachable_exec _ _ _ _ Cond.Reachable.init),
      by decide!, by decide!, by decide!, by decide!, by decide!, by decide!, by decide!⟩⟩
  · intro k
    by_cases hk : 6 ≤ k
    · rw [hlate k hk, hpc]; decide
    · have hk6 : k < 6 := by omega
      interval_cases k <;> decide!
  · intro j
    rw [hlate (6 + j) (by omega), hpc]

/-! ## The availability check and the pending slot -/

/-- The critical section of `try_start_call` on the callee: the call is
deposited exactly when the callee is active and not busy, whatever its
pending-call slot holds; otherwise no talker changes. -/
theorem sem_call_check_spec (cfg : Config) (s : Sem.Shared) (p : Nat) (e : Env)
    (hpc : (s.frames p).pc = .call_check) :
    ∃ s2, Sem.step cfg s p e = some s2 ∧
      (((s.talkers (s.frames p).target.toNat).active = true ∧
          (s.talkers (s.frames p).target.toNat).busy = false) →
        (s2.talkers (s.frames p).target.toNat).busy = true ∧
          (s2.talkers (s.frames p).target.toNat).incoming =
            ⟨p, (s.frames p).duration, true⟩ ∧
          (s2.frames p).pc = .call_self_busy) ∧
      (¬ ((s.talkers (s.frames p).target.toNat).active = true ∧
          (s.talkers (s.frames p).target.toNat).busy = false) →
        s2.talkers = s.talkers ∧ (s2.frames p).pc = .call_loop) := by
  by_cases hav : Sem.available (s.talkers (s.frames p).target.toNat) = true
  · refine ⟨_, by simp only [Sem.step, hpc, hav, if_true]; rfl, ?_, ?_⟩
    · intro _
      simp [Sem.Shared.goto, Sem.Shared.setTalker]
    · intro hn
      simp [Sem.available] at hav
      exact absurd hav hn
  · refine ⟨_, by simp only [Sem.step, hpc, hav]; rfl, ?_, ?_⟩
    · intro hy
      simp [Sem.available, hy] at hav
    · intro _
      simp [Sem.Shared.setFrame, Sem.Shared.emit]

/-- The critical section of `try_call` on the callee: the call is deposited
exactly when the callee is active, not busy and has an empty pending-call slot;
otherwise no talker changes. -/
theorem cond_call_check_spec (cfg : Config) (s : Cond.Shared) (p : Nat) (e : Env)
    (hpc : (s.frames p).pc = .call_check) :
    ∃ s2, Cond.step cfg s p e = some s2 ∧
      (((s.talkers (s.frames p).target.toNat).active = true ∧
          (s.talkers (s.frames p).target.toNat).busy = false ∧
          (s.talkers (s.frames p).target.toNat).incoming.ready = false) →
        (s2.talkers (s.frames p).target.toNat).busy = true ∧
          (s2.talkers (s.frames p).target.toNat).incoming =
            ⟨p, (s.frames p).duration, true, some p⟩ ∧
          (s2.frames p).pc = .call_self_busy) ∧
      (¬ ((s.talkers (s.frames p).target.toNat).active = true ∧
          (s.talkers (s.frames p).target.toNat).busy = false ∧
          (s.talkers (s.frames p).target.toNat).incoming.ready = false) →
        s2.talkers = s.talkers ∧ (s2.frames p).pc = .call_loop) := by
  by_cases hav : Cond.available (s.talkers (s.frames p).target.toNat) = true
  · refine ⟨_, by simp only [Cond.step, hpc, hav, if_true]; rfl, ?_, ?_⟩
    · intro _
      simp [Cond.Shared.goto, Cond.Shared.setTalker]
    · intro hn
      simp [Cond.available] at hav
      exact absurd ⟨hav.1.1, hav.1.2, hav.2⟩ hn
  · refine ⟨_, by simp only [Cond.step, hpc, hav]; rfl, ?_, ?_⟩
    · intro hy
      simp [Cond.available, hy] at hav
    · intro _
      simp [Cond.Shared.setFrame, Cond.Shared.emit]

/-- In the condition strategy a pending call stays in its slot, untouched by
every step of every worker, until its owner reads it in `handle_incoming`, and
that read copies exactly the pending record. -/
theorem cond_pending_kept_until_drained {cfg : Config} {s s2 : Cond.Shared} {q : Nat} {e : Env}
    (h : Cond.step cfg s q e = some s2) (j : Nat)
    (hr : (s.talkers j).incoming.ready = true) :
    (s2.talkers j).incoming = (s.talkers j).incoming ∨
      (q = j ∧ (s2.frames j).info = (s.talkers j).incoming ∧
        (s2.talkers j).incoming.ready = false) := by
  unfold Cond.step at h
  dsimp only at h
  generalize (s.frames q).target.toNat = c at h
  by_cases hjq : q = j
  · subst hjq
    cases hpc : (s.frames q).pc <;> simp only [hpc] at h <;> (repeat' split at h) <;>
      simp only [Option.some.injEq, reduceCtorEq] at h <;> subst h <;>
      (try simp only [Cond.barrier_wait]) <;> (repeat' split) <;>
      simp_all [Cond.Shared.goto, Cond.Shared.setTalker, Cond.Shared.setFrame,
        Cond.Shared.emit, Cond.finish, Cond.available, Function.update_apply] <;>
      (try (split <;> simp_all))
  · have hjq2 : j ≠ q := fun hc => hjq hc.symm
    left
    cases hpc : (s.frames q).pc <;> simp only [hpc] at h <;> (repeat' split at h) <;>
      simp only [Option.some.injEq, reduceCtorEq] at h <;> subst h <;>
      (try simp only [Cond.barrier_wait]) <;> (repeat' split) <;>
      simp_all [Cond.Shared.goto, Cond.Shared.setTalker, Cond.Shared.setFrame,
        Cond.Shared.emit, Cond.finish, Cond.available, Function.update_apply] <;>
      (try (split <;> simp_all))

/-! ## The time budget -/

/-- C11 as stated fails: with a budget of one second, the start instant at
0.9 s and the clock at 1.0 s, `timed_out` reports the budget as elapsed although
only a tenth of a second has passed. -/
theorem timed_out_before_full_seconds :
    Timespec.normal ⟨0, 900000000⟩ ∧ Timespec.normal ⟨1, 0⟩ ∧
      cfgBudget.duration_seconds = 1 ∧
      elapsedNanos ⟨0, 900000000⟩ ⟨1, 0⟩ = 100000000 ∧
      budget_elapsed cfgBudget ⟨0, 900000000⟩ ⟨1, 0⟩ = false ∧
      timed_out cfgBudget ⟨0, 900000000⟩ ⟨1, 0⟩ = true := by
  refine ⟨by unfold Timespec.normal; decide, by unfold Timespec.normal; decide, rfl,
    by decide, by decide, by decide⟩

/-- C11, amended: `timed_out` is false for every clock reading when
`duration_seconds ≤ 0`; for a positive budget it is true exactly when the
whole-second fields of the two readings differ by at least `duration_seconds`.
For normalised readings it is therefore true whenever `duration_seconds` full
seconds have elapsed, and when it is true more than `duration_seconds - 1`
seconds have elapsed. -/
theorem timed_out_whole_seconds (cfg : Config) (start_ts now : Timespec)
    (hs : start_ts.normal) (hn : now.normal) :
    (cfg.duration_seconds ≤ 0 → timed_out cfg start_ts now = false) ∧
    (0 < cfg.duration_seconds →
      (timed_out cfg start_ts now = true ↔
        cfg.duration_seconds ≤ now.tv_sec - start_ts.tv_sec)) ∧
    (budget_elapsed cfg start_ts now = true → timed_out cfg start_ts now = true) ∧
    (timed_out cfg start_ts now = true →
      (cfg.duration_seconds - 1) * 1000000000 < elapsedNanos start_ts now) := by
  obtain ⟨hs1, hs2⟩ := hs
  obtain ⟨hn1, hn2⟩ := hn
  refine ⟨?_, ?_, ?_, ?_⟩
  · intro h
    simp [timed_out, h]
  · intro h
    have : ¬ cfg.duration_seconds ≤ 0 := by omega
    simp [timed_out, this]
  · intro h
    simp only [budget_elapsed, elapsedNanos, decide_eq_true_eq] at h
    obtain ⟨h1, h2⟩ := h
    have : ¬ cfg.duration_seconds ≤ 0 := by omega
    simp only [timed_out, this, if_false, decide_eq_true_eq, ge_iff_le]
    omega
  · intro h
    unfold timed_out at h
    split at h
    · exact absurd h (by simp)
    · simp only [decide_eq_true_eq, ge_iff_le] at h
      unfold elapsedNanos
      omega

theorem timed_out_whole_seconds_witness :
    Timespec.normal ⟨0, 900000000⟩ ∧ Timespec.normal ⟨1, 0⟩ ∧
      (timed_out cfgBudget ⟨0, 900000000⟩ ⟨1, 0⟩ = true ↔
        cfgBudget.duration_seconds ≤ (1 : Int) - 0) ∧
      (cfgBudget.duration_seconds - 1) * 1000000000 < elapsedNanos ⟨0, 900000000⟩ ⟨1, 0⟩ ∧
      timed_out cfg2 ⟨0, 900000000⟩ ⟨1, 0⟩ = false ∧
      timed_out cfgBudget ⟨0, 900000000⟩ ⟨2, 0⟩ = true :=
  have h1 : Timespec.normal ⟨0, 900000000⟩ := by unfold Timespec.normal; decide
  have h2 : Timespec.normal ⟨1, 0⟩ := by unfold Timespec.normal; decide
  have h3 : Timespec.normal ⟨2, 0⟩ := by unfold Timespec.normal; decide
  have h := timed_out_whole_seconds cfgBudget ⟨0, 900000000⟩ ⟨1, 0⟩ h1 h2
  ⟨h1, h2, h.2.1 (by decide), h.2.2.2 (by decide),
    (timed_out_whole_seconds cfg2 ⟨0, 900000000⟩ ⟨1, 0⟩ h1 h2).1 (by decide),
    (timed_out_whole_seconds cfgBudget ⟨0, 900000000⟩ ⟨2, 0⟩ h1 h3).2.2.1 (by decide)⟩

/-! ## Bounded random numbers -/

/-- C12: for C ints `min ≤ max` whose span `max - min + 1` does not overflow an
`int`, and every value `r` returned by `rand()`, `random_range min max r` lies
between `min` and `max`; with `min = max` it is `min` for every `r`.  In both
strategies the call duration drawn at the entry of call placement is therefore
the configured constant when `min_call_ms = max_call_ms`. -/
theorem random_range_bounds (min max : Int) (r : Nat) :
    (-2147483648 ≤ min → max ≤ 2147483647 → min ≤ max → max - min + 1 ≤ 2147483647 →
      min ≤ random_range min max r ∧ random_range min max r ≤ max) ∧
    (min = max → random_range min max r = min) ∧
    (∀ (cfg : Config) (s s2 : Sem.Shared) (p : Nat) (e : Env),
      cfg.min_call_ms = cfg.max_call_ms → (s.frames p).pc = .call_start →
      Sem.step cfg s p e = some s2 → (s2.frames p).duration = cfg.min_call_ms) ∧
    (∀ (cfg : Config) (s s2 : Cond.Shared) (p : Nat) (e : Env),
      cfg.min_call_ms = cfg.max_call_ms → (s.frames p).pc = .call_start →
      Cond.step cfg s p e = some s2 → (s2.frames p).duration = cfg.min_call_ms) := by
  have heq : ∀ a b : Int, a = b → ∀ n : Nat, random_range a b n = a := by
    intro a b hab n
    unfold random_range
    rw [if_pos (by omega)]
  refine ⟨?_, fun h => heq min max h r, ?_, ?_⟩
  · intro h0 hmax h1 h2
    unfold random_range
    split
    · omega
    · rename_i hlt
      have hspan : wrapInt (max - min + 1) = max - min + 1 := by
        rw [wrapInt_of_range] <;> omega
      simp only [hspan]
      have hpos : (0 : Int) < max - min + 1 := by omega
      have hr : (0 : Int) ≤ (r : Int) := Int.ofNat_nonneg r
      have h3 : 0 ≤ Int.tmod (r : Int) (max - min + 1) := Int.tmod_nonneg _ hr
      have h4 : Int.tmod (r : Int) (max - min + 1) < max - min + 1 :=
        Int.tmod_lt_of_pos _ hpos
      rw [wrapInt_of_range] <;> omega
  · intro cfg s s2 p e hc hpc hst
    simp only [Sem.step, hpc, Option.some.injEq] at hst
    subst hst
    simp [Sem.Shared.setFrame, heq _ _ hc]
  · intro cfg s s2 p e hc hpc hst
    simp only [Cond.step, hpc, Option.some.injEq] at hst
    subst hst
    simp [Cond.Shared.setFrame, heq _ _ hc]

theorem random_range_bounds_witness :
    ((50 : Int) ≤ random_range 50 59 1234567 ∧ random_range 50 59 1234567 ≤ 59) ∧
      ((-2147483648 : Int) ≤ random_range (-2147483648) (-2) 2147483647 ∧
        random_range (-2147483648) (-2) 2147483647 ≤ -2) ∧
      random_range 10 10 987654321 = 10 :=
  ⟨(random_range_bounds 50 59 1234567).1 (by decide) (by decide) (by decide) (by decide),
    (random_range_bounds (-2147483648) (-2) 2147483647).1 (by decide) (by decide) (by decide) (by decide),
    (random_range_bounds 10 10 987654321).2.1 rfl⟩

/-! ## The abort branch of `try_start_call` -/

theorem sem_step_abort {cfg : Config} {s s2 : Sem.Shared} {p : Nat} {e : Env}
    (h : Sem.step cfg s p e = some s2) (ha : (s2.frames p).pc = .call_abort) :
    (s.frames p).pc = .call_woken ∧ (s.talkers p).active = false := by
  unfold Sem.step at h
  cases hpc : (s.frames p).pc <;> (try (rename_i k; cases k)) <;>
    simp only [hpc] at h <;> (try split at h) <;>
    simp only [Option.some.injEq, reduceCtorEq] at h <;> subst h <;>
    simp_all [Sem.Shared.goto, Sem.Shared.setTalker, Sem.Shared.setFrame, Sem.Shared.emit,
      Sem.finish_conversation, Sem.release_self, Function.update_apply, Sem.afterHandle]

theorem sem_step_leave_flow {cfg : Config} {s s2 : Sem.Shared} {p : Nat} {e : Env}
    (h : Sem.step cfg s p e = some s2) :
    ((s.frames p).pc = .leave_flag → (s2.frames p).pc = .leave_count) ∧
      ((s.frames p).pc = .leave_count → (s2.frames p).pc = .exit_check) ∧
      ((s.frames p).pc = .exit_check → (s2.frames p).pc = .done) ∧
      ((s.frames p).pc = .call_woken → (s.talkers p).active = true →
        (s2.frames p).pc = .call_talk) := by
  unfold Sem.step at h
  cases hpc : (s.frames p).pc <;> (try (rename_i k; cases k)) <;>
    simp only [hpc] at h <;> (try split at h) <;>
    simp only [Option.some.injEq, reduceCtorEq] at h <;> subst h <;>
    simp_all [Sem.Shared.goto, Sem.Shared.setTalker, Sem.Shared.setFrame, Sem.Shared.emit,
      Sem.finish_conversation, Sem.release_self, Function.update_apply, Sem.afterHandle]

theorem sem_inCall_not_gone (l : Sem.Loc) (h : l.inCall = true) : l.gone = false := by
  cases l <;> simp_all [Sem.Loc.inCall, Sem.Loc.gone]

/-- No worker ever stands at the abort branch of `try_start_call`. -/
theorem sem_never_abort {cfg : Config} {ts : Timespec} {s : Sem.Shared}
    (hr : Sem.Reachable cfg ts s) (p : Nat) : (s.frames p).pc ≠ .call_abort := by
  induction hr with
  | init => simp [Sem.init]
  | step s s2 q e hs hq hst ih =>
    by_cases hqp : p = q
    · subst hqp
      intro ha
      obtain ⟨h1, h2⟩ := sem_step_abort hst ha
      have := sem_active_of_not_gone hs p hq (by rw [h1]; rfl)
      rw [h2] at this
      exact absurd this (by simp)
    · rw [sem_step_frames_other hst p hqp]
      exact ih

/-- C13: in the semaphore strategy a step changes an `active` flag only by
clearing the flag of the worker that takes it, in the first write of
`leave_network`; from there the worker goes straight through the decrement and
the final check to its return and never comes back.  Hence a worker inside
`try_start_call` has its own flag set, after `sem_wait` it always continues
with the conversation, and no worker of any reachable state stands at the
abort branch (`release_self`, `return false`). -/
theorem abort_branch_never_taken (cfg : Config) (ts : Timespec) (s s2 : Sem.Shared)
    (p : Nat) (e : Env) (hs : Sem.Reachable cfg ts s) (hp : (p : Int) < cfg.talkers)
    (hst : Sem.step cfg s p e = some s2) :
    (∀ j, (s2.talkers j).active ≠ (s.talkers j).active →
      j = p ∧ (s.frames p).pc = .leave_flag ∧ (s2.talkers j).active = false) ∧
    ((s.frames p).pc = .leave_flag → (s2.frames p).pc = .leave_count) ∧
    ((s.frames p).pc = .leave_count → (s2.frames p).pc = .exit_check) ∧
    ((s.frames p).pc = .exit_check → (s2.frames p).pc = .done) ∧
    ((s.frames p).pc.gone = true → (s2.frames p).pc.gone = true) ∧
    ((s.frames p).pc.inCall = true → (s.talkers p).active = true) ∧
    ((s.frames p).pc = .call_woken → (s2.frames p).pc = .call_talk) ∧
    (∀ q, (s.frames q).pc ≠ .call_abort) ∧
    (∀ q, (s2.frames q).pc ≠ .call_abort) := by
  have hflow := sem_step_leave_flow hst
  have hact := sem_step_active hst
  have hcall : (s.frames p).pc.inCall = true → (s.talkers p).active = true :=
    fun h => sem_active_of_not_gone hs p hp (sem_inCall_not_gone _ h)
  refine ⟨?_, hflow.1, hflow.2.1, hflow.2.2.1, sem_step_gone_stays hst, hcall, ?_,
    fun q => sem_never_abort hs q,
    fun q => sem_never_abort (Sem.Reachable.step s s2 p e hs hp hst) q⟩
  · intro j hj
    rw [hact j] at hj ⊢
    by_cases hcond : (s.frames p).pc = .leave_flag ∧ j = p
    · exact ⟨hcond.2, hcond.1, by rw [if_pos hcond]⟩
    · rw [if_neg hcond] at hj
      exact absurd rfl hj
  · intro hw
    exact hflow.2.2.2 hw (hcall (by rw [hw]; rfl))

theorem abort_branch_never_taken_witness :
    Sem.Reachable cfg2 t0 (Sem.exec cfg2 Sem.atCallStart (Sem.answeredCall.take 12)) ∧
      ((Sem.exec cfg2 Sem.atCallStart (Sem.answeredCall.take 12)).frames 0).pc = .call_woken ∧
      ((Sem.exec cfg2 Sem.atCallStart (Sem.answeredCall.take 12)).talkers 0).active = true ∧
      ((Sem.exec cfg2 (Sem.exec cfg2 Sem.atCallStart (Sem.answeredCall.take 12))
        [(0, quiet 0)]).frames 0).pc = .call_talk ∧
      (∀ q, ((Sem.exec cfg2 Sem.atCallStart (Sem.answeredCall.take 12)).frames q).pc ≠
        .call_abort) :=
  have hs : Sem.Reachable cfg2 t0 (Sem.exec cfg2 Sem.atCallStart (Sem.answeredCall.take 12)) :=
    sem_reachable_exec cfg2 t0 _ _ (sem_reachable_exec cfg2 t0 _ _ Sem.Reachable.init)
  have h := abort_branch_never_taken cfg2 t0
    (Sem.exec cfg2 Sem.atCallStart (Sem.answeredCall.take 12)) _ 0 (quiet 0) hs (by decide)
    (sem_step_exec_single cfg2 _ 0 (quiet 0) (by decide) (by decide!))
  ⟨hs, by decide!, h.2.2.2.2.2.1 (by decide!), h.2.2.2.2.2.2.1 (by decide!), h.2.2.2.2.2.2.2.1⟩

end Talkers
